import Mathlib

/-! # Portfolio-trader analytics: equity, drawdown, truncation, risk unit, quality grid

A shallow embedding of the numerical core of `tradalia/portfolio-trader`
(`pkg/core/equity.go`, `pkg/core/tools.go`, `pkg/business/quality/quality.go`,
`pkg/business/performance/performance.go`) and of its simulation jobs
(`pkg/business/simulation.go`, `pkg/business/simulation/simulation.go`,
`pkg/business/simulation/process.go`).

Modelling conventions

* `float64` values are modelled by exact rationals `ℚ`: no rounding, no NaN, no
  infinities, and `int(math.Floor(v))` is the integer floor of `v`. Where a
  statement depends on the rounding of `float64`, the functions it is about are
  embedded a second time in the namespace `Rounded`, every `float64` operation
  being rounded by a function `fl`, and `round64` is the rounding of the machine.
* A Go slice is a `List`; a `for _, x := range xs` loop that appends to a slice
  is a left fold whose state carries the loop's local variables.
* A Go `map` is an association list with distinct keys.  `range` over a map
  visits the entries in an order the language leaves unspecified, so every
  statement about such a loop quantifies over the visiting order (a permutation
  of the entries).
-/

namespace PortfolioTrader

/-! ## `pkg/core/equity.go` -/

/-- Loop state of `BuildEquity`: the slice built so far and the running `value`. -/
structure EquityState where
  equity : List ℚ
  value : ℚ
deriving DecidableEq

/-- One iteration of the loop of `BuildEquity`: `value += profit; equity = append(equity, value)`. -/
def equityStep (s : EquityState) (profit : ℚ) : EquityState :=
  let value := s.value + profit
  { equity := s.equity ++ [value], value := value }

/-- `BuildEquity` of `equity.go`: the running sum of the profits. -/
def BuildEquity (profits : List ℚ) : List ℚ :=
  (profits.foldl equityStep { equity := [], value := 0 }).equity

/-- Loop state of `BuildDrawDown`. -/
structure DrawDownState where
  maxProfit : ℚ
  currDrawDown : ℚ
  maxDrawDown : ℚ
  drawDown : List ℚ
deriving DecidableEq

/-- One iteration of the loop of `BuildDrawDown`. -/
def drawDownStep (s : DrawDownState) (currProfit : ℚ) : DrawDownState :=
  let maxProfit := if currProfit ≥ s.maxProfit then currProfit else s.maxProfit
  let currDrawDown := if currProfit ≥ s.maxProfit then 0 else currProfit - s.maxProfit
  let maxDrawDown := if currDrawDown < s.maxDrawDown then currDrawDown else s.maxDrawDown
  { maxProfit := maxProfit, currDrawDown := currDrawDown, maxDrawDown := maxDrawDown,
    drawDown := s.drawDown ++ [currDrawDown] }

/-- Initial values of the locals of `BuildDrawDown`. -/
def drawDownInit : DrawDownState :=
  { maxProfit := 0, currDrawDown := 0, maxDrawDown := 0, drawDown := [] }

/-- `BuildDrawDown` of `equity.go`: the drawdown series and the max drawdown. -/
def BuildDrawDown (equity : List ℚ) : List ℚ × ℚ :=
  let s := equity.foldl drawDownStep drawDownInit
  (s.drawDown, s.maxDrawDown)

/-- The running peak the specification speaks of: the maximum of `0` and
`e[0], …, e[i]`. -/
def runningPeak (e : List ℚ) (i : Nat) : ℚ :=
  (e.take (i + 1)).foldl max 0

/-! ## Records of package `db` and Go maps -/

/-- The observations the code makes of a `time.Time`: `Year()`, `Month()` (1–12),
`Day()` and `Weekday()` (0–6). -/
structure Time where
  year : Int
  month : Nat
  day : Nat
  weekday : Nat
deriving DecidableEq

/-- Modelled from the spec: the record `db.Trade` (package `db` is not among the
sources), with the fields the code reads: entry date, exit date, gross profit
and trade type. -/
structure Trade where
  EntryDate : Time
  ExitDate : Time
  GrossProfit : ℚ
  TradeType : String
deriving DecidableEq

/-- Modelled from the spec: the constant `db.TradeTypeAll`, the query-time selector
that matches every trade; its string value is not among the sources. -/
def TradeTypeAll : String := "*"

/-- Modelled from the spec: the constant `db.TradeTypeLong`. -/
def TradeTypeLong : String := "LO"

/-- Modelled from the spec: the constant `db.TradeTypeShort`. -/
def TradeTypeShort : String := "SH"

/-- A Go `map[K]V`: an association list with at most one entry per key. -/
abbrev GoMap (K V : Type) := List (K × V)

/-- The lookup `v, ok := m[k]`. -/
def GoMap.get {K V : Type} [DecidableEq K] (m : GoMap K V) (k : K) : Option V :=
  (m.find? (fun e => decide (e.1 = k))).map (fun e => e.2)

/-- The assignment `m[k] = v`: replaces the value of an existing key, adds a new
entry otherwise. -/
def GoMap.set {K V : Type} [DecidableEq K] : GoMap K V → K → V → GoMap K V
  | [], k, v => [(k, v)]
  | e :: m, k, v => if e.1 = k then (k, v) :: m else e :: GoMap.set m k v

/-- The order in which `for k, v := range m` visits the entries of a map. Go
leaves it unspecified; a range order is any function that permutes the entries. -/
def IsMapRange {K V : Type} (range : GoMap K V → List (K × V)) : Prop :=
  ∀ m, (range m).Perm m

/-! ## `pkg/core/tools.go` -/

/-- `Trunc2d` of `tools.go`: `float64(int(math.Floor(value * 100))) / 100`. -/
def Trunc2d (value : ℚ) : ℚ :=
  ((⌊value * 100⌋ : ℤ) : ℚ) / 100

/-- One iteration of step 1 of `CalcRisk`: a negative gross profit is counted
under its own value. -/
def countLossStep (counts : GoMap ℚ Nat) (t : Trade) : GoMap ℚ Nat :=
  let profit := t.GrossProfit
  if profit < 0 then
    match counts.get profit with
    | none => counts.set profit 1
    | some count => counts.set profit (count + 1)
  else counts

/-- Step 1 of `CalcRisk`: the distribution of losses. -/
def lossCounts (trades : List Trade) : GoMap ℚ Nat :=
  trades.foldl countLossStep []

/-- The locals of step 2 of `CalcRisk`. -/
structure StopLossState where
  stopLoss : ℚ
  bestCount : Nat
deriving DecidableEq

/-- One iteration of step 2 of `CalcRisk`, visiting the entry `loss, count`. -/
def stopLossStep (s : StopLossState) (e : ℚ × Nat) : StopLossState :=
  if e.2 > s.bestCount then { stopLoss := e.1, bestCount := e.2 } else s

/-- `CalcRisk` of `tools.go`; `range` is the order in which the loop of step 2
visits the entries of `counts`. -/
def CalcRisk (range : GoMap ℚ Nat → List (ℚ × Nat)) (trades : List Trade) : Except String ℚ :=
  let counts := lossCounts trades
  let s := (range counts).foldl stopLossStep { stopLoss := 0, bestCount := 0 }
  if s.bestCount = 0 then .error "no losses found" else .ok |s.stopLoss|

/-- Number of trades whose gross profit is exactly `v`. -/
def occurrences (trades : List Trade) (v : ℚ) : Nat :=
  (trades.filter (fun t => decide (t.GrossProfit = v))).length

/-! ## `pkg/platform/data-collector.go` and `pkg/business/quality/quality.go` -/

/-- `DailyResult` of `data-collector.go`: the market regime of one calendar day. -/
structure DailyResult where
  Date : Int
  Price : ℚ
  PercDailyChange : ℚ
  Sqn100 : ℚ
  TrueRange : ℚ
  PercAtr20 : ℚ
  Direction : Int
  Volatility : Int
deriving DecidableEq

/-- `platform.DirectionStrongBear`. -/
def DirectionStrongBear : Int := -2

/-- `platform.DirectionStrongBull`. -/
def DirectionStrongBull : Int := 2

/-- `platform.VolatilityQuiet`. -/
def VolatilityQuiet : Int := 0

/-- `platform.VolatilityVeryVolatile`. -/
def VolatilityVeryVolatile : Int := 3

/-- `DirectionAll` of `quality.go`. -/
def DirectionAll : Int := 3

/-- `VolatilityAll` of `quality.go`. -/
def VolatilityAll : Int := 4

/-- The functions `quality.go` takes from the numeric libraries
(`stats.MeanAndStdDev` of `golang.org/x/exp/stats`, `math.Sqrt`). They are
taken as total functions; what the library does on an empty sample is outside
the model. -/
structure Stats where
  meanAndStdDev : List ℚ → ℚ × ℚ
  sqrt : ℚ → ℚ

/-- Modelled from the spec: the record `Metrics` of package `quality` (its
declaration is not among the sources): trade count, trade percentage, SQN, SQN
capped at 100 samples and max drawdown. -/
structure Metrics where
  Trades : Nat
  TradesPerc : ℚ
  Sqn : ℚ
  Sqn100 : ℚ
  MaxDrawdown : ℚ
deriving DecidableEq

/-- `buildMarketMap` of `quality.go`: the regime entries keyed by date, a later
entry replacing an earlier one of the same date. -/
def buildMarketMap (list : List DailyResult) : GoMap Int DailyResult :=
  list.foldl (fun res dr => res.set dr.Date dr) []

/-- `mapTrade` of `quality.go`; `toIntDate` is `datatype.ToIntDate` of the library
`tradalia/core`. -/
def mapTrade (toIntDate : Time → Int) (trade : Trade) (marketMap : GoMap Int DailyResult) :
    Int × Int :=
  let date := toIntDate trade.EntryDate
  match marketMap.get date with
  | none => (10, 10)
  | some dr => (dr.Direction, dr.Volatility)

/-- One iteration of step 1 of `calcQualityMetrics`. -/
def collectStep (toIntDate : Time → Int) (tradeType : String) (direction volatility : Int)
    (risk costPerOper : ℚ) (marketMap : GoMap Int DailyResult) (list : List ℚ) (t : Trade) :
    List ℚ :=
  if t.TradeType = tradeType ∨ tradeType = TradeTypeAll then
    let tradeDir := (mapTrade toIntDate t marketMap).1
    let tradeVol := (mapTrade toIntDate t marketMap).2
    if direction = DirectionAll ∨ direction = tradeDir then
      if volatility = VolatilityAll ∨ volatility = tradeVol then
        let returns := t.GrossProfit - 2 * costPerOper
        list ++ [returns / risk]
      else list
    else list
  else list

/-- Step 1 of `calcQualityMetrics`: the R-multiples of the relevant trades. -/
def collectReturns (toIntDate : Time → Int) (trades : List Trade) (tradeType : String)
    (direction volatility : Int) (risk costPerOper : ℚ) (marketMap : GoMap Int DailyResult) :
    List ℚ :=
  trades.foldl (collectStep toIntDate tradeType direction volatility risk costPerOper marketMap) []

/-- `calcMetrics` of `quality.go`. -/
def calcMetrics (stats : Stats) (list : List ℚ) (cell : Metrics) : Metrics :=
  let mean := (stats.meanAndStdDev list).1
  let stdd := (stats.meanAndStdDev list).2
  let listLen : ℚ := (list.length : ℚ)
  let capLen : ℚ := min listLen 100
  let cell1 : Metrics :=
    if stdd > 0 then
      { cell with
        Sqn := Trunc2d (mean / stdd * stats.sqrt listLen)
        Sqn100 := Trunc2d (mean / stdd * stats.sqrt capLen) }
    else cell
  let equity := BuildEquity list
  let maxDD := (BuildDrawDown equity).2
  { cell1 with MaxDrawdown := Trunc2d maxDD }

/-- `calcQualityMetrics` of `quality.go`. -/
def calcQualityMetrics (toIntDate : Time → Int) (stats : Stats) (trades : List Trade)
    (tradeType : String) (direction volatility : Int) (risk costPerOper : ℚ)
    (marketMap : GoMap Int DailyResult) : Metrics :=
  let list := collectReturns toIntDate trades tradeType direction volatility risk costPerOper marketMap
  let cell : Metrics :=
    { Trades := list.length, TradesPerc := 0, Sqn := 0, Sqn100 := 0, MaxDrawdown := 0 }
  if list.length > 0 then
    calcMetrics stats list
      { cell with TradesPerc := Trunc2d (100 * (list.length : ℚ) / (trades.length : ℚ)) }
  else cell

/-- The SQN of a sample as the specification defines it: `mean / stddev × sqrt n`,
truncated by `Trunc2d`. -/
def sqnOver (stats : Stats) (list : List ℚ) : ℚ :=
  Trunc2d ((stats.meanAndStdDev list).1 / (stats.meanAndStdDev list).2
    * stats.sqrt (list.length : ℚ))

/-- A trade whose entry date has an entry in the market-regime lookup. -/
def hasRegime (toIntDate : Time → Int) (marketMap : GoMap Int DailyResult) (t : Trade) : Bool :=
  (marketMap.get (toIntDate t.EntryDate)).isSome

/-- A trade of the requested partition: its type is the requested one, or the
requested type is `TradeTypeAll`. -/
def inPartition (tradeType : String) (t : Trade) : Bool :=
  decide (t.TradeType = tradeType ∨ tradeType = TradeTypeAll)

/-! ## `pkg/core`: profit sequences and R-multiples -/

/-- Loop state of `BuildGrossProfits`: the two slices built so far. -/
structure GrossProfitsState where
  timeSlice : List Time
  equSlice : List ℚ
deriving DecidableEq

/-- One iteration of the loop of `BuildGrossProfits`. -/
def grossProfitsStep (tradeType : String) (s : GrossProfitsState) (tr : Trade) :
    GrossProfitsState :=
  if tradeType = TradeTypeAll ∨ tr.TradeType = tradeType then
    { timeSlice := s.timeSlice ++ [tr.ExitDate], equSlice := s.equSlice ++ [tr.GrossProfit] }
  else s

/-- `BuildGrossProfits` of `equity.go`: exit dates and gross profits of the trades
of the requested type. -/
def BuildGrossProfits (trades : List Trade) (tradeType : String) : List Time × List ℚ :=
  let s := trades.foldl (grossProfitsStep tradeType) { timeSlice := [], equSlice := [] }
  (s.timeSlice, s.equSlice)

/-- `BuildNetProfits` of `equity.go`. -/
def BuildNetProfits (grossProfits : List ℚ) (costPerOper : ℚ) : List ℚ :=
  grossProfits.foldl (fun netSlice gross => netSlice ++ [gross - 2 * costPerOper]) []

/-- One iteration of the loop of `CalcRMultiple`. -/
def rMultipleStep (tradeType : String) (risk costPerOper : ℚ) (list : List ℚ) (t : Trade) :
    List ℚ :=
  if tradeType = TradeTypeAll ∨ tradeType = t.TradeType then
    let returns := t.GrossProfit - 2 * costPerOper
    list ++ [returns / risk]
  else list

/-- `CalcRMultiple` of `tools.go`. -/
def CalcRMultiple (trades : List Trade) (tradeType : String) (risk costPerOper : ℚ) : List ℚ :=
  trades.foldl (rMultipleStep tradeType risk costPerOper) []

/-! ## `pkg/business/performance/performance.go` -/

/-- Modelled from the spec: the record `db.TradingSystem` (package `db` is not
among the sources), with the fields the code reads: identity, name, owner,
timezone and per-side transaction cost. -/
structure TradingSystem where
  Id : Nat
  Name : String
  Username : String
  Timezone : String
  CostPerOperation : ℚ
deriving DecidableEq

namespace Performance

/-- Modelled from the spec: the record `Equities` of package `performance` (its
declaration is not among the sources), as `calcEquities` fills it. -/
structure Equities where
  Time : List Time
  GrossEquity : List ℚ
  NetEquity : List ℚ
  GrossDrawdown : List ℚ
  NetDrawdown : List ℚ
  Trades : Nat
deriving DecidableEq

/-- Modelled from the spec: a figure split into Total, Long and Short. -/
structure Figures where
  Total : ℚ
  Long : ℚ
  Short : ℚ
deriving DecidableEq

/-- Modelled from the spec: the `Gross` and `Net` blocks of the response. -/
structure Summary where
  Profit : Figures
  MaxDrawdown : Figures
  AverageTrade : Figures
deriving DecidableEq

/-- Modelled from the spec: the part of the record `AnalysisResponse` of package
`performance` that `GetPerformanceAnalysis` writes before it calls
`calcAggregates`, `updateGeneralInfo`, `calcDistributions` and `calcRolling`;
those four write the `Aggregates`, `General`, `Distributions` and `Rolling`
blocks only. -/
structure AnalysisResponse where
  TradingSystem : TradingSystem
  Trades : List Trade
  AllEquities : Equities
  LongEquities : Equities
  ShortEquities : Equities
  Gross : Summary
  Net : Summary
deriving DecidableEq

/-- `calcEquities` of `performance.go`. -/
def calcEquities (ts : TradingSystem) (trades : List Trade) (tradeType : String) :
    Equities × ℚ × ℚ :=
  let timeSlice := (BuildGrossProfits trades tradeType).1
  let grossProfits := (BuildGrossProfits trades tradeType).2
  let netProfits := BuildNetProfits grossProfits ts.CostPerOperation
  let grossEquity := BuildEquity grossProfits
  let netEquity := BuildEquity netProfits
  let grossDD := (BuildDrawDown grossEquity).1
  let maxGrossDD := (BuildDrawDown grossEquity).2
  let netDD := (BuildDrawDown netEquity).1
  let maxNetDD := (BuildDrawDown netEquity).2
  ({ Time := timeSlice, GrossEquity := grossEquity, NetEquity := netEquity,
     GrossDrawdown := grossDD, NetDrawdown := netDD, Trades := timeSlice.length },
   maxGrossDD, maxNetDD)

/-- `calcProfit` of `performance.go`: the last value of the equity, `0` when it is
empty. -/
def calcProfit (equity : List ℚ) : ℚ :=
  if equity.length = 0 then 0 else equity.getD (equity.length - 1) 0

/-- `calcAvgTrade` of `performance.go`. -/
def calcAvgTrade (value : ℚ) (count : Nat) : ℚ :=
  if count = 0 then 0 else Trunc2d (value / (count : ℚ))

/-- `GetPerformanceAnalysis` of `performance.go`, up to the call of `calcAggregates`. -/
def GetPerformanceAnalysis (ts : TradingSystem) (trades : List Trade) : AnalysisResponse :=
  let all := calcEquities ts trades TradeTypeAll
  let long := calcEquities ts trades TradeTypeLong
  let short := calcEquities ts trades TradeTypeShort
  let grossProfit : Figures :=
    { Total := calcProfit all.1.GrossEquity, Long := calcProfit long.1.GrossEquity,
      Short := calcProfit short.1.GrossEquity }
  let netProfit : Figures :=
    { Total := calcProfit all.1.NetEquity, Long := calcProfit long.1.NetEquity,
      Short := calcProfit short.1.NetEquity }
  { TradingSystem := ts
    Trades := trades
    AllEquities := all.1
    LongEquities := long.1
    ShortEquities := short.1
    Gross :=
      { Profit := grossProfit
        MaxDrawdown := { Total := all.2.1, Long := long.2.1, Short := short.2.1 }
        AverageTrade :=
          { Total := calcAvgTrade grossProfit.Total all.1.Trades
            Long := calcAvgTrade grossProfit.Long long.1.Trades
            Short := calcAvgTrade grossProfit.Short short.1.Trades } }
    Net :=
      { Profit := netProfit
        MaxDrawdown := { Total := all.2.2, Long := long.2.2, Short := short.2.2 }
        AverageTrade :=
          { Total := calcAvgTrade netProfit.Total all.1.Trades
            Long := calcAvgTrade netProfit.Long long.1.Trades
            Short := calcAvgTrade netProfit.Short short.1.Trades } } }

/-- Modelled from the spec: a trade count split into Total, Long and Short. -/
structure Counts where
  Total : Int
  Long : Int
  Short : Int
deriving DecidableEq

/-- Modelled from the spec: the record `RollingInfo` of package `performance`
(its declaration is not among the sources): trade count, gross-return sum and
net-return sum, each split into Total, Long and Short. -/
structure RollingInfo where
  Trades : Counts
  GrossReturns : Figures
  NetReturns : Figures
deriving DecidableEq

/-- The zero value of `RollingInfo`. -/
def zeroRollingInfo : RollingInfo :=
  { Trades := { Total := 0, Long := 0, Short := 0 }
    GrossReturns := { Total := 0, Long := 0, Short := 0 }
    NetReturns := { Total := 0, Long := 0, Short := 0 } }

/-- `updateRollingInfo` of `performance.go`. -/
def updateRollingInfo (tr : Trade) (ri : RollingInfo) (costPerOper : ℚ) : RollingInfo :=
  let ri1 : RollingInfo :=
    { Trades := { ri.Trades with Total := ri.Trades.Total + 1 }
      GrossReturns := { ri.GrossReturns with Total := ri.GrossReturns.Total + tr.GrossProfit }
      NetReturns :=
        { ri.NetReturns with Total := ri.NetReturns.Total + (tr.GrossProfit - 2 * costPerOper) } }
  if tr.TradeType = TradeTypeLong then
    { Trades := { ri1.Trades with Long := ri1.Trades.Long + 1 }
      GrossReturns := { ri1.GrossReturns with Long := ri1.GrossReturns.Long + tr.GrossProfit }
      NetReturns :=
        { ri1.NetReturns with Long := ri1.NetReturns.Long + (tr.GrossProfit - 2 * costPerOper) } }
  else
    { Trades := { ri1.Trades with Short := ri1.Trades.Short + 1 }
      GrossReturns := { ri1.GrossReturns with Short := ri1.GrossReturns.Short + tr.GrossProfit }
      NetReturns :=
        { ri1.NetReturns with Short := ri1.NetReturns.Short + (tr.GrossProfit - 2 * costPerOper) } }

/-- The Total figure of each block is the sum of its Long and Short figures. -/
def RollingInfo.Split (ri : RollingInfo) : Prop :=
  ri.Trades.Total = ri.Trades.Long + ri.Trades.Short ∧
  ri.GrossReturns.Total = ri.GrossReturns.Long + ri.GrossReturns.Short ∧
  ri.NetReturns.Total = ri.NetReturns.Long + ri.NetReturns.Short

/-- Modelled from the spec: the record `Distribution` of package `performance`
(its declaration is not among the sources), `H` being the type of the
histogram of the statistics library. -/
structure Distribution (H : Type) where
  Mean : ℚ
  Median : ℚ
  StandardDev : ℚ
  SharpeRatio : ℚ
  LowerTail : ℚ
  UpperTail : ℚ
  Skewness : ℚ
  Histogram : H

/-- The functions `calcDistribution` takes from package `core/stats` of the
repository, which is not among the sources; `Get` is the method of the value
`NewPercentile` builds. -/
structure StatsLib (H : Type) where
  Mean : List ℚ → ℚ
  Median : List ℚ → ℚ
  StdDev : List ℚ → ℚ → ℚ
  SharpeRatio : ℚ → ℚ → ℚ
  Skewness : ℚ → ℚ → ℚ → ℚ
  Get : List ℚ → Int → ℚ
  NewHistogram : List ℚ → H

/-- `calcDistribution` of `performance.go`; a nil result is `none`. -/
def calcDistribution {H : Type} (lib : StatsLib H) (data : List ℚ) : Option (Distribution H) :=
  if data.length = 0 then none
  else
    let mean := lib.Mean data
    let median := lib.Median data
    let stdDev := lib.StdDev data mean
    let sharpeR := lib.SharpeRatio mean stdDev
    let skewness := lib.Skewness mean median stdDev
    let perc01 := lib.Get data 1 - mean
    let perc30 := lib.Get data 30 - mean
    let perc70 := lib.Get data 70 - mean
    let perc99 := lib.Get data 99 - mean
    let lowerPercRatio := perc01 / perc30
    let upperPercRatio := perc99 / perc70
    some
      { Mean := Trunc2d mean
        Median := Trunc2d median
        StandardDev := Trunc2d stdDev
        SharpeRatio := Trunc2d sharpeR
        LowerTail := Trunc2d (lowerPercRatio / (443 / 100))
        UpperTail := Trunc2d (upperPercRatio / (443 / 100))
        Skewness := Trunc2d skewness
        Histogram := lib.NewHistogram data }

/-- Modelled from the spec: the record `AnnualAggregate` of package `performance`
(its declaration is not among the sources): the calendar year, the figures
accumulated over the trades of the year, and whether the record is closed. -/
structure AnnualAggregate where
  Year : Int
  Trades : Int
  GrossProfit : ℚ
  NetProfit : ℚ
  Closed : Bool
deriving DecidableEq

/-- The functions of `AnnualAggregate` that `calcYearAggregates` calls; their code
is not among the sources. -/
structure AggregateOps where
  NewAggregate : Trade → ℚ → AnnualAggregate
  addTrade : AnnualAggregate → Trade → ℚ → AnnualAggregate
  consolidate : AnnualAggregate → AnnualAggregate

/-- What the specification says of these functions as far as the year goes: a new
aggregate carries the calendar year of the exit date of its first trade, and
neither `addTrade` nor `consolidate` changes the year. -/
def AggregateOps.KeepsYear (ops : AggregateOps) : Prop :=
  (∀ tr cost, (ops.NewAggregate tr cost).Year = tr.ExitDate.year) ∧
  (∀ a tr cost, (ops.addTrade a tr cost).Year = a.Year) ∧
  (∀ a, (ops.consolidate a).Year = a.Year)

/-- One iteration of the loop of `calcYearAggregates`. The pointer `currYear` is
nil while `list` is empty and points to the last element of `list` afterwards,
so the calls on `currYear` act on that element. -/
def yearStep (ops : AggregateOps) (cost : ℚ) (list : List AnnualAggregate) (tr : Trade) :
    List AnnualAggregate :=
  match list.getLast? with
  | none => list ++ [ops.NewAggregate tr cost]
  | some currYear =>
    if currYear.Year = tr.ExitDate.year then
      list.dropLast ++ [ops.addTrade currYear tr cost]
    else
      list.dropLast ++ [ops.consolidate currYear] ++ [ops.NewAggregate tr cost]

/-- `calcYearAggregates` of `performance.go`: the list it stores in
`res.Aggregates.Annual`. -/
def calcYearAggregates (ops : AggregateOps) (ts : TradingSystem) (trades : List Trade) :
    List AnnualAggregate :=
  let cost := ts.CostPerOperation
  let list := trades.foldl (yearStep ops cost) []
  match list.getLast? with
  | none => list
  | some currYear => list.dropLast ++ [ops.consolidate currYear]

/-- Modelled from the spec: the record `YoYRolling` of package `performance` (its
declaration is not among the sources): a year and its `RollingInfo` buckets. -/
structure YoYRolling where
  Year : Int
  Data : List RollingInfo
deriving DecidableEq

/-- Modelled from the spec: the block `Rolling` of the response: the 7
day-of-week buckets, the 12 month-of-year buckets and the two year-over-year
lists. -/
structure Rolling where
  Daily : List RollingInfo
  Monthly : List RollingInfo
  DayYoY : List YoYRolling
  MonthYoY : List YoYRolling
deriving DecidableEq

/-- The block `Rolling` of a fresh response. -/
def zeroRolling : Rolling :=
  { Daily := List.replicate 7 zeroRollingInfo, Monthly := List.replicate 12 zeroRollingInfo,
    DayYoY := [], MonthYoY := [] }

/-- The call `updateRollingInfo(tr, &buckets[index], costPerOper)`; an index out
of range makes it fail. -/
def updateBucket (buckets : List RollingInfo) (index : Int) (tr : Trade) (costPerOper : ℚ) :
    Option (List RollingInfo) :=
  if 0 ≤ index ∧ index < (buckets.length : Int) then
    match buckets[index.toNat]? with
    | some ri => some (buckets.set index.toNat (updateRollingInfo tr ri costPerOper))
    | none => none
  else none

/-- `updateYoY` of `performance.go`; a nil list is the empty list, and a failed
read of `yoy.Data[slot]` is `none`. -/
def updateYoY (list : List YoYRolling) (year : Int) (tr : Trade) (slot : Int) (costPerOper : ℚ)
    (slots : Nat) : Option (List YoYRolling) :=
  let list1 : List YoYRolling :=
    match list.getLast? with
    | none => list ++ [{ Year := year, Data := List.replicate slots zeroRollingInfo }]
    | some last =>
      if last.Year ≠ year then
        list ++ [{ Year := year, Data := List.replicate slots zeroRollingInfo }]
      else list
  match list1.getLast? with
  | none => none
  | some yoy =>
    match updateBucket yoy.Data slot tr costPerOper with
    | none => none
    | some data => some (list1.dropLast ++ [{ yoy with Data := data }])

/-- One iteration of the loop of `calcRolling`. -/
def rollingStep (costPerOper : ℚ) (st : Option Rolling) (tr : Trade) : Option Rolling :=
  match st with
  | none => none
  | some r =>
    let year := tr.EntryDate.year
    let dow : Int := (tr.EntryDate.weekday : Int)
    let mon : Int := (tr.EntryDate.month : Int) - 1
    match updateBucket r.Daily dow tr costPerOper with
    | none => none
    | some daily =>
      match updateBucket r.Monthly mon tr costPerOper with
      | none => none
      | some monthly =>
        match updateYoY r.DayYoY year tr dow costPerOper 7 with
        | none => none
        | some dayYoY =>
          match updateYoY r.MonthYoY year tr mon costPerOper 12 with
          | none => none
          | some monthYoY =>
            some { Daily := daily, Monthly := monthly, DayYoY := dayYoY, MonthYoY := monthYoY }

/-- `calcRolling` of `performance.go` on the block `rolling` of the response;
`none` is an index out of range. -/
def calcRolling (ts : TradingSystem) (trades : List Trade) (rolling : Rolling) : Option Rolling :=
  trades.foldl (rollingStep ts.CostPerOperation) (some rolling)

/-- What the specification asks of the figures reported for one partition: the
profit is the last value of the partition's equity series and the sum of its
profits (`0` without trades), and the average trade is
`Trunc2d (profit / number of trades)` (`0` without trades). -/
def ReportsPartition (profits equity : List ℚ) (count : Nat) (profit avg : ℚ) : Prop :=
  equity = BuildEquity profits ∧
  profit = equity.getLast?.getD 0 ∧
  profit = profits.sum ∧
  (count = 0 → profit = 0 ∧ avg = 0) ∧
  (count ≠ 0 → avg = Trunc2d (profit / (count : ℚ)))

end Performance

/-- The gross profits of the trades of a partition, in trade order. -/
def partitionGross (trades : List Trade) (tradeType : String) : List ℚ :=
  (trades.filter (inPartition tradeType)).map (fun t => t.GrossProfit)

/-- The net profits of the trades of a partition: gross minus twice the cost per
operation. -/
def partitionNet (trades : List Trade) (tradeType : String) (costPerOper : ℚ) : List ℚ :=
  (partitionGross trades tradeType).map (fun g => g - 2 * costPerOper)

/-- The number of trades of a partition. -/
def partitionCount (trades : List Trade) (tradeType : String) : Nat :=
  (trades.filter (inPartition tradeType)).length

/-! ## `pkg/business/simulation`: the job table -/

/-- The statement `delete(m, k)`. -/
def GoMap.delete {K V : Type} [DecidableEq K] (m : GoMap K V) (k : K) : GoMap K V :=
  m.filter (fun e => !decide (e.1 = k))

namespace Simulation

/-- `Request` of `simulation-request.go`. -/
structure Request where
  DaysBack : Int
  Runs : Int
  Width : Int
  Height : Int
  InitialCapital : ℚ
  RuinPercentage : Int
deriving DecidableEq

/-- `Distribution` of `simulation-result.go`. -/
structure Distribution where
  XAxis : List String
  YAxis : List ℚ
deriving DecidableEq

/-- `Details` of `simulation-result.go`; a nil `MaxDrawdowns` is `none`. -/
structure Details where
  Equities : String
  MaxDrawdowns : Option Distribution
deriving DecidableEq

/-- `Result` of `simulation-result.go`; instants are integers, a nil `*Details`
is `none`. -/
structure Result where
  FirstTradeDate : Int
  LastTradeDate : Int
  Runs : Int
  InitialCapital : ℚ
  RuinPercentage : Int
  Risk : ℚ
  Status : String
  StartTime : Int
  EndTime : Int
  Step : Int
  GrossAll : Option Details
  GrossLong : Option Details
  GrossShort : Option Details
  NetAll : Option Details
  NetLong : Option Details
  NetShort : Option Details
deriving DecidableEq

/-- The zero value of `Result`. -/
def zeroResult : Result :=
  { FirstTradeDate := 0, LastTradeDate := 0, Runs := 0, InitialCapital := 0, RuinPercentage := 0,
    Risk := 0, Status := "", StartTime := 0, EndTime := 0, Step := 0, GrossAll := none,
    GrossLong := none, GrossShort := none, NetAll := none, NetLong := none, NetShort := none }

/-- `SimStatusIdle` of `process.go`. -/
def SimStatusIdle : String := "idle"

/-- `SimStatusWaiting` of `process.go`. -/
def SimStatusWaiting : String := "waiting"

/-- `SimStatusRunning` of `process.go`. -/
def SimStatusRunning : String := "running"

/-- `SimStatusComplete` of `process.go`. -/
def SimStatusComplete : String := "complete"

/-- `Process` of `process.go`. -/
structure Process where
  ts : TradingSystem
  trades : List Trade
  req : Request
  risk : ℚ
  result : Result
  stopping : Bool
deriving DecidableEq

/-- `NewProcess` of `process.go`. -/
def NewProcess (ts : TradingSystem) (trades : List Trade) (req : Request) (risk : ℚ) : Process :=
  { ts := ts, trades := trades, req := req, risk := risk,
    result := { zeroResult with Status := SimStatusWaiting }, stopping := false }

/-- `Process.Stop` of `process.go`. -/
def Process.Stop (p : Process) : Process :=
  { p with stopping := true }

/-- `Process.GetResult` of `process.go`. -/
def Process.GetResult (p : Process) : Result :=
  p.result

/-- The state of package `simulation`. `heap` holds every `Process` allocated so
far, a `*Process` being its index; `m` is the table `jobs.m`, from
trading-system id to `*Process`; `queue` holds the jobs submitted to the worker
pool, in order of submission. The mutex `jobs` makes `Start`, `Stop` and
`GetResult` atomic, so each is one state transition. -/
structure State where
  heap : List Process
  m : GoMap Nat Nat
  queue : List Nat
deriving DecidableEq

/-- The effect of `sp.Stop()` on the heap, `sp` being the address `a`. -/
def stopAt (heap : List Process) (a : Nat) : List Process :=
  match heap[a]? with
  | some p => heap.set a p.Stop
  | none => heap

/-- Modelled from the spec: `workers.Submit` of `core.WorkerPool` (not among the
sources), the submission of a job to the bounded worker pool: the job joins the
queue of the pool. -/
def submit (queue : List Nat) (a : Nat) : List Nat :=
  queue ++ [a]

/-- `Start` of `simulation.go`. -/
def Start (req : Request) (ts : TradingSystem) (trades : List Trade) (risk : ℚ) (s : State) :
    State :=
  let s1 : State :=
    match s.m.get ts.Id with
    | some sp => { s with heap := stopAt s.heap sp, m := s.m.delete ts.Id }
    | none => s
  let sp := s1.heap.length
  { heap := s1.heap ++ [NewProcess ts trades req risk]
    queue := submit s1.queue sp
    m := s1.m.set ts.Id sp }

/-- `Stop` of `simulation.go`. -/
def Stop (tsId : Nat) (s : State) : Bool × State :=
  match s.m.get tsId with
  | some sp => (true, { s with heap := stopAt s.heap sp, m := s.m.delete tsId })
  | none => (false, s)

/-- `GetResult` of `simulation.go`. An address of the table that is not allocated
cannot occur (every address in the table comes from `Start`); the model
answers it like a missing entry. -/
def GetResult (tsId : Nat) (s : State) : Result × State :=
  match s.m.get tsId with
  | none => ({ zeroResult with Status := SimStatusIdle }, s)
  | some sp =>
    match s.heap[sp]? with
    | some p => (p.GetResult, s)
    | none => ({ zeroResult with Status := SimStatusIdle }, s)

/-- `StartSimulation` of `business/simulation.go`. `getTs` is the outcome of
`getTradingSystemAndCheckAccess`, `findTrades` that of
`db.FindTradesByTsIdFromTime` for the trading system and the period of the
request, `range` the order in which `CalcRisk` ranges over its map. -/
def StartSimulation (getTs : Except String TradingSystem)
    (findTrades : TradingSystem → Request → Except String (List Trade))
    (range : GoMap ℚ Nat → List (ℚ × Nat)) (rq : Request) (s : State) :
    Except String Unit × State :=
  match getTs with
  | .error err => (.error err, s)
  | .ok ts =>
    match findTrades ts rq with
    | .error err => (.error err, s)
    | .ok trades =>
      if trades.length = 0 then (.error "no trades found for given time", s)
      else
        match CalcRisk range trades with
        | .error err => (.error err, s)
        | .ok risk => (.ok (), Start rq ts trades risk s)

/-- The result carries no `Details`. -/
def Result.noDetails (r : Result) : Prop :=
  r.GrossAll = none ∧ r.GrossLong = none ∧ r.GrossShort = none ∧
  r.NetAll = none ∧ r.NetLong = none ∧ r.NetShort = none

end Simulation

namespace Simulation

/-- The test of `purge` on one table entry: the status of the job is `complete`
and `time.Now().Sub(EndTime).Minutes() >= 30`; instants and durations count
nanoseconds. -/
def expired (heap : List Process) (now : Int) (e : Nat × Nat) : Bool :=
  match heap[e.2]? with
  | some sp =>
    if sp.result.Status = SimStatusComplete then
      let delta : Int := now - sp.result.EndTime
      decide ((delta : ℚ) / 60000000000 ≥ 30)
    else false
  | none => false

/-- One iteration of the loop of `purge`, on the entry `tsId, sp`. -/
def purgeStep (heap : List Process) (now : Int) (m : GoMap Nat Nat) (e : Nat × Nat) :
    GoMap Nat Nat :=
  if expired heap now e then GoMap.delete m e.1 else m

/-- `purge` of `simulation.go`; `now` is `time.Now()`, `range` the order in which
the loop visits the entries of `jobs.m`. -/
def purge (range : GoMap Nat Nat → List (Nat × Nat)) (now : Int) (s : State) : State :=
  { s with m := (range s.m).foldl (purgeStep s.heap now) s.m }

end Simulation

/-! ## `pkg/business/simulation/process.go`: the bootstrap engine -/

/-- `CalcMin` of `equity.go`; the read `data[0]` fails on an empty slice, which
is `none`. -/
def CalcMin (data : List ℚ) : Option ℚ :=
  match data[0]? with
  | none => none
  | some first => some (data.foldl (fun minv value => if value < minv then value else minv) first)

/-- The conversion `int(math.Trunc(x))`: the integer part of `x`, rounded toward
zero. -/
def truncInt (x : ℚ) : Int :=
  if 0 ≤ x then ⌊x⌋ else ⌈x⌉

/-- The values of a list of reads that all succeed, `none` when one of them fails. -/
def collectAll {α : Type} : List (Option α) → Option (List α)
  | [] => some []
  | none :: _ => none
  | some a :: rest =>
    match collectAll rest with
    | none => none
    | some as => some (a :: as)

namespace Simulation

/-- `rand.Intn(n)`, the source of randomness having produced `draw`: a value of
`0..n-1`. -/
def Intn (draw : Nat) (n : Nat) : Nat :=
  draw % n

/-- The inner loop of `buildSampleSet`: `sample[j] = list[rand.Intn(size)]` for
every `j`; `draws j` is what the source of randomness produces at position `j`. -/
def drawSample (draws : Nat → Nat) (list : List ℚ) : List ℚ :=
  (List.range list.length).foldl
    (fun sample j => sample.set j (list.getD (Intn (draws j) list.length) 0))
    (List.replicate list.length 0)

/-- Loop state of `buildSampleSet`. -/
structure SampleState where
  sampleSet : List (List ℚ)
  maxDrawdowns : List ℚ
deriving DecidableEq

/-- One iteration of the outer loop of `buildSampleSet`. -/
def sampleStep (draws : Nat → Nat → Nat) (list : List ℚ) (s : SampleState) (i : Nat) :
    SampleState :=
  let sample := drawSample (draws i) list
  let equity := BuildEquity sample
  let maxDD := (BuildDrawDown equity).2
  { sampleSet := s.sampleSet ++ [equity], maxDrawdowns := s.maxDrawdowns ++ [maxDD] }

/-- `buildSampleSet` of `process.go`; `draws i j` is what the source of randomness
produces in run `i` at position `j`. -/
def buildSampleSet (draws : Nat → Nat → Nat) (list : List ℚ) (runs : Int) :
    List (List ℚ) × List ℚ :=
  let s := (List.range runs.toNat).foldl (sampleStep draws list)
    { sampleSet := [], maxDrawdowns := [] }
  (s.sampleSet, s.maxDrawdowns)

/-- One iteration of the outer loop of `buildMeanAndStdDev`, at index `i`; a read
`sampleSet[j][i]` out of range makes it fail. -/
def meanStep (stats : Stats) (sampleSet : List (List ℚ)) (st : Option (List ℚ × List ℚ))
    (i : Nat) : Option (List ℚ × List ℚ) :=
  match st with
  | none => none
  | some acc =>
    match collectAll (sampleSet.map (fun path => path[i]?)) with
    | none => none
    | some serie =>
      some (acc.1 ++ [(stats.meanAndStdDev serie).1], acc.2 ++ [(stats.meanAndStdDev serie).2])

/-- `buildMeanAndStdDev` of `process.go`. -/
def buildMeanAndStdDev (stats : Stats) (sampleSet : List (List ℚ)) (size : Nat) :
    Option (List ℚ × List ℚ) :=
  (List.range size).foldl (meanStep stats sampleSet) (some ([], []))

/-- One iteration of the loop of `buildUpAndLowStdDev`, on `i, v`; a read
`stdDev[i]` out of range makes it fail. -/
def upLowStep (stdDev : List ℚ) (st : Option (List ℚ × List ℚ)) (e : Nat × ℚ) :
    Option (List ℚ × List ℚ) :=
  match st with
  | none => none
  | some acc =>
    match stdDev[e.1]? with
    | none => none
    | some sd => some (acc.1 ++ [e.2 + sd], acc.2 ++ [e.2 - sd])

/-- `buildUpAndLowStdDev` of `process.go`. -/
def buildUpAndLowStdDev (mean stdDev : List ℚ) : Option (List ℚ × List ℚ) :=
  mean.enum.foldl (upLowStep stdDev) (some ([], []))

/-- `addMeanAndStdDev` of `process.go`. -/
def addMeanAndStdDev (stats : Stats) (sampleSet : List (List ℚ)) (size : Nat) :
    Option (List (List ℚ)) :=
  match buildMeanAndStdDev stats sampleSet size with
  | none => none
  | some ms =>
    match buildUpAndLowStdDev ms.1 ms.2 with
    | none => none
    | some ud => some (sampleSet ++ [List.replicate size 0] ++ [ms.1] ++ [ud.1] ++ [ud.2])

/-- The statement `yAxis[index]++`; an index out of range makes it fail. -/
def incrAt (yAxis : List ℚ) (index : Int) : Option (List ℚ) :=
  if 0 ≤ index ∧ index < (yAxis.length : Int) then
    some (yAxis.set index.toNat (yAxis.getD index.toNat 0 + 1))
  else none

/-- One iteration of the second loop of `buildDDDistrib`. -/
def binStep (size : Int) (st : Option (List ℚ)) (value : ℚ) : Option (List ℚ) :=
  match st with
  | none => none
  | some yAxis => incrAt yAxis (size + truncInt value - 1)

/-- `buildDDDistrib` of `process.go`; `strconv.Itoa` is the decimal notation of the
integer. -/
def buildDDDistrib (data : List ℚ) : Option Distribution :=
  match CalcMin data with
  | none => none
  | some minv =>
    let size : Int := truncInt |minv| + 1
    let xAxis : List String :=
      (List.range size.toNat).foldl
        (fun xAxis (k : Nat) => xAxis ++ [toString (-size + ((k : Int) + 1)) ++ "R"]) []
    match data.foldl (binStep size) (some (List.replicate size.toNat 0)) with
    | none => none
    | some yAxis => some { XAxis := xAxis, YAxis := yAxis }

/-- `run` of `process.go`. `render` stands for `buildChart`, `p.Bytes()` and the
base64 encoding, `none` being an error of the chart library; a result `none`
is a panic of `run`. -/
def run (stats : Stats) (render : List (List ℚ) → Int → Int → Option String)
    (draws : Nat → Nat → Nat) (list : List ℚ) (req : Request) : Option Details :=
  let size := list.length
  if size = 0 then some { Equities := "", MaxDrawdowns := none }
  else
    let sampleSet := (buildSampleSet draws list req.Runs).1
    let maxDrawdowns := (buildSampleSet draws list req.Runs).2
    match addMeanAndStdDev stats sampleSet size with
    | none => none
    | some sampleSet2 =>
      match render sampleSet2 req.Width req.Height with
      | none => none
      | some buf =>
        match buildDDDistrib maxDrawdowns with
        | none => none
        | some distrib => some { Equities := buf, MaxDrawdowns := some distrib }

/-- `NewResult` of `simulation-result.go`. -/
def NewResult (first last : Int) (runs : Int) (initialCapital : ℚ) (ruinPerc : Int) (risk : ℚ) :
    Result :=
  { zeroResult with
    FirstTradeDate := first, LastTradeDate := last, Runs := runs,
    InitialCapital := initialCapital, RuinPercentage := ruinPerc, Risk := risk }

/-- The end of `Process.Start`: the status becomes `complete` and the end time
is taken. -/
def complete (p : Process) (result : Result) (endNow : Int) : Option Process :=
  some { p with result := { result with Status := SimStatusComplete, EndTime := endNow } }

/-- `Process.Start` of `process.go`. `toIntDate` is `datatype.ToIntDate`;
`startNow` and `endNow` are the two readings of `time.Now()`; `draws c` are the
random draws of combination `c`; `stopping c` is the value of `p.stopping` read
at the check that follows combination `c` (another goroutine may set the flag
at any moment). The result `none` is a panic: a read of `trades[0]` on an empty
trade list, or a panic of `run`. -/
def Process.Start (toIntDate : Time → Int) (stats : Stats)
    (render : List (List ℚ) → Int → Int → Option String) (draws : Nat → Nat → Nat → Nat)
    (startNow endNow : Int) (stopping : Nat → Bool) (p : Process) : Option Process :=
  match p.trades[0]?, p.trades[p.trades.length - 1]? with
  | some firstTrade, some lastTrade =>
    let r0 : Result :=
      { NewResult (toIntDate firstTrade.ExitDate) (toIntDate lastTrade.ExitDate) p.req.Runs
          p.req.InitialCapital p.req.RuinPercentage p.risk with
        Status := SimStatusRunning, StartTime := startNow }
    let rMultGrossAll := CalcRMultiple p.trades TradeTypeAll p.risk 0
    let rMultGrossLong := CalcRMultiple p.trades TradeTypeLong p.risk 0
    let rMultGrossShort := CalcRMultiple p.trades TradeTypeShort p.risk 0
    let rMultNetAll := CalcRMultiple p.trades TradeTypeAll p.risk p.ts.CostPerOperation
    let rMultNetLong := CalcRMultiple p.trades TradeTypeLong p.risk p.ts.CostPerOperation
    let rMultNetShort := CalcRMultiple p.trades TradeTypeShort p.risk p.ts.CostPerOperation
    match run stats render (draws 0) rMultGrossAll p.req with
    | none => none
    | some d0 =>
      let r1 : Result := { r0 with GrossAll := some d0, Step := r0.Step + 1 }
      if !stopping 0 then
        match run stats render (draws 1) rMultGrossLong p.req with
        | none => none
        | some d1 =>
          let r2 : Result := { r1 with GrossLong := some d1, Step := r1.Step + 1 }
          if !stopping 1 then
            match run stats render (draws 2) rMultGrossShort p.req with
            | none => none
            | some d2 =>
              let r3 : Result := { r2 with GrossShort := some d2, Step := r2.Step + 1 }
              if !stopping 2 then
                match run stats render (draws 3) rMultNetAll p.req with
                | none => none
                | some d3 =>
                  let r4 : Result := { r3 with NetAll := some d3, Step := r3.Step + 1 }
                  if !stopping 3 then
                    match run stats render (draws 4) rMultNetLong p.req with
                    | none => none
                    | some d4 =>
                      let r5 : Result := { r4 with NetLong := some d4, Step := r4.Step + 1 }
                      if !stopping 4 then
                        match run stats render (draws 5) rMultNetShort p.req with
                        | none => none
                        | some d5 =>
                          let r6 : Result :=
                            { r5 with NetShort := some d5, Step := r5.Step + 1 }
                          complete p r6 endNow
                      else complete p r5 endNow
                  else complete p r4 endNow
              else complete p r3 endNow
          else complete p r2 endNow
      else complete p r1 endNow
  | _, _ => none

/-- The six `Details` of a result, in the order GrossAll, GrossLong, GrossShort,
NetAll, NetLong, NetShort. -/
def Result.details (r : Result) : List (Option Details) :=
  [r.GrossAll, r.GrossLong, r.GrossShort, r.NetAll, r.NetLong, r.NetShort]

/-- Exactly the first `k` of the six `Details` are set. -/
def Result.firstSet (r : Result) (k : Nat) : Prop :=
  r.details.map Option.isSome = (List.range 6).map (fun i => decide (i < k))

/-- The values of all paths at index `i`. -/
def column (sampleSet : List (List ℚ)) (i : Nat) : List ℚ :=
  sampleSet.map (fun path => path.getD i 0)

end Simulation

/-! ## `pkg/core/equity.go`: winning percentage and average trade -/

/-- The test `filter == nil || filter[i] == 1` of `CalcWinningPercentage` and
`CalcAverageTrade`. A nil slice is `none`; a read `filter[i]` out of range
fails, which is the result `none`. -/
def filterSelects (filter : Option (List Int)) (i : Nat) : Option Bool :=
  match filter with
  | none => some true
  | some f =>
    match f[i]? with
    | none => none
    | some x => some (decide (x = 1))

/-- The locals of `CalcWinningPercentage`. -/
structure WinState where
  tot : Nat
  pos : Nat
deriving DecidableEq

/-- One iteration of the loop of `CalcWinningPercentage`, on `i, profit`. -/
def winStep (filter : Option (List Int)) (st : Option WinState) (e : Nat × ℚ) :
    Option WinState :=
  match st with
  | none => none
  | some s =>
    if e.2 ≠ 0 then
      match filterSelects filter e.1 with
      | none => none
      | some true => some { tot := s.tot + 1, pos := if e.2 > 0 then s.pos + 1 else s.pos }
      | some false => some s
    else some s

/-- `CalcWinningPercentage` of `equity.go`; `pos * 10000 / tot` is the division of
two non-negative integers. The counters are bounded by the length of the
slice, far below the range of `int`. -/
def CalcWinningPercentage (profits : List ℚ) (filter : Option (List Int)) : Option ℚ :=
  match profits.enum.foldl (winStep filter) (some { tot := 0, pos := 0 }) with
  | none => none
  | some s => if s.tot = 0 then some 0 else some (((s.pos * 10000 / s.tot : Nat) : ℚ) / 100)

/-- The locals of `CalcAverageTrade`. -/
structure AvgState where
  sum : ℚ
  num : ℚ
deriving DecidableEq

/-- One iteration of the loop of `CalcAverageTrade`, on `i, profit`. -/
def avgStep (filter : Option (List Int)) (st : Option AvgState) (e : Nat × ℚ) :
    Option AvgState :=
  match st with
  | none => none
  | some s =>
    if e.2 ≠ 0 then
      match filterSelects filter e.1 with
      | none => none
      | some true => some { sum := s.sum + e.2, num := s.num + 1 }
      | some false => some s
    else some s

/-- `CalcAverageTrade` of `equity.go`: `float64(int(sum * 100 / num)) / 100`, the
conversion `int(x)` of a `float64` dropping the fraction (rounding toward
zero). With `num = 0` the quotient is not a number and its conversion is left
to the implementation: no result, like a failed read of `filter[i]`. -/
def CalcAverageTrade (profits : List ℚ) (filter : Option (List Int)) : Option ℚ :=
  match profits.enum.foldl (avgStep filter) (some { sum := 0, num := 0 }) with
  | none => none
  | some s =>
    if s.num = 0 then none else some (((truncInt (s.sum * 100 / s.num) : Int) : ℚ) / 100)

/-- The profits the two functions take into account: those that are not zero
and that the filter selects (all of them under a nil filter). -/
def selectedProfits (profits : List ℚ) (filter : Option (List Int)) : List ℚ :=
  (profits.enum.filter
    (fun e => decide (e.2 ≠ 0) && (filterSelects filter e.1).getD false)).map Prod.snd

/-- The filter is nil or at least as long as the profit list. -/
def filterCovers (profits : List ℚ) (filter : Option (List Int)) : Prop :=
  match filter with
  | none => True
  | some f => profits.length ≤ f.length

/-! ## `float64` arithmetic with its rounding

The definitions above compute on exact rationals. The definitions of this
section follow the same source functions and round the result of every
`float64` operation by a function `fl`; `round64` is the rounding of the
machine. -/

/-- Rounding to the nearest integer, a tie going to the even neighbour. -/
def roundHalfEven (q : ℚ) : Int :=
  let f : Int := ⌊q⌋
  if q - (f : ℚ) < 1 / 2 then f
  else if 1 / 2 < q - (f : ℚ) then f + 1
  else if f % 2 = 0 then f else f + 1

/-- The rounding of a real number to `float64` (IEEE 754 binary64, round to
nearest, ties to even): 53 significant bits, the exponent of the last bit not
below `-1074`. Numbers of magnitude `2 ^ 1024` and above, which round to an
infinity, are outside the model. -/
def round64 (x : ℚ) : ℚ :=
  if x = 0 then 0
  else
    let e : Int := max (Int.log 2 |x| - 52) (-1074)
    (if x < 0 then -1 else 1) * ((roundHalfEven (|x| / (2 : ℚ) ^ e) : Int) : ℚ) * (2 : ℚ) ^ e

namespace Rounded

/-- `Trunc2d` of `tools.go`, `float64(int(math.Floor(value * 100))) / 100`: the
product is rounded, its floor is converted to `int` and back to `float64`, and
the quotient is rounded. The conversion of a floor outside the 64-bit range of
`int` is left to the implementation: no result. -/
def Trunc2d (fl : ℚ → ℚ) (value : ℚ) : Option ℚ :=
  let k : Int := ⌊fl (value * 100)⌋
  if -(2 ^ 63) ≤ k ∧ k < 2 ^ 63 then some (fl (fl (k : ℚ) / 100)) else none

/-- `BuildNetProfits` of `equity.go`: `net := gross - 2 * costPerOper`. -/
def BuildNetProfits (fl : ℚ → ℚ) (grossProfits : List ℚ) (costPerOper : ℚ) : List ℚ :=
  grossProfits.foldl (fun netSlice gross => netSlice ++ [fl (gross - fl (2 * costPerOper))]) []

/-- One iteration of the loop of `BuildEquity`: `value += profit`. -/
def equityStep (fl : ℚ → ℚ) (s : EquityState) (profit : ℚ) : EquityState :=
  let value := fl (s.value + profit)
  { equity := s.equity ++ [value], value := value }

/-- `BuildEquity` of `equity.go`. -/
def BuildEquity (fl : ℚ → ℚ) (profits : List ℚ) : List ℚ :=
  (profits.foldl (equityStep fl) { equity := [], value := 0 }).equity

/-- One iteration of the loop of `CalcRMultiple`:
`returns := t.GrossProfit - 2 * costPerOper`, then `returns / risk`. -/
def rMultipleStep (fl : ℚ → ℚ) (tradeType : String) (risk costPerOper : ℚ) (list : List ℚ)
    (t : Trade) : List ℚ :=
  if tradeType = TradeTypeAll ∨ tradeType = t.TradeType then
    let returns := fl (t.GrossProfit - fl (2 * costPerOper))
    list ++ [fl (returns / risk)]
  else list

/-- `CalcRMultiple` of `tools.go`. -/
def CalcRMultiple (fl : ℚ → ℚ) (trades : List Trade) (tradeType : String)
    (risk costPerOper : ℚ) : List ℚ :=
  trades.foldl (rMultipleStep fl tradeType risk costPerOper) []

/-- `updateRollingInfo` of `performance.go`: the counters are integers, the six
sums are `float64` accumulators. -/
def updateRollingInfo (fl : ℚ → ℚ) (tr : Trade) (ri : Performance.RollingInfo)
    (costPerOper : ℚ) : Performance.RollingInfo :=
  let net := fl (tr.GrossProfit - fl (2 * costPerOper))
  let ri1 : Performance.RollingInfo :=
    { Trades := { ri.Trades with Total := ri.Trades.Total + 1 }
      GrossReturns :=
        { ri.GrossReturns with Total := fl (ri.GrossReturns.Total + tr.GrossProfit) }
      NetReturns := { ri.NetReturns with Total := fl (ri.NetReturns.Total + net) } }
  if tr.TradeType = TradeTypeLong then
    { Trades := { ri1.Trades with Long := ri1.Trades.Long + 1 }
      GrossReturns :=
        { ri1.GrossReturns with Long := fl (ri1.GrossReturns.Long + tr.GrossProfit) }
      NetReturns := { ri1.NetReturns with Long := fl (ri1.NetReturns.Long + net) } }
  else
    { Trades := { ri1.Trades with Short := ri1.Trades.Short + 1 }
      GrossReturns :=
        { ri1.GrossReturns with Short := fl (ri1.GrossReturns.Short + tr.GrossProfit) }
      NetReturns := { ri1.NetReturns with Short := fl (ri1.NetReturns.Short + net) } }

/-- The call `updateRollingInfo(tr, &buckets[index], costPerOper)`; an index out
of range makes it fail. -/
def updateBucket (fl : ℚ → ℚ) (buckets : List Performance.RollingInfo) (index : Int)
    (tr : Trade) (costPerOper : ℚ) : Option (List Performance.RollingInfo) :=
  if 0 ≤ index ∧ index < (buckets.length : Int) then
    match buckets[index.toNat]? with
    | some ri => some (buckets.set index.toNat (updateRollingInfo fl tr ri costPerOper))
    | none => none
  else none

/-- `updateYoY` of `performance.go`. -/
def updateYoY (fl : ℚ → ℚ) (list : List Performance.YoYRolling) (year : Int) (tr : Trade)
    (slot : Int) (costPerOper : ℚ) (slots : Nat) : Option (List Performance.YoYRolling) :=
  let list1 : List Performance.YoYRolling :=
    match list.getLast? with
    | none =>
      list ++ [{ Year := year, Data := List.replicate slots Performance.zeroRollingInfo }]
    | some last =>
      if last.Year ≠ year then
        list ++ [{ Year := year, Data := List.replicate slots Performance.zeroRollingInfo }]
      else list
  match list1.getLast? with
  | none => none
  | some yoy =>
    match updateBucket fl yoy.Data slot tr costPerOper with
    | none => none
    | some data => some (list1.dropLast ++ [{ yoy with Data := data }])

/-- One iteration of the loop of `calcRolling`. -/
def rollingStep (fl : ℚ → ℚ) (costPerOper : ℚ) (st : Option Performance.Rolling) (tr : Trade) :
    Option Performance.Rolling :=
  match st with
  | none => none
  | some r =>
    let year := tr.EntryDate.year
    let dow : Int := (tr.EntryDate.weekday : Int)
    let mon : Int := (tr.EntryDate.month : Int) - 1
    match updateBucket fl r.Daily dow tr costPerOper with
    | none => none
    | some daily =>
      match updateBucket fl r.Monthly mon tr costPerOper with
      | none => none
      | some monthly =>
        match updateYoY fl r.DayYoY year tr dow costPerOper 7 with
        | none => none
        | some dayYoY =>
          match updateYoY fl r.MonthYoY year tr mon costPerOper 12 with
          | none => none
          | some monthYoY =>
            some { Daily := daily, Monthly := monthly, DayYoY := dayYoY, MonthYoY := monthYoY }

/-- `calcRolling` of `performance.go` on the block `rolling` of the response;
`none` is an index out of range. -/
def calcRolling (fl : ℚ → ℚ) (ts : TradingSystem) (trades : List Trade)
    (rolling : Performance.Rolling) : Option Performance.Rolling :=
  trades.foldl (rollingStep fl ts.CostPerOperation) (some rolling)

/-- None of the `float64` operations of the call
`updateRollingInfo(tr, ri, costPerOper)` rounds. -/
def StepExact (fl : ℚ → ℚ) (tr : Trade) (ri : Performance.RollingInfo) (costPerOper : ℚ) :
    Prop :=
  fl (2 * costPerOper) = 2 * costPerOper ∧
  fl (tr.GrossProfit - 2 * costPerOper) = tr.GrossProfit - 2 * costPerOper ∧
  fl (ri.GrossReturns.Total + tr.GrossProfit) = ri.GrossReturns.Total + tr.GrossProfit ∧
  fl (ri.NetReturns.Total + (tr.GrossProfit - 2 * costPerOper))
    = ri.NetReturns.Total + (tr.GrossProfit - 2 * costPerOper) ∧
  (tr.TradeType = TradeTypeLong →
    fl (ri.GrossReturns.Long + tr.GrossProfit) = ri.GrossReturns.Long + tr.GrossProfit ∧
    fl (ri.NetReturns.Long + (tr.GrossProfit - 2 * costPerOper))
      = ri.NetReturns.Long + (tr.GrossProfit - 2 * costPerOper)) ∧
  (tr.TradeType ≠ TradeTypeLong →
    fl (ri.GrossReturns.Short + tr.GrossProfit) = ri.GrossReturns.Short + tr.GrossProfit ∧
    fl (ri.NetReturns.Short + (tr.GrossProfit - 2 * costPerOper))
      = ri.NetReturns.Short + (tr.GrossProfit - 2 * costPerOper))

/-- None of the `float64` operations of a sequence of `updateRollingInfo` calls
on the bucket `ri` rounds. -/
def ExactRun (fl : ℚ → ℚ) : Performance.RollingInfo → List (Trade × ℚ) → Prop
  | _, [] => True
  | ri, c :: cs => StepExact fl c.1 ri c.2 ∧ ExactRun fl (updateRollingInfo fl c.1 ri c.2) cs

/-- The two additions of the gross profit of `tr` to the Total of its
day-of-week bucket and of its month-of-year bucket do not round. -/
def GrossExactStep (fl : ℚ → ℚ) (r : Performance.Rolling) (tr : Trade) : Prop :=
  (∀ ri, r.Daily[tr.EntryDate.weekday]? = some ri →
    fl (ri.GrossReturns.Total + tr.GrossProfit) = ri.GrossReturns.Total + tr.GrossProfit) ∧
  (∀ ri, r.Monthly[tr.EntryDate.month - 1]? = some ri →
    fl (ri.GrossReturns.Total + tr.GrossProfit) = ri.GrossReturns.Total + tr.GrossProfit)

/-- Throughout the loop of `calcRolling` from the block `r`, no addition of a
gross profit to the Total of a day-of-week or month-of-year bucket rounds. -/
def GrossExact (fl : ℚ → ℚ) (costPerOper : ℚ) : Performance.Rolling → List Trade → Prop
  | _, [] => True
  | r, tr :: trs =>
    GrossExactStep fl r tr ∧
    ∀ r2, rollingStep fl costPerOper (some r) tr = some r2 → GrossExact fl costPerOper r2 trs

end Rounded

/-! ## Recursive descriptions of the loops, used in the proofs -/

/-- Recursive description of the slice `BuildEquity` appends, from running value `v`. -/
def equityFrom (v : ℚ) : List ℚ → List ℚ
  | [] => []
  | p :: ps => (v + p) :: equityFrom (v + p) ps

/-- Recursive description of the slice that `BuildEquity` appends on `float64`,
from running value `v`. -/
def Rounded.equityFrom (fl : ℚ → ℚ) (v : ℚ) : List ℚ → List ℚ
  | [] => []
  | p :: ps => fl (v + p) :: Rounded.equityFrom fl (fl (v + p)) ps

/-- Recursive description of the drawdown slice `BuildDrawDown` appends, from
running peak `m`. -/
def drawDownFrom (m : ℚ) : List ℚ → List ℚ
  | [] => []
  | x :: xs => (if x ≥ m then 0 else x - m) :: drawDownFrom (if x ≥ m then x else m) xs

/-- The update of `maxDrawDown` in `BuildDrawDown`, folded over a drawdown slice. -/
def minFrom (acc : ℚ) (ds : List ℚ) : ℚ :=
  ds.foldl (fun a d => if d < a then d else a) acc

/-- The loss the specification designates as the risk unit: among the negative
gross profits with the highest number of occurrences, the one met first in the
trade list. -/
def firstEncounteredMode (trades : List Trade) : Option ℚ :=
  let losses := (trades.map (fun t => t.GrossProfit)).filter (fun v => decide (v < 0))
  losses.find? (fun v => losses.all (fun w => decide (occurrences trades w ≤ occurrences trades v)))

/-- The test of step 1 of `calcQualityMetrics`: the trade belongs to the partition
and matches the direction and volatility selectors. -/
def selected (toIntDate : Time → Int) (tradeType : String) (direction volatility : Int)
    (marketMap : GoMap Int DailyResult) (t : Trade) : Bool :=
  decide (t.TradeType = tradeType ∨ tradeType = TradeTypeAll) &&
  decide (direction = DirectionAll ∨ direction = (mapTrade toIntDate t marketMap).1) &&
  decide (volatility = VolatilityAll ∨ volatility = (mapTrade toIntDate t marketMap).2)

/-- The list of years grows by `y` unless `y` is its last element. -/
def appendYear (years : List Int) (y : Int) : List Int :=
  if years.getLast? = some y then years else years ++ [y]

/-- The years of a sequence of dates, a year being listed once for each run of
consecutive dates of that year. -/
def yearRuns (years : List Int) : List Int :=
  years.foldl appendYear []

/-- A value a `time.Time` can show: a weekday in `0..6` and a month in `1..12`. -/
def Time.Valid (t : Time) : Prop :=
  t.weekday < 7 ∧ 1 ≤ t.month ∧ t.month ≤ 12

/-- The arrays of the block `Rolling` have their sizes: 7 day-of-week buckets, 12
month-of-year buckets, 7 buckets in every entry of `DayYoY` and 12 in every
entry of `MonthYoY`. -/
def Performance.Rolling.Sized (r : Performance.Rolling) : Prop :=
  r.Daily.length = 7 ∧ r.Monthly.length = 12 ∧
  (∀ e ∈ r.DayYoY, e.Data.length = 7) ∧ (∀ e ∈ r.MonthYoY, e.Data.length = 12)

/-! ## Sample data and range orders -/

/-- The date encoding `yyyymmdd`, as `NewIntDate` of `performance.go` computes it. -/
def intDateOf (t : Time) : Int :=
  t.year * 10000 + (t.month : Int) * 100 + (t.day : Int)

/-- Wednesday 3 January 2024. -/
def nextDay : Time := { year := 2024, month := 1, day := 3, weekday := 3 }

/-- A bullish, volatile regime entry for `sampleDay`. -/
def sampleRegime : DailyResult :=
  { Date := 20240102, Price := 100, PercDailyChange := 0, Sqn100 := 0, TrueRange := 1,
    PercAtr20 := 1, Direction := 1, Volatility := 2 }

/-- A long trade entered on `nextDay`, a day without regime entry in
`buildMarketMap [sampleRegime]`. -/
def unclassifiedTrade (g : ℚ) : Trade :=
  { EntryDate := nextDay, ExitDate := nextDay, GrossProfit := g, TradeType := TradeTypeLong }

/-- A range order: the entries in the order of their insertion. -/
def insertionOrder : GoMap ℚ Nat → List (ℚ × Nat) := fun m => m

/-- A range order: the entries in the reverse of the order of their insertion. -/
def reverseOrder : GoMap ℚ Nat → List (ℚ × Nat) := fun m => m.reverse

/-- Tuesday 2 January 2024. -/
def sampleDay : Time := { year := 2024, month := 1, day := 2, weekday := 2 }

/-- A long trade entered and closed on `sampleDay` with gross profit `g`. -/
def longTrade (g : ℚ) : Trade :=
  { EntryDate := sampleDay, ExitDate := sampleDay, GrossProfit := g, TradeType := TradeTypeLong }


/-- A short trade entered and closed on `sampleDay` with gross profit `g`. -/
def shortTrade (g : ℚ) : Trade :=
  { EntryDate := sampleDay, ExitDate := sampleDay, GrossProfit := g, TradeType := TradeTypeShort }

/-- A square root rounded down to four decimals. -/
def sqrtDown (x : ℚ) : ℚ :=
  (Nat.sqrt (⌊x * 100000000⌋).toNat : ℚ) / 10000

/-- The mean and the sample standard deviation of a sample, the square root
being `sqrtDown`. -/
def meanAndStdDevDown (list : List ℚ) : ℚ × ℚ :=
  let mean := list.sum / (list.length : ℚ)
  (mean, sqrtDown ((list.map (fun x => (x - mean) ^ 2)).sum / ((list.length : ℚ) - 1)))

/-- An instance of the numeric library. -/
def sampleStats : Stats :=
  { meanAndStdDev := meanAndStdDevDown, sqrt := sqrtDown }

/-- One hundred R-multiples: fifty times `1`, then fifty times `3`. -/
def hundredReturns : List ℚ :=
  List.replicate 50 1 ++ List.replicate 50 3

/-- A cell before `calcMetrics` fills it. -/
def emptyCell (trades : Nat) : Metrics :=
  { Trades := trades, TradesPerc := 0, Sqn := 0, Sqn100 := 0, MaxDrawdown := 0 }

/-- A trading system with identity `7`. -/
def sampleSystem : TradingSystem :=
  { Id := 7, Name := "sample", Username := "user", Timezone := "UTC", CostPerOperation := 1 }

/-- A simulation request. -/
def sampleRequest : Simulation.Request :=
  { DaysBack := 0, Runs := 100, Width := 800, Height := 600, InitialCapital := 10000,
    RuinPercentage := 50 }

/-- The state of package `simulation` at program start: no process, an empty
table, an empty queue. -/
def emptyState : Simulation.State :=
  { heap := [], m := [], queue := [] }

/-- An instance of the statistics library of the repository, with a histogram
that keeps the sample. -/
def sampleStatsLib : Performance.StatsLib (List ℚ) :=
  { Mean := fun l => l.sum / (l.length : ℚ)
    Median := fun l => l.getD (l.length / 2) 0
    StdDev := fun l _ => (meanAndStdDevDown l).2
    SharpeRatio := fun m s => if s = 0 then 0 else m / s
    Skewness := fun m md s => if s = 0 then 0 else 3 * (m - md) / s
    Get := fun l _ => l.getD 0 0
    NewHistogram := fun l => l }

/-- A process of the trading system `7` whose result has the given status and
completion instant. -/
def processWith (status : String) (endTime : Int) : Simulation.Process :=
  { Simulation.NewProcess sampleSystem [longTrade (-5)] sampleRequest 5 with
    result := { Simulation.zeroResult with Status := status, EndTime := endTime } }

/-- A state with three jobs: `1` completed at instant `0`, `2` completed one
minute before instant `1800000000000`, `3` running. -/
def threeJobs : Simulation.State :=
  { heap := [processWith Simulation.SimStatusComplete 0,
             processWith Simulation.SimStatusComplete 1740000000000,
             processWith Simulation.SimStatusRunning 0]
    m := [(1, 0), (2, 1), (3, 2)]
    queue := [] }

/-- A source of randomness: in run `i` at position `j` it produces `i + j`. -/
def sampleDraws : Nat → Nat → Nat :=
  fun i j => i + j

/-- A chart library that never fails. -/
def sampleRender : List (List ℚ) → Int → Int → Option String :=
  fun _ _ _ => some "png"

/-- An instance of the functions of `AnnualAggregate`. -/
def sampleOps : Performance.AggregateOps :=
  { NewAggregate := fun tr cost =>
      { Year := tr.ExitDate.year, Trades := 1, GrossProfit := tr.GrossProfit,
        NetProfit := tr.GrossProfit - 2 * cost, Closed := false }
    addTrade := fun a tr cost =>
      { a with Trades := a.Trades + 1, GrossProfit := a.GrossProfit + tr.GrossProfit,
               NetProfit := a.NetProfit + (tr.GrossProfit - 2 * cost) }
    consolidate := fun a => { a with Closed := true } }

/-- Thursday 2 January 2025. -/
def laterDay : Time := { year := 2025, month := 1, day := 2, weekday := 4 }

/-- A long trade entered and closed on `laterDay` with gross profit `g`. -/
def laterTrade (g : ℚ) : Trade :=
  { EntryDate := laterDay, ExitDate := laterDay, GrossProfit := g, TradeType := TradeTypeLong }

namespace Simulation

/-- The writes of a worker that runs `Process.Start` on the process at address
`a`: the method assigns `p.result` and fields of it, and nothing else of the
process; `result` is the value after any number of those writes. -/
def workerWrite (a : Nat) (result : Result) (s : State) : State :=
  match s.heap[a]? with
  | some p => { s with heap := s.heap.set a { p with result := result } }
  | none => s

/-- The states of package `simulation` that the program can reach: from
`emptyState` by calls of `Start`, `Stop`, `GetResult` and `purge` (each atomic
under the mutex `jobs`, `purge` with any range order and at any instant) and
by writes of the workers. -/
inductive Reachable : State → Prop
  | init : Reachable emptyState
  | start (req : Request) (ts : TradingSystem) (trades : List Trade) (risk : ℚ) {s : State} :
      Reachable s → Reachable (Start req ts trades risk s)
  | stop (tsId : Nat) {s : State} : Reachable s → Reachable (Stop tsId s).2
  | getResult (tsId : Nat) {s : State} : Reachable s → Reachable (GetResult tsId s).2
  | purge (range : GoMap Nat Nat → List (Nat × Nat)) (hr : IsMapRange range) (now : Int)
      {s : State} : Reachable s → Reachable (purge range now s)
  | worker (a : Nat) (result : Result) {s : State} :
      Reachable s → Reachable (workerWrite a result s)

/-- The invariant of the job table: no trading-system id has two entries, no
process is the job of two ids, and every job of the table is an allocated
process whose stop flag is unset. -/
def TableInv (s : State) : Prop :=
  (s.m.map Prod.fst).Nodup ∧ (s.m.map Prod.snd).Nodup ∧
  ∀ e ∈ s.m, ∃ p, s.heap[e.2]? = some p ∧ p.stopping = false

end Simulation

/-- Tuesday 6 February 2024. -/
def februaryDay : Time := { year := 2024, month := 2, day := 6, weekday := 2 }

/-- A long trade entered and closed on `februaryDay` with gross profit `g`. -/
def februaryTrade (g : ℚ) : Trade :=
  { EntryDate := februaryDay, ExitDate := februaryDay, GrossProfit := g,
    TradeType := TradeTypeLong }

/-- Tuesday 7 January 2025. -/
def januaryDay : Time := { year := 2025, month := 1, day := 7, weekday := 2 }

/-- A long trade entered and closed on `januaryDay` with gross profit `g`. -/
def januaryTrade (g : ℚ) : Trade :=
  { EntryDate := januaryDay, ExitDate := januaryDay, GrossProfit := g,
    TradeType := TradeTypeLong }

/-- A trading system without transaction cost. -/
def freeSystem : TradingSystem :=
  { Id := 7, Name := "sample", Username := "user", Timezone := "UTC", CostPerOperation := 0 }

/-- Calls of `updateRollingInfo` for a long trade of `0.1`, a short trade of
`0.1` and a long trade of `1.1`, without cost. -/
def splitCalls : List (Trade × ℚ) :=
  [(longTrade (round64 (1 / 10)), 0), (shortTrade (round64 (1 / 10)), 0),
   (longTrade (round64 (11 / 10)), 0)]

/-- Seven losing trades: three of `-3`, two of `-7` and two of
`-7.000000000000001`, the `float64` value just below `-7`. -/
def mergedTrades : List Trade :=
  [longTrade (-3), longTrade (-3), longTrade (-3), longTrade (-7), longTrade (-7),
   longTrade (-(7881299347898369 / 1125899906842624)),
   longTrade (-(7881299347898369 / 1125899906842624))]

/-- Three long trades entered on Tuesdays: `0.1` in January 2024, `0.1` in
February 2024 and `1.1` in January 2025. -/
def rollingTrades : List Trade :=
  [longTrade (round64 (1 / 10)), februaryTrade (round64 (1 / 10)),
   januaryTrade (round64 (11 / 10))]

/-! # Theorems -/

/-! ## Equity: proofs -/

theorem foldl_equityStep (ps : List ℚ) (s : EquityState) :
    (ps.foldl equityStep s).equity = s.equity ++ equityFrom s.value ps := by
  induction ps generalizing s with
  | nil => simp [equityFrom]
  | cons p ps ih =>
    rw [List.foldl_cons, ih]
    simp [equityStep, equityFrom]

theorem BuildEquity_eq_equityFrom (ps : List ℚ) : BuildEquity ps = equityFrom 0 ps := by
  simp [BuildEquity, foldl_equityStep]

theorem length_equityFrom (ps : List ℚ) (v : ℚ) : (equityFrom v ps).length = ps.length := by
  induction ps generalizing v with
  | nil => rfl
  | cons p ps ih => simp [equityFrom, ih]

theorem equityFrom_head (ps : List ℚ) (v : ℚ) :
    (equityFrom v ps)[0]? = (ps[0]?).map (fun p => v + p) := by
  cases ps <;> simp [equityFrom]

theorem equityFrom_succ (ps : List ℚ) (v : ℚ) (i : Nat) (hi : i + 1 < ps.length) :
    ∃ a b, (equityFrom v ps)[i]? = some a ∧ ps[i + 1]? = some b ∧
      (equityFrom v ps)[i + 1]? = some (a + b) := by
  induction ps generalizing v i with
  | nil => simp at hi
  | cons p ps ih =>
    cases i with
    | zero =>
      cases ps with
      | nil => simp at hi
      | cons q qs => exact ⟨v + p, q, by simp [equityFrom], by simp, by simp [equityFrom]⟩
    | succ i =>
      have hi2 : i + 1 < ps.length := by simpa using hi
      obtain ⟨a, b, h1, h2, h3⟩ := ih (v + p) i hi2
      exact ⟨a, b, by simpa [equityFrom] using h1, by simpa using h2,
        by simpa [equityFrom] using h3⟩

/-- C1: `BuildEquity p` has the length of `p`, starts with `p[0]`, and each later
element is the previous element plus the profit at that index. -/
theorem BuildEquity_running_sum (p : List ℚ) :
    (BuildEquity p).length = p.length ∧
    (BuildEquity p)[0]? = p[0]? ∧
    ∀ i, i + 1 < p.length →
      ∃ a b, (BuildEquity p)[i]? = some a ∧ p[i + 1]? = some b ∧
        (BuildEquity p)[i + 1]? = some (a + b) := by
  rw [BuildEquity_eq_equityFrom]
  refine ⟨length_equityFrom p 0, ?_, fun i hi => equityFrom_succ p 0 i hi⟩
  rw [equityFrom_head]
  cases p <;> simp

/-- C1 at the profits `[10, -3, 5]`: the equity is `[10, 7, 12]`, and the step
from index 1 to index 2 adds the profit at index 2. -/
theorem BuildEquity_running_sum_witness :
    BuildEquity [10, -3, 5] = [10, 7, 12] ∧
    (BuildEquity [10, -3, 5]).length = 3 ∧
    ∃ a b, (BuildEquity [10, -3, 5])[1]? = some a ∧ ([10, -3, 5] : List ℚ)[1 + 1]? = some b ∧
      (BuildEquity [10, -3, 5])[1 + 1]? = some (a + b) :=
  ⟨by simp [BuildEquity, equityStep]; norm_num,
   (BuildEquity_running_sum [10, -3, 5]).1,
   (BuildEquity_running_sum [10, -3, 5]).2.2 1 (by decide)⟩

/-! ## Drawdown: proofs -/

theorem foldl_drawDownStep (e : List ℚ) (s : DrawDownState) :
    (e.foldl drawDownStep s).drawDown = s.drawDown ++ drawDownFrom s.maxProfit e ∧
    (e.foldl drawDownStep s).maxDrawDown = minFrom s.maxDrawDown (drawDownFrom s.maxProfit e) := by
  induction e generalizing s with
  | nil => simp [drawDownFrom, minFrom]
  | cons x xs ih =>
    rw [List.foldl_cons]
    obtain ⟨h1, h2⟩ := ih (drawDownStep s x)
    rw [h1, h2]
    simp [drawDownStep, drawDownFrom, minFrom]

theorem BuildDrawDown_eq (e : List ℚ) :
    BuildDrawDown e = (drawDownFrom 0 e, minFrom 0 (drawDownFrom 0 e)) := by
  obtain ⟨h1, h2⟩ := foldl_drawDownStep e drawDownInit
  simp only [BuildDrawDown, h1, h2]
  simp [drawDownInit]

theorem length_drawDownFrom (e : List ℚ) (m : ℚ) : (drawDownFrom m e).length = e.length := by
  induction e generalizing m with
  | nil => rfl
  | cons x xs ih => simp [drawDownFrom, ih]

theorem drawDownFrom_getElem? (e : List ℚ) (m : ℚ) (i : Nat) (h : i < e.length) :
    (drawDownFrom m e)[i]? = some (e[i] - (e.take (i + 1)).foldl max m) := by
  induction e generalizing m i with
  | nil => simp at h
  | cons x xs ih =>
    cases i with
    | zero =>
      by_cases hx : x ≥ m
      · simp [drawDownFrom, hx, max_eq_right hx]
      · have hlt : x < m := lt_of_not_ge hx
        simp [drawDownFrom, hx, max_eq_left hlt.le]
    | succ i =>
      have hi : i < xs.length := by simpa using h
      have hm : (if x ≥ m then x else m) = max m x := by
        by_cases hx : x ≥ m
        · simp [hx, max_eq_right hx]
        · simp [hx, max_eq_left (lt_of_not_ge hx).le]
      simp only [drawDownFrom, List.getElem?_cons_succ, List.getElem_cons_succ, List.take_succ_cons,
        List.foldl_cons]
      rw [ih _ i hi, hm]

theorem drawDownFrom_nonpos (e : List ℚ) (m : ℚ) : ∀ x ∈ drawDownFrom m e, x ≤ 0 := by
  induction e generalizing m with
  | nil => simp [drawDownFrom]
  | cons y ys ih =>
    intro x hx
    simp only [drawDownFrom, List.mem_cons] at hx
    rcases hx with hx | hx
    · subst hx
      by_cases hy : y ≥ m
      · simp [hy]
      · simp only [hy, if_false]
        linarith [lt_of_not_ge hy]
    · exact ih _ x hx

theorem minFrom_le_acc (ds : List ℚ) (acc : ℚ) : minFrom acc ds ≤ acc := by
  induction ds generalizing acc with
  | nil => simp [minFrom]
  | cons d ds ih =>
    have h := ih (if d < acc then d else acc)
    simp only [minFrom, List.foldl_cons] at h ⊢
    by_cases hd : d < acc
    · simp only [hd, if_true] at h ⊢
      exact h.trans hd.le
    · simpa [hd] using h

theorem minFrom_le_mem (ds : List ℚ) (acc : ℚ) : ∀ x ∈ ds, minFrom acc ds ≤ x := by
  induction ds generalizing acc with
  | nil => simp
  | cons d ds ih =>
    intro x hx
    have hacc := minFrom_le_acc ds (if d < acc then d else acc)
    have hrec := ih (if d < acc then d else acc)
    simp only [minFrom, List.foldl_cons] at hacc hrec ⊢
    rcases List.mem_cons.mp hx with hx | hx
    · subst hx
      by_cases hd : x < acc
      · simpa [hd] using hacc
      · simp only [hd, if_false] at hacc ⊢
        exact hacc.trans (not_lt.mp hd)
    · exact hrec x hx

theorem minFrom_mem_or (ds : List ℚ) (acc : ℚ) : minFrom acc ds = acc ∨ minFrom acc ds ∈ ds := by
  induction ds generalizing acc with
  | nil => simp [minFrom]
  | cons d ds ih =>
    have hrec := ih (if d < acc then d else acc)
    simp only [minFrom, List.foldl_cons] at hrec ⊢
    by_cases hd : d < acc
    · simp only [hd, if_true] at hrec ⊢
      rcases hrec with h | h
      · right; rw [h]; exact List.mem_cons_self _ _
      · right; exact List.mem_cons_of_mem _ h
    · simp only [hd, if_false] at hrec ⊢
      rcases hrec with h | h
      · left; exact h
      · right; exact List.mem_cons_of_mem _ h

theorem foldl_max_le (l : List ℚ) (m b : ℚ) (hm : m ≤ b) (hl : ∀ x ∈ l, x ≤ b) :
    l.foldl max m ≤ b := by
  induction l generalizing m with
  | nil => simpa using hm
  | cons y ys ih =>
    rw [List.foldl_cons]
    exact ih _ (max_le hm (hl y (List.mem_cons_self _ _)))
      (fun x hx => hl x (List.mem_cons_of_mem _ hx))

theorem le_foldl_max_init (l : List ℚ) (m : ℚ) : m ≤ l.foldl max m := by
  induction l generalizing m with
  | nil => simp
  | cons y ys ih =>
    rw [List.foldl_cons]
    exact (le_max_left m y).trans (ih _)

theorem le_foldl_max_mem (l : List ℚ) (m : ℚ) : ∀ x ∈ l, x ≤ l.foldl max m := by
  induction l generalizing m with
  | nil => simp
  | cons y ys ih =>
    intro x hx
    rw [List.foldl_cons]
    rcases List.mem_cons.mp hx with hx | hx
    · subst hx
      exact (le_max_right m x).trans (le_foldl_max_init ys _)
    · exact ih _ x hx

/-- C2: the drawdown series has the length of the equity series, and its value at
every index `i` is `e[i]` minus the running peak, the maximum of `0` and `e[0..i]`. -/
theorem BuildDrawDown_running_peak (e : List ℚ) :
    (BuildDrawDown e).1.length = e.length ∧
    ∀ i (h : i < e.length), (BuildDrawDown e).1[i]? = some (e[i] - runningPeak e i) := by
  rw [BuildDrawDown_eq]
  exact ⟨length_drawDownFrom e 0, fun i h => drawDownFrom_getElem? e 0 i h⟩

/-- C2 at the equity `[10, 7, 12]`: the drawdown series is `[0, -3, 0]`, and at
index 1 it is `7` minus the running peak `10`. -/
theorem BuildDrawDown_running_peak_witness :
    (BuildDrawDown [10, 7, 12]).1 = [0, -3, 0] ∧
    runningPeak [10, 7, 12] 1 = 10 ∧
    (BuildDrawDown [10, 7, 12]).1[1]? = some (([10, 7, 12] : List ℚ)[1] - runningPeak [10, 7, 12] 1) :=
  ⟨by simp [BuildDrawDown, drawDownStep, drawDownInit]; norm_num,
   by simp [runningPeak]; norm_num,
   (BuildDrawDown_running_peak [10, 7, 12]).2 1 (by decide)⟩

/-- C3: every value of the drawdown series is `≤ 0`, and so is the max drawdown. -/
theorem BuildDrawDown_nonpos (e : List ℚ) :
    (∀ x ∈ (BuildDrawDown e).1, x ≤ 0) ∧ (BuildDrawDown e).2 ≤ 0 := by
  rw [BuildDrawDown_eq]
  exact ⟨drawDownFrom_nonpos e 0, minFrom_le_acc _ 0⟩

/-- C4, as stated, fails: in the one-element equity series `[-5]` index 0 is a
running maximum of the series (no earlier element exists), yet the drawdown
there is `-5`, because the peak starts at `0`. -/
theorem BuildDrawDown_new_maximum_counterexample :
    (∀ j (hj : j < 0), ([-5] : List ℚ)[j] ≤ ([-5] : List ℚ)[0]) ∧
    (BuildDrawDown [-5]).1[0]? = some (-5 : ℚ) ∧
    (BuildDrawDown [-5]).1[0]? ≠ some (0 : ℚ) := by
  have hd : (BuildDrawDown [-5]).1 = [-5] := by
    simp [BuildDrawDown, drawDownStep, drawDownInit]
  refine ⟨fun j hj => absurd hj (Nat.not_lt_zero j), ?_, ?_⟩
  · rw [hd]; rfl
  · rw [hd]; simp

/-- C4 amended: at every index `i` where `e[i]` is non-negative and at least every
earlier element, the drawdown is `0`. -/
theorem BuildDrawDown_new_maximum (e : List ℚ) (i : Nat) (h : i < e.length)
    (h0 : 0 ≤ e[i]) (hmax : ∀ j (hj : j < i), e[j] ≤ e[i]) :
    (BuildDrawDown e).1[i]? = some 0 := by
  rw [BuildDrawDown_eq]
  show (drawDownFrom 0 e)[i]? = some 0
  rw [drawDownFrom_getElem? e 0 i h]
  have hpeak : (e.take (i + 1)).foldl max 0 = e[i] := by
    apply le_antisymm
    · apply foldl_max_le _ _ _ h0
      intro x hx
      obtain ⟨j, hj, rfl⟩ := List.mem_take_iff_getElem.mp hx
      have hj2 : j < i + 1 := lt_of_lt_of_le hj (min_le_left _ _)
      rcases Nat.lt_succ_iff_lt_or_eq.mp hj2 with hlt | heq
      · exact hmax j hlt
      · subst heq; exact le_refl _
    · apply le_foldl_max_mem
      exact List.mem_take_iff_getElem.mpr ⟨i, by simp [h], rfl⟩
  rw [hpeak, sub_self]

/-- C4 amended, at the equity `[10, 7, 12]` and index 2, a new non-negative maximum. -/
theorem BuildDrawDown_new_maximum_witness :
    (BuildDrawDown [10, 7, 12]).1[2]? = some 0 :=
  BuildDrawDown_new_maximum [10, 7, 12] 2 (by decide) (by norm_num)
    (fun j hj => by
      have : j = 0 ∨ j = 1 := by omega
      rcases this with rfl | rfl <;> norm_num)

/-- C5: for a non-empty equity series the max drawdown is the minimum of the
drawdown series; for the empty series the result is the empty series and `0`. -/
theorem BuildDrawDown_max_is_min (e : List ℚ) :
    (e ≠ [] → (BuildDrawDown e).1.minimum = ((BuildDrawDown e).2 : WithTop ℚ)) ∧
    (e = [] → BuildDrawDown e = ([], 0)) := by
  constructor
  · intro hne
    rw [BuildDrawDown_eq]
    show (drawDownFrom 0 e).minimum = ((minFrom 0 (drawDownFrom 0 e) : ℚ) : WithTop ℚ)
    rw [List.minimum_eq_coe_iff]
    refine ⟨?_, minFrom_le_mem _ 0⟩
    rcases minFrom_mem_or (drawDownFrom 0 e) 0 with h | h
    · have hlen : 0 < (drawDownFrom 0 e).length := by
        rw [length_drawDownFrom]; exact List.length_pos.mpr hne
      obtain ⟨d, ds, hd⟩ := List.exists_cons_of_length_pos hlen
      have hmem : d ∈ drawDownFrom 0 e := by rw [hd]; exact List.mem_cons_self _ _
      have h1 : d ≤ 0 := drawDownFrom_nonpos e 0 d hmem
      have h2 : minFrom 0 (drawDownFrom 0 e) ≤ d := minFrom_le_mem _ 0 d hmem
      rw [h] at h2
      have : d = 0 := le_antisymm h1 h2
      rw [this] at hmem
      rw [h]; exact hmem
    · exact h
  · rintro rfl
    rfl

/-- C5 at the equity `[10, 7, 12]` (max drawdown `-3`, the minimum of `[0, -3, 0]`)
and at the empty series. -/
theorem BuildDrawDown_max_is_min_witness :
    (BuildDrawDown [10, 7, 12]).2 = -3 ∧
    (BuildDrawDown [10, 7, 12]).1.minimum = ((BuildDrawDown [10, 7, 12]).2 : WithTop ℚ) ∧
    BuildDrawDown [] = ([], 0) :=
  ⟨by simp [BuildDrawDown, drawDownStep, drawDownInit]; norm_num,
   (BuildDrawDown_max_is_min [10, 7, 12]).1 (by simp),
   (BuildDrawDown_max_is_min []).2 rfl⟩

/-! ## Truncation -/

/-! ## Go maps: lookup and assignment -/

theorem GoMap.get_set {K V : Type} [DecidableEq K] (m : GoMap K V) (k k2 : K) (v : V) :
    (GoMap.set m k v).get k2 = if k2 = k then some v else m.get k2 := by
  induction m with
  | nil =>
    by_cases h : k2 = k
    · simp [GoMap.set, GoMap.get, h]
    · have h2 : ¬ k = k2 := fun e => h e.symm
      simp [GoMap.set, GoMap.get, h, h2]
  | cons e m ih =>
    by_cases he : e.1 = k
    · by_cases h : k2 = k
      · simp [GoMap.set, GoMap.get, he, h]
      · have h2 : ¬ k = k2 := fun e => h e.symm
        simp [GoMap.set, GoMap.get, he, h, h2]
    · by_cases h2 : e.1 = k2
      · have h : ¬ k2 = k := fun e2 => he (h2.trans e2)
        simp [GoMap.set, GoMap.get, he, h, h2]
      · simp only [GoMap.set, he, if_false]
        have := ih
        simp only [GoMap.get] at this ⊢
        simp only [List.find?_cons, h2, decide_False]
        exact this

theorem GoMap.mem_keys_set {K V : Type} [DecidableEq K] (m : GoMap K V) (k k2 : K) (v : V) :
    k2 ∈ (GoMap.set m k v).map Prod.fst ↔ k2 = k ∨ k2 ∈ m.map Prod.fst := by
  induction m with
  | nil => simp [GoMap.set]
  | cons e m ih =>
    by_cases he : e.1 = k
    · simp only [GoMap.set, he, if_true, List.map_cons, List.mem_cons]
      tauto
    · simp only [GoMap.set, he, if_false, List.map_cons, List.mem_cons, ih]
      tauto

theorem GoMap.nodup_keys_set {K V : Type} [DecidableEq K] (m : GoMap K V) (k : K) (v : V)
    (h : (m.map Prod.fst).Nodup) : ((GoMap.set m k v).map Prod.fst).Nodup := by
  induction m with
  | nil => simp [GoMap.set]
  | cons e m ih =>
    rw [List.map_cons, List.nodup_cons] at h
    by_cases he : e.1 = k
    · simp only [GoMap.set, he, if_true, List.map_cons, List.nodup_cons]
      exact ⟨he ▸ h.1, h.2⟩
    · simp only [GoMap.set, he, if_false, List.map_cons, List.nodup_cons]
      refine ⟨?_, ih h.2⟩
      rw [GoMap.mem_keys_set]
      rintro (h1 | h1)
      · exact he h1
      · exact h.1 h1

theorem GoMap.mem_of_get {K V : Type} [DecidableEq K] (m : GoMap K V) (k : K) (v : V)
    (h : m.get k = some v) : (k, v) ∈ m := by
  induction m with
  | nil => simp [GoMap.get] at h
  | cons e m ih =>
    by_cases he : e.1 = k
    · simp only [GoMap.get, List.find?_cons, he, decide_True, Option.map_some',
        Option.some.injEq] at h
      rw [← he, ← h]
      exact List.mem_cons_self _ _
    · simp only [GoMap.get, List.find?_cons, he, decide_False] at h
      exact List.mem_cons_of_mem _ (ih h)

theorem GoMap.get_of_mem {K V : Type} [DecidableEq K] (m : GoMap K V) (k : K) (v : V)
    (hnd : (m.map Prod.fst).Nodup) (h : (k, v) ∈ m) : m.get k = some v := by
  induction m with
  | nil => simp at h
  | cons e m ih =>
    rw [List.map_cons, List.nodup_cons] at hnd
    rcases List.mem_cons.mp h with h1 | h1
    · subst h1
      simp [GoMap.get]
    · have hne : ¬ e.1 = k := by
        intro he
        apply hnd.1
        rw [he]
        exact List.mem_map.mpr ⟨(k, v), h1, rfl⟩
      simp only [GoMap.get, List.find?_cons, hne, decide_False]
      exact ih hnd.2 h1

/-! ## Risk unit: the distribution of losses -/

theorem lossCounts_append_singleton (ts : List Trade) (t : Trade) :
    lossCounts (ts ++ [t]) = countLossStep (lossCounts ts) t := by
  simp [lossCounts, List.foldl_append]

theorem occurrences_append_singleton (ts : List Trade) (t : Trade) (v : ℚ) :
    occurrences (ts ++ [t]) v = occurrences ts v + (if t.GrossProfit = v then 1 else 0) := by
  by_cases h : t.GrossProfit = v <;> simp [occurrences, List.filter_append, h]

theorem occurrences_pos_iff (ts : List Trade) (v : ℚ) :
    0 < occurrences ts v ↔ ∃ t ∈ ts, t.GrossProfit = v := by
  simp [occurrences, List.length_pos, List.filter_eq_nil_iff]

theorem lossCounts_nodup_keys (ts : List Trade) : ((lossCounts ts).map Prod.fst).Nodup := by
  induction ts using List.reverseRecOn with
  | nil => simp [lossCounts]
  | append_singleton ts t ih =>
    rw [lossCounts_append_singleton]
    unfold countLossStep
    by_cases h : t.GrossProfit < 0
    · simp only [h, if_true]
      cases (lossCounts ts).get t.GrossProfit with
      | none => exact GoMap.nodup_keys_set _ _ _ ih
      | some c => exact GoMap.nodup_keys_set _ _ _ ih
    · simpa [h] using ih

/-- The map built by step 1 holds, under every negative gross profit that occurs,
the number of trades with exactly that gross profit, and nothing else. -/
theorem lossCounts_get (ts : List Trade) (k : ℚ) :
    (lossCounts ts).get k =
      if k < 0 ∧ 0 < occurrences ts k then some (occurrences ts k) else none := by
  induction ts using List.reverseRecOn generalizing k with
  | nil => simp [lossCounts, GoMap.get, occurrences]
  | append_singleton ts t ih =>
    rw [lossCounts_append_singleton, occurrences_append_singleton]
    unfold countLossStep
    by_cases h : t.GrossProfit < 0
    · simp only [h, if_true]
      have ihp := ih t.GrossProfit
      by_cases hk : k = t.GrossProfit
      · subst hk
        by_cases hocc : 0 < occurrences ts t.GrossProfit
        · rw [if_pos ⟨h, hocc⟩] at ihp
          rw [ihp]
          simp [GoMap.get_set, h]
        · rw [if_neg (fun hc => hocc hc.2)] at ihp
          rw [ihp]
          have h0 : occurrences ts t.GrossProfit = 0 := by omega
          simp [GoMap.get_set, h, h0]
      · have hk2 : ¬ t.GrossProfit = k := fun e => hk e.symm
        cases (lossCounts ts).get t.GrossProfit with
        | none => simp [GoMap.get_set, hk, hk2, ih k]
        | some c => simp [GoMap.get_set, hk, hk2, ih k]
    · simp only [h, if_false]
      by_cases hk : t.GrossProfit = k
      · have hk0 : ¬ k < 0 := hk ▸ h
        rw [ih k]
        simp [hk0]
      · simp [hk, ih k]

theorem lossCounts_mem_iff (ts : List Trade) (k : ℚ) (c : Nat) :
    (k, c) ∈ lossCounts ts ↔ k < 0 ∧ 0 < c ∧ c = occurrences ts k := by
  constructor
  · intro h
    have hg := GoMap.get_of_mem _ _ _ (lossCounts_nodup_keys ts) h
    rw [lossCounts_get] at hg
    by_cases hc : k < 0 ∧ 0 < occurrences ts k
    · rw [if_pos hc] at hg
      have : occurrences ts k = c := Option.some.inj hg
      exact ⟨hc.1, this ▸ hc.2, this.symm⟩
    · rw [if_neg hc] at hg
      cases hg
  · rintro ⟨h1, h2, h3⟩
    apply GoMap.mem_of_get
    rw [lossCounts_get, if_pos ⟨h1, h3 ▸ h2⟩, h3]

/-! ## Risk unit: the search for the most frequent loss -/

/-- The result of the loop of step 2 is either its initial state, when no entry
has a larger count, or the first visited entry whose count is the largest. -/
theorem foldl_stopLossStep (it : List (ℚ × Nat)) (s0 : StopLossState) :
    (it.foldl stopLossStep s0 = s0 ∧ ∀ e ∈ it, e.2 ≤ s0.bestCount) ∨
    ∃ pre post,
      it = pre ++ ((it.foldl stopLossStep s0).stopLoss, (it.foldl stopLossStep s0).bestCount) :: post ∧
      (∀ e ∈ pre, e.2 < (it.foldl stopLossStep s0).bestCount) ∧
      (∀ e ∈ post, e.2 ≤ (it.foldl stopLossStep s0).bestCount) ∧
      s0.bestCount < (it.foldl stopLossStep s0).bestCount := by
  induction it generalizing s0 with
  | nil => left; simp
  | cons e rest ih =>
    rw [List.foldl_cons]
    by_cases he : e.2 > s0.bestCount
    · have hstep : stopLossStep s0 e = { stopLoss := e.1, bestCount := e.2 } := by
        simp [stopLossStep, he]
      rw [hstep]
      right
      rcases ih { stopLoss := e.1, bestCount := e.2 } with ⟨h1, h2⟩ | ⟨pre, post, h1, h2, h3, h4⟩
      · exact ⟨[], rest, by rw [h1]; rfl, by simp, by rw [h1]; exact h2, by rw [h1]; exact he⟩
      · refine ⟨e :: pre, post, by rw [List.cons_append, ← h1], ?_, h3, lt_trans he h4⟩
        intro x hx
        rcases List.mem_cons.mp hx with hx | hx
        · rw [hx]; exact h4
        · exact h2 x hx
    · have hstep : stopLossStep s0 e = s0 := by simp [stopLossStep, he]
      rw [hstep]
      have hle : e.2 ≤ s0.bestCount := not_lt.mp he
      rcases ih s0 with ⟨h1, h2⟩ | ⟨pre, post, h1, h2, h3, h4⟩
      · left
        refine ⟨h1, ?_⟩
        intro x hx
        rcases List.mem_cons.mp hx with hx | hx
        · rw [hx]; exact hle
        · exact h2 x hx
      · right
        refine ⟨e :: pre, post, by rw [List.cons_append, ← h1], ?_, h3, h4⟩
        intro x hx
        rcases List.mem_cons.mp hx with hx | hx
        · rw [hx]; exact lt_of_le_of_lt hle h4
        · exact h2 x hx

theorem lossCounts_eq_nil (trades : List Trade) (h : ∀ t ∈ trades, ¬ t.GrossProfit < 0) :
    lossCounts trades = [] := by
  induction trades using List.reverseRecOn with
  | nil => rfl
  | append_singleton ts t ih =>
    rw [lossCounts_append_singleton, ih (fun x hx => h x (List.mem_append_left _ hx))]
    have ht : ¬ t.GrossProfit < 0 := h t (by simp)
    simp [countLossStep, ht]

/-- With at least one losing trade, `CalcRisk` succeeds with the absolute value of
the first entry, in visiting order, whose count is the largest. -/
theorem CalcRisk_visit (range : GoMap ℚ Nat → List (ℚ × Nat)) (hr : IsMapRange range)
    (trades : List Trade) (hloss : ∃ t ∈ trades, t.GrossProfit < 0) :
    ∃ pre loss count post, range (lossCounts trades) = pre ++ (loss, count) :: post ∧
      (∀ e ∈ pre, e.2 < count) ∧ (∀ e ∈ post, e.2 ≤ count) ∧ 0 < count ∧
      CalcRisk range trades = .ok |loss| := by
  obtain ⟨t, ht, hneg⟩ := hloss
  have hocc : 0 < occurrences trades t.GrossProfit := (occurrences_pos_iff _ _).mpr ⟨t, ht, rfl⟩
  have hmem : (t.GrossProfit, occurrences trades t.GrossProfit) ∈ range (lossCounts trades) :=
    (hr _).mem_iff.mpr ((lossCounts_mem_iff _ _ _).mpr ⟨hneg, hocc, rfl⟩)
  rcases foldl_stopLossStep (range (lossCounts trades)) { stopLoss := 0, bestCount := 0 } with
    ⟨_, h2⟩ | ⟨pre, post, h1, h2, h3, h4⟩
  · have := h2 _ hmem
    simp only at this
    omega
  · refine ⟨pre, _, _, post, h1, h2, h3, h4, ?_⟩
    have hne : ¬ ((range (lossCounts trades)).foldl stopLossStep
        { stopLoss := 0, bestCount := 0 }).bestCount = 0 := by
      simp only at h4
      omega
    unfold CalcRisk
    exact if_neg hne

theorem CalcRisk_no_loss (range : GoMap ℚ Nat → List (ℚ × Nat)) (hr : IsMapRange range)
    (trades : List Trade) (h : ∀ t ∈ trades, ¬ t.GrossProfit < 0) :
    CalcRisk range trades = .error "no losses found" := by
  have hnil : range (lossCounts trades) = [] := by
    have := hr (lossCounts trades)
    rw [lossCounts_eq_nil trades h] at this ⊢
    exact List.Perm.eq_nil this
  unfold CalcRisk
  simp only []
  rw [hnil]
  rfl

/-- C7: `CalcRisk` returns an error exactly when no trade has a negative gross
profit, and succeeds whenever some trade has one. -/
theorem CalcRisk_error_iff (range : GoMap ℚ Nat → List (ℚ × Nat)) (hr : IsMapRange range)
    (trades : List Trade) :
    ((∃ msg, CalcRisk range trades = .error msg) ↔ ∀ t ∈ trades, ¬ t.GrossProfit < 0) ∧
    ((∃ t ∈ trades, t.GrossProfit < 0) → ∃ r, CalcRisk range trades = .ok r) := by
  have hok : (∃ t ∈ trades, t.GrossProfit < 0) → ∃ r, CalcRisk range trades = .ok r := by
    intro hloss
    obtain ⟨_, loss, _, _, _, _, _, _, h⟩ := CalcRisk_visit range hr trades hloss
    exact ⟨|loss|, h⟩
  refine ⟨⟨?_, fun h => ⟨_, CalcRisk_no_loss range hr trades h⟩⟩, hok⟩
  rintro ⟨msg, hmsg⟩ t ht hneg
  obtain ⟨r, hr2⟩ := hok ⟨t, ht, hneg⟩
  rw [hr2] at hmsg
  cases hmsg

/-- C8: with at least one losing trade, `CalcRisk` returns `r` such that `-r` is the
gross profit of a losing trade and no negative gross profit occurs in more
trades than `-r` does. -/
theorem CalcRisk_mode (range : GoMap ℚ Nat → List (ℚ × Nat)) (hr : IsMapRange range)
    (trades : List Trade) (hloss : ∃ t ∈ trades, t.GrossProfit < 0) :
    ∃ r, CalcRisk range trades = .ok r ∧
      (∃ t ∈ trades, t.GrossProfit < 0 ∧ t.GrossProfit = -r) ∧
      ∀ v, v < 0 → occurrences trades v ≤ occurrences trades (-r) := by
  obtain ⟨pre, loss, count, post, hsplit, hpre, hpost, _, hres⟩ :=
    CalcRisk_visit range hr trades hloss
  have hin : (loss, count) ∈ range (lossCounts trades) := by rw [hsplit]; simp
  obtain ⟨hneg, hpos, hcount⟩ := (lossCounts_mem_iff _ _ _).mp ((hr _).mem_iff.mp hin)
  have habs : -|loss| = loss := by rw [abs_of_neg hneg, neg_neg]
  refine ⟨|loss|, hres, ?_, ?_⟩
  · obtain ⟨t, ht, hv⟩ := (occurrences_pos_iff trades loss).mp (hcount ▸ hpos)
    exact ⟨t, ht, hv ▸ hneg, by rw [habs]; exact hv⟩
  · intro v hv
    rw [habs, ← hcount]
    by_cases hocc : 0 < occurrences trades v
    · have hvin : (v, occurrences trades v) ∈ range (lossCounts trades) :=
        (hr _).mem_iff.mpr ((lossCounts_mem_iff _ _ _).mpr ⟨hv, hocc, rfl⟩)
      rw [hsplit] at hvin
      rcases List.mem_append.mp hvin with h | h
      · exact (hpre _ h).le
      · rcases List.mem_cons.mp h with h | h
        · rw [Prod.mk.injEq] at h; exact h.2.le
        · exact hpost _ h
    · omega

theorem isMapRange_insertionOrder : IsMapRange insertionOrder :=
  fun m => List.Perm.refl m

theorem isMapRange_reverseOrder : IsMapRange reverseOrder :=
  fun m => List.reverse_perm m

theorem lossCounts_threeLosses :
    lossCounts [longTrade (-5), longTrade (-5), longTrade (-3), longTrade 4] =
      [(-5, 2), (-3, 1)] := by
  simp [lossCounts, countLossStep, GoMap.get, GoMap.set, longTrade]

theorem CalcRisk_threeLosses :
    CalcRisk insertionOrder [longTrade (-5), longTrade (-5), longTrade (-3), longTrade 4] =
      .ok 5 := by
  unfold CalcRisk
  simp only [lossCounts_threeLosses, insertionOrder, List.foldl_cons, List.foldl_nil]
  simp [stopLossStep]

theorem lossCounts_twoLosses :
    lossCounts [longTrade (-5), longTrade (-3)] = [(-5, 1), (-3, 1)] := by
  simp [lossCounts, countLossStep, GoMap.get, GoMap.set, longTrade]

theorem CalcRisk_twoLosses_insertionOrder :
    CalcRisk insertionOrder [longTrade (-5), longTrade (-3)] = .ok 5 := by
  unfold CalcRisk
  simp only [lossCounts_twoLosses, insertionOrder, List.foldl_cons, List.foldl_nil]
  simp [stopLossStep]

theorem CalcRisk_twoLosses_reverseOrder :
    CalcRisk reverseOrder [longTrade (-5), longTrade (-3)] = .ok 3 := by
  unfold CalcRisk
  simp only [lossCounts_twoLosses, reverseOrder, List.reverse_cons, List.reverse_nil,
    List.nil_append, List.cons_append, List.foldl_cons, List.foldl_nil]
  simp [stopLossStep]

theorem firstEncounteredMode_twoLosses :
    firstEncounteredMode [longTrade (-5), longTrade (-3)] = some (-5) := by
  simp [firstEncounteredMode, occurrences, longTrade]

/-- C7 on the losses `[-5, -5, -3]` followed by a winning trade: the call succeeds
(with `5`), and the equivalence holds there. -/
theorem CalcRisk_error_iff_witness :
    CalcRisk insertionOrder [longTrade (-5), longTrade (-5), longTrade (-3), longTrade 4] = .ok 5 ∧
    ((∃ msg, CalcRisk insertionOrder
        [longTrade (-5), longTrade (-5), longTrade (-3), longTrade 4] = .error msg) ↔
      ∀ t ∈ [longTrade (-5), longTrade (-5), longTrade (-3), longTrade 4], ¬ t.GrossProfit < 0) :=
  ⟨CalcRisk_threeLosses,
   (CalcRisk_error_iff insertionOrder isMapRange_insertionOrder
      [longTrade (-5), longTrade (-5), longTrade (-3), longTrade 4]).1⟩

/-- C8 on the losses `[-5, -5, -3]` followed by a winning trade, where the risk
unit is `5`. -/
theorem CalcRisk_mode_witness :
    CalcRisk insertionOrder [longTrade (-5), longTrade (-5), longTrade (-3), longTrade 4] = .ok 5 ∧
    ∃ r, CalcRisk insertionOrder
        [longTrade (-5), longTrade (-5), longTrade (-3), longTrade 4] = .ok r ∧
      (∃ t ∈ [longTrade (-5), longTrade (-5), longTrade (-3), longTrade 4],
        t.GrossProfit < 0 ∧ t.GrossProfit = -r) ∧
      ∀ v, v < 0 →
        occurrences [longTrade (-5), longTrade (-5), longTrade (-3), longTrade 4] v ≤
          occurrences [longTrade (-5), longTrade (-5), longTrade (-3), longTrade 4] (-r) :=
  ⟨CalcRisk_threeLosses,
   CalcRisk_mode insertionOrder isMapRange_insertionOrder
     [longTrade (-5), longTrade (-5), longTrade (-3), longTrade 4]
     ⟨longTrade (-5), by simp, by simp [longTrade]⟩⟩

/-- C9, as stated, fails: in the trade list with losses `-5` then `-3`, both
occurring once, the first-encountered tied loss is `-5`, yet under the range
order that visits the map entries in reverse `CalcRisk` returns `3`; under the
insertion order it returns `5`, so the result is not a function of the trade
list alone. -/
theorem CalcRisk_first_encountered_counterexample :
    IsMapRange reverseOrder ∧ IsMapRange insertionOrder ∧
    occurrences [longTrade (-5), longTrade (-3)] (-5) = 1 ∧
    occurrences [longTrade (-5), longTrade (-3)] (-3) = 1 ∧
    firstEncounteredMode [longTrade (-5), longTrade (-3)] = some (-5) ∧
    CalcRisk reverseOrder [longTrade (-5), longTrade (-3)] = .ok 3 ∧
    CalcRisk reverseOrder [longTrade (-5), longTrade (-3)] ≠ .ok |(-5 : ℚ)| ∧
    CalcRisk insertionOrder [longTrade (-5), longTrade (-3)] = .ok 5 := by
  refine ⟨isMapRange_reverseOrder, isMapRange_insertionOrder, by simp [occurrences, longTrade],
    by simp [occurrences, longTrade], firstEncounteredMode_twoLosses,
    CalcRisk_twoLosses_reverseOrder, ?_, CalcRisk_twoLosses_insertionOrder⟩
  rw [CalcRisk_twoLosses_reverseOrder]
  intro h
  have h2 : (3 : ℚ) = |(-5 : ℚ)| := Except.ok.inj h
  norm_num at h2

/-- C9 amended: with at least one losing trade, `CalcRisk` returns the absolute
value of the loss whose map entry is the first, in the order the map is ranged
over, to carry the highest occurrence count: every entry visited before it has
a strictly smaller count, every entry visited after it has no larger one. -/
theorem CalcRisk_first_visited (range : GoMap ℚ Nat → List (ℚ × Nat)) (hr : IsMapRange range)
    (trades : List Trade) (hloss : ∃ t ∈ trades, t.GrossProfit < 0) :
    ∃ pre loss post, range (lossCounts trades) = pre ++ (loss, occurrences trades loss) :: post ∧
      loss < 0 ∧
      (∀ e ∈ pre, occurrences trades e.1 < occurrences trades loss) ∧
      (∀ e ∈ post, occurrences trades e.1 ≤ occurrences trades loss) ∧
      CalcRisk range trades = .ok |loss| := by
  obtain ⟨pre, loss, count, post, hsplit, hpre, hpost, _, hres⟩ :=
    CalcRisk_visit range hr trades hloss
  have hcounts : ∀ e ∈ range (lossCounts trades), e.2 = occurrences trades e.1 :=
    fun e he => ((lossCounts_mem_iff _ _ _).mp ((hr _).mem_iff.mp he)).2.2
  have hin : (loss, count) ∈ range (lossCounts trades) := by rw [hsplit]; simp
  have hneg : loss < 0 := ((lossCounts_mem_iff _ _ _).mp ((hr _).mem_iff.mp hin)).1
  have hcount : count = occurrences trades loss := hcounts _ hin
  subst hcount
  refine ⟨pre, loss, post, hsplit, hneg, ?_, ?_, hres⟩
  · intro e he
    rw [← hcounts e (by rw [hsplit]; exact List.mem_append_left _ he)]
    exact hpre e he
  · intro e he
    rw [← hcounts e (by rw [hsplit]; simp [he])]
    exact hpost e he

/-- C9 amended, on the losses `-5` then `-3` ranged over in reverse order. -/
theorem CalcRisk_first_visited_witness :
    CalcRisk reverseOrder [longTrade (-5), longTrade (-3)] = .ok 3 ∧
    ∃ pre loss post,
      reverseOrder (lossCounts [longTrade (-5), longTrade (-3)]) =
        pre ++ (loss, occurrences [longTrade (-5), longTrade (-3)] loss) :: post ∧
      loss < 0 ∧
      (∀ e ∈ pre, occurrences [longTrade (-5), longTrade (-3)] e.1 <
        occurrences [longTrade (-5), longTrade (-3)] loss) ∧
      (∀ e ∈ post, occurrences [longTrade (-5), longTrade (-3)] e.1 ≤
        occurrences [longTrade (-5), longTrade (-3)] loss) ∧
      CalcRisk reverseOrder [longTrade (-5), longTrade (-3)] = .ok |loss| :=
  ⟨CalcRisk_twoLosses_reverseOrder,
   CalcRisk_first_visited reverseOrder isMapRange_reverseOrder [longTrade (-5), longTrade (-3)]
     ⟨longTrade (-5), by simp, by simp [longTrade]⟩⟩

/-! ## Quality grid: which trades a cell collects -/

theorem foldl_collectStep (toIntDate : Time → Int) (tradeType : String)
    (direction volatility : Int) (risk costPerOper : ℚ) (marketMap : GoMap Int DailyResult)
    (trades : List Trade) (acc : List ℚ) :
    trades.foldl (collectStep toIntDate tradeType direction volatility risk costPerOper marketMap) acc
      = acc ++ (trades.filter (selected toIntDate tradeType direction volatility marketMap)).map
          (fun t => (t.GrossProfit - 2 * costPerOper) / risk) := by
  induction trades generalizing acc with
  | nil => simp
  | cons t ts ih =>
    rw [List.foldl_cons, ih]
    by_cases h1 : t.TradeType = tradeType ∨ tradeType = TradeTypeAll
    · by_cases h2 : direction = DirectionAll ∨ direction = (mapTrade toIntDate t marketMap).1
      · by_cases h3 : volatility = VolatilityAll ∨ volatility = (mapTrade toIntDate t marketMap).2
        · simp [collectStep, selected, h1, h2, h3]
        · simp [collectStep, selected, h1, h2, h3]
      · simp [collectStep, selected, h1, h2]
    · simp [collectStep, selected, h1]

theorem collectReturns_eq (toIntDate : Time → Int) (trades : List Trade) (tradeType : String)
    (direction volatility : Int) (risk costPerOper : ℚ) (marketMap : GoMap Int DailyResult) :
    collectReturns toIntDate trades tradeType direction volatility risk costPerOper marketMap
      = (trades.filter (selected toIntDate tradeType direction volatility marketMap)).map
          (fun t => (t.GrossProfit - 2 * costPerOper) / risk) := by
  rw [collectReturns, foldl_collectStep, List.nil_append]

theorem calcMetrics_Trades (stats : Stats) (list : List ℚ) (cell : Metrics) :
    (calcMetrics stats list cell).Trades = cell.Trades := by
  unfold calcMetrics
  by_cases h : (stats.meanAndStdDev list).2 > 0 <;> simp [h]

theorem calcQualityMetrics_Trades (toIntDate : Time → Int) (stats : Stats) (trades : List Trade)
    (tradeType : String) (direction volatility : Int) (risk costPerOper : ℚ)
    (marketMap : GoMap Int DailyResult) :
    (calcQualityMetrics toIntDate stats trades tradeType direction volatility risk costPerOper
      marketMap).Trades
      = (collectReturns toIntDate trades tradeType direction volatility risk costPerOper
          marketMap).length := by
  unfold calcQualityMetrics
  simp only []
  split
  · rw [calcMetrics_Trades]
  · rfl

theorem mapTrade_of_no_regime (toIntDate : Time → Int) (marketMap : GoMap Int DailyResult)
    (t : Trade) (h : hasRegime toIntDate marketMap t = false) :
    mapTrade toIntDate t marketMap = (10, 10) := by
  unfold hasRegime at h
  unfold mapTrade
  cases hg : marketMap.get (toIntDate t.EntryDate) with
  | none => simp only [hg]
  | some dr => rw [hg] at h; simp at h

/-- In every reported cell other than the fully aggregated one, a selected trade
has a regime entry. -/
theorem hasRegime_of_selected (toIntDate : Time → Int) (tradeType : String)
    (direction volatility : Int) (marketMap : GoMap Int DailyResult) (t : Trade)
    (hdir : (DirectionStrongBear ≤ direction ∧ direction ≤ DirectionStrongBull) ∨
      direction = DirectionAll)
    (hvol : (VolatilityQuiet ≤ volatility ∧ volatility ≤ VolatilityVeryVolatile) ∨
      volatility = VolatilityAll)
    (hcell : ¬ (direction = DirectionAll ∧ volatility = VolatilityAll))
    (hsel : selected toIntDate tradeType direction volatility marketMap t = true) :
    hasRegime toIntDate marketMap t = true := by
  by_contra hno
  have hmap := mapTrade_of_no_regime toIntDate marketMap t (by simpa using hno)
  simp only [selected, hmap, Bool.and_eq_true, decide_eq_true_eq] at hsel
  obtain ⟨⟨_, h2⟩, h3⟩ := hsel
  simp only [DirectionStrongBear, DirectionStrongBull, VolatilityQuiet, VolatilityVeryVolatile,
    DirectionAll, VolatilityAll] at *
  omega

theorem hasRegime_unclassifiedTrade (g : ℚ) :
    hasRegime intDateOf (buildMarketMap [sampleRegime]) (unclassifiedTrade g) = false := by
  simp [hasRegime, buildMarketMap, GoMap.set, GoMap.get, sampleRegime, unclassifiedTrade,
    intDateOf, nextDay]

theorem collectReturns_unclassified_overall :
    collectReturns intDateOf [unclassifiedTrade 10] TradeTypeAll DirectionAll VolatilityAll 5 0
      (buildMarketMap [sampleRegime]) = [2] := by
  rw [collectReturns_eq]
  simp [selected, unclassifiedTrade]
  norm_num

/-- C10, as stated, fails: a trade entered on a day without regime entry is mapped
to the sentinel `(10, 10)`, yet the fully aggregated cell `DirectionAll`,
`VolatilityAll` collects it and reports a trade count of 1. -/
theorem unmatched_trade_counterexample :
    hasRegime intDateOf (buildMarketMap [sampleRegime]) (unclassifiedTrade 10) = false ∧
    mapTrade intDateOf (unclassifiedTrade 10) (buildMarketMap [sampleRegime]) = (10, 10) ∧
    collectReturns intDateOf [unclassifiedTrade 10] TradeTypeAll DirectionAll VolatilityAll 5 0
      (buildMarketMap [sampleRegime]) = [2] ∧
    ∀ stats : Stats,
      (calcQualityMetrics intDateOf stats [unclassifiedTrade 10] TradeTypeAll DirectionAll
        VolatilityAll 5 0 (buildMarketMap [sampleRegime])).Trades = 1 := by
  refine ⟨hasRegime_unclassifiedTrade 10,
    mapTrade_of_no_regime _ _ _ (hasRegime_unclassifiedTrade 10),
    collectReturns_unclassified_overall, fun stats => ?_⟩
  rw [calcQualityMetrics_Trades, collectReturns_unclassified_overall]
  rfl

/-- C10 amended: in every concrete direction × volatility cell and in every
All-direction or All-volatility marginal cell, for every trade partition and
every cost (gross and net), the trades without regime entry are not counted:
the cell collects the same R-multiples, and reports the same trade count, as
on the trade list with those trades removed. The fully aggregated cell
`DirectionAll`, `VolatilityAll` counts every trade of the partition, with or
without regime entry. -/
theorem unmatched_trade_only_in_overall (toIntDate : Time → Int) (stats : Stats)
    (trades : List Trade) (tradeType : String) (risk costPerOper : ℚ)
    (marketMap : GoMap Int DailyResult) :
    (∀ direction volatility : Int,
      ((DirectionStrongBear ≤ direction ∧ direction ≤ DirectionStrongBull) ∨
        direction = DirectionAll) →
      ((VolatilityQuiet ≤ volatility ∧ volatility ≤ VolatilityVeryVolatile) ∨
        volatility = VolatilityAll) →
      ¬ (direction = DirectionAll ∧ volatility = VolatilityAll) →
      collectReturns toIntDate trades tradeType direction volatility risk costPerOper marketMap
        = collectReturns toIntDate (trades.filter (hasRegime toIntDate marketMap)) tradeType
            direction volatility risk costPerOper marketMap ∧
      (calcQualityMetrics toIntDate stats trades tradeType direction volatility risk costPerOper
          marketMap).Trades
        = (calcQualityMetrics toIntDate stats (trades.filter (hasRegime toIntDate marketMap))
            tradeType direction volatility risk costPerOper marketMap).Trades) ∧
    (calcQualityMetrics toIntDate stats trades tradeType DirectionAll VolatilityAll risk
        costPerOper marketMap).Trades
      = (trades.filter (inPartition tradeType)).length := by
  constructor
  · intro direction volatility hdir hvol hcell
    have hlist :
        collectReturns toIntDate trades tradeType direction volatility risk costPerOper marketMap
          = collectReturns toIntDate (trades.filter (hasRegime toIntDate marketMap)) tradeType
              direction volatility risk costPerOper marketMap := by
      rw [collectReturns_eq, collectReturns_eq, List.filter_filter]
      congr 1
      apply List.filter_congr
      intro t _
      by_cases hsel : selected toIntDate tradeType direction volatility marketMap t = true
      · rw [hsel, hasRegime_of_selected toIntDate tradeType direction volatility marketMap t
          hdir hvol hcell hsel]
        rfl
      · have hf : selected toIntDate tradeType direction volatility marketMap t = false := by
          simpa using hsel
        rw [hf]
        rfl
    exact ⟨hlist, by rw [calcQualityMetrics_Trades, calcQualityMetrics_Trades, hlist]⟩
  · rw [calcQualityMetrics_Trades, collectReturns_eq, List.length_map]
    congr 1
    apply List.filter_congr
    intro t _
    simp [selected, inPartition]

/-- C10 amended, on a list of one classified and one unclassified trade: the
All-volatility cell of direction 1 reports the trade count of the list without
the unclassified trade, the fully aggregated cell counts both trades. -/
theorem unmatched_trade_only_in_overall_witness :
    (∀ stats : Stats,
      (calcQualityMetrics intDateOf stats [longTrade (-5), unclassifiedTrade 10] TradeTypeAll 1
          VolatilityAll 5 0 (buildMarketMap [sampleRegime])).Trades
        = (calcQualityMetrics intDateOf stats
            ([longTrade (-5), unclassifiedTrade 10].filter
              (hasRegime intDateOf (buildMarketMap [sampleRegime])))
            TradeTypeAll 1 VolatilityAll 5 0 (buildMarketMap [sampleRegime])).Trades) ∧
    ∀ stats : Stats,
      (calcQualityMetrics intDateOf stats [longTrade (-5), unclassifiedTrade 10] TradeTypeAll
          DirectionAll VolatilityAll 5 0 (buildMarketMap [sampleRegime])).Trades
        = ([longTrade (-5), unclassifiedTrade 10].filter (inPartition TradeTypeAll)).length :=
  ⟨fun stats => ((unmatched_trade_only_in_overall intDateOf stats
      [longTrade (-5), unclassifiedTrade 10] TradeTypeAll 5 0 (buildMarketMap [sampleRegime])).1
      1 VolatilityAll (Or.inl (by decide)) (Or.inr rfl) (by decide)).2,
   fun stats => (unmatched_trade_only_in_overall intDateOf stats
      [longTrade (-5), unclassifiedTrade 10] TradeTypeAll 5 0 (buildMarketMap [sampleRegime])).2⟩

/-! ## Profit sequences and R-multiples -/

theorem foldl_rMultipleStep (tradeType : String) (risk costPerOper : ℚ) (trades : List Trade)
    (acc : List ℚ) :
    trades.foldl (rMultipleStep tradeType risk costPerOper) acc
      = acc ++ (trades.filter (fun t => decide (tradeType = TradeTypeAll ∨ tradeType = t.TradeType))).map
          (fun t => (t.GrossProfit - 2 * costPerOper) / risk) := by
  induction trades generalizing acc with
  | nil => simp
  | cons t ts ih =>
    rw [List.foldl_cons, ih]
    by_cases h : tradeType = TradeTypeAll ∨ tradeType = t.TradeType
    · simp [rMultipleStep, h]
    · simp [rMultipleStep, h]

/-- C13: `CalcRMultiple` returns, in trade order, the value
`(grossProfit - 2 * cost) / risk` of each trade whose type is the requested one,
of every trade when the requested type is `TradeTypeAll`, and nothing else. -/
theorem CalcRMultiple_values (trades : List Trade) (tradeType : String) (risk costPerOper : ℚ) :
    (tradeType = TradeTypeAll →
      CalcRMultiple trades tradeType risk costPerOper
        = trades.map (fun t => (t.GrossProfit - 2 * costPerOper) / risk)) ∧
    (tradeType ≠ TradeTypeAll →
      CalcRMultiple trades tradeType risk costPerOper
        = (trades.filter (fun t => decide (t.TradeType = tradeType))).map
            (fun t => (t.GrossProfit - 2 * costPerOper) / risk)) := by
  constructor
  · intro h
    rw [CalcRMultiple, foldl_rMultipleStep, List.nil_append]
    congr 1
    simp [h]
  · intro h
    rw [CalcRMultiple, foldl_rMultipleStep, List.nil_append]
    congr 1
    apply List.filter_congr
    intro t _
    simp [h, eq_comm]

/-- C13 on a long and a short trade: the long partition keeps the long trade,
the `TradeTypeAll` partition keeps both. -/
theorem CalcRMultiple_values_witness :
    CalcRMultiple [longTrade (-5), shortTrade 12] TradeTypeAll 5 1
      = [longTrade (-5), shortTrade 12].map (fun t => (t.GrossProfit - 2 * 1) / 5) ∧
    CalcRMultiple [longTrade (-5), shortTrade 12] TradeTypeLong 5 1
      = ([longTrade (-5), shortTrade 12].filter
          (fun t => decide (t.TradeType = TradeTypeLong))).map
            (fun t => (t.GrossProfit - 2 * 1) / 5) :=
  ⟨(CalcRMultiple_values [longTrade (-5), shortTrade 12] TradeTypeAll 5 1).1 rfl,
   (CalcRMultiple_values [longTrade (-5), shortTrade 12] TradeTypeLong 5 1).2 (by decide)⟩

theorem foldl_netStep (costPerOper : ℚ) (g acc : List ℚ) :
    g.foldl (fun netSlice gross => netSlice ++ [gross - 2 * costPerOper]) acc
      = acc ++ g.map (fun gross => gross - 2 * costPerOper) := by
  induction g generalizing acc with
  | nil => simp
  | cons x xs ih => rw [List.foldl_cons, ih]; simp

theorem BuildNetProfits_eq_map (g : List ℚ) (costPerOper : ℚ) :
    BuildNetProfits g costPerOper = g.map (fun gross => gross - 2 * costPerOper) := by
  rw [BuildNetProfits, foldl_netStep, List.nil_append]

/-- C14: `BuildNetProfits g c` has the length of `g`, and its element `i` is
`g[i] - 2 * c`. -/
theorem BuildNetProfits_elements (g : List ℚ) (c : ℚ) :
    (BuildNetProfits g c).length = g.length ∧
    ∀ i (h : i < g.length), (BuildNetProfits g c)[i]? = some (g[i] - 2 * c) := by
  rw [BuildNetProfits_eq_map]
  refine ⟨List.length_map _ _, fun i h => ?_⟩
  simp [h]

/-- C14 on the gross profits `[10, -3, 5]` with cost `1`. -/
theorem BuildNetProfits_elements_witness :
    BuildNetProfits [10, -3, 5] 1 = [8, -5, 3] ∧
    (BuildNetProfits [10, -3, 5] 1)[1]? = some (([10, -3, 5] : List ℚ)[1] - 2 * 1) :=
  ⟨by simp [BuildNetProfits]; norm_num,
   (BuildNetProfits_elements [10, -3, 5] 1).2 1 (by decide)⟩

/-! ## Performance figures -/

theorem foldl_grossProfitsStep (tradeType : String) (trades : List Trade) (s : GrossProfitsState) :
    trades.foldl (grossProfitsStep tradeType) s
      = { timeSlice := s.timeSlice ++ (trades.filter (inPartition tradeType)).map (fun t => t.ExitDate)
          equSlice := s.equSlice ++ (trades.filter (inPartition tradeType)).map (fun t => t.GrossProfit) } := by
  induction trades generalizing s with
  | nil => simp
  | cons t ts ih =>
    rw [List.foldl_cons, ih]
    by_cases h : tradeType = TradeTypeAll ∨ t.TradeType = tradeType
    · have h2 : inPartition tradeType t = true := by
        simp only [inPartition, decide_eq_true_eq]; tauto
      simp [grossProfitsStep, h, h2]
    · have h2 : inPartition tradeType t = false := by
        simp only [inPartition, decide_eq_false_iff_not]; tauto
      simp [grossProfitsStep, h, h2]

theorem BuildGrossProfits_eq (trades : List Trade) (tradeType : String) :
    BuildGrossProfits trades tradeType
      = ((trades.filter (inPartition tradeType)).map (fun t => t.ExitDate),
         partitionGross trades tradeType) := by
  simp [BuildGrossProfits, foldl_grossProfitsStep, partitionGross]

theorem getLast?_equityFrom (ps : List ℚ) (v : ℚ) :
    ((equityFrom v ps).getLast?).getD v = v + ps.sum := by
  induction ps generalizing v with
  | nil => simp [equityFrom]
  | cons p ps ih =>
    have h := ih (v + p)
    cases hps : equityFrom (v + p) ps with
    | nil =>
      rw [hps] at h
      simp only [equityFrom, hps, List.getLast?_singleton, Option.getD_some, List.sum_cons]
      simp only [List.getLast?_nil, Option.getD_none] at h
      linarith
    | cons e es =>
      rw [hps] at h
      simp only [equityFrom, hps, List.sum_cons]
      rw [List.getLast?_cons_cons]
      have hx : (e :: es).getLast? = some ((e :: es).getLast (List.cons_ne_nil e es)) :=
        List.getLast?_eq_getLast _ _
      rw [hx] at h ⊢
      simp only [Option.getD_some] at h ⊢
      rw [h]; ring

theorem calcProfit_eq_getLast? (equity : List ℚ) :
    Performance.calcProfit equity = equity.getLast?.getD 0 := by
  unfold Performance.calcProfit
  by_cases h : equity.length = 0
  · have : equity = [] := List.length_eq_zero.mp h
    simp [this]
  · rw [if_neg h, List.getLast?_eq_getElem?, List.getD_eq_getElem?_getD]

theorem reportsPartition_of_eq (profits : List ℚ) (count : Nat) (hcount : count = profits.length) :
    Performance.ReportsPartition profits (BuildEquity profits) count
      (Performance.calcProfit (BuildEquity profits))
      (Performance.calcAvgTrade (Performance.calcProfit (BuildEquity profits)) count) := by
  have hsum : Performance.calcProfit (BuildEquity profits) = profits.sum := by
    rw [calcProfit_eq_getLast?, BuildEquity_eq_equityFrom, getLast?_equityFrom, zero_add]
  refine ⟨rfl, calcProfit_eq_getLast? _, hsum, ?_, ?_⟩
  · intro h0
    have hnil : profits = [] := List.length_eq_zero.mp (hcount ▸ h0)
    subst hnil
    exact ⟨by rw [hsum]; rfl, by simp [Performance.calcAvgTrade, h0]⟩
  · intro hne
    simp [Performance.calcAvgTrade, hne]

theorem calcEquities_eq (ts : TradingSystem) (trades : List Trade) (tradeType : String) :
    (Performance.calcEquities ts trades tradeType).1.GrossEquity
        = BuildEquity (partitionGross trades tradeType) ∧
    (Performance.calcEquities ts trades tradeType).1.NetEquity
        = BuildEquity (partitionNet trades tradeType ts.CostPerOperation) ∧
    (Performance.calcEquities ts trades tradeType).1.Trades = partitionCount trades tradeType := by
  simp [Performance.calcEquities, BuildGrossProfits_eq, BuildNetProfits_eq_map, partitionNet,
    partitionCount]

theorem reportsPartition_gross (ts : TradingSystem) (trades : List Trade) (tradeType : String) :
    Performance.ReportsPartition (partitionGross trades tradeType)
      (Performance.calcEquities ts trades tradeType).1.GrossEquity
      (partitionCount trades tradeType)
      (Performance.calcProfit (Performance.calcEquities ts trades tradeType).1.GrossEquity)
      (Performance.calcAvgTrade
        (Performance.calcProfit (Performance.calcEquities ts trades tradeType).1.GrossEquity)
        (Performance.calcEquities ts trades tradeType).1.Trades) := by
  obtain ⟨h1, _, h3⟩ := calcEquities_eq ts trades tradeType
  rw [h1, h3]
  exact reportsPartition_of_eq _ _ (by simp [partitionCount, partitionGross])

theorem reportsPartition_net (ts : TradingSystem) (trades : List Trade) (tradeType : String) :
    Performance.ReportsPartition (partitionNet trades tradeType ts.CostPerOperation)
      (Performance.calcEquities ts trades tradeType).1.NetEquity
      (partitionCount trades tradeType)
      (Performance.calcProfit (Performance.calcEquities ts trades tradeType).1.NetEquity)
      (Performance.calcAvgTrade
        (Performance.calcProfit (Performance.calcEquities ts trades tradeType).1.NetEquity)
        (Performance.calcEquities ts trades tradeType).1.Trades) := by
  obtain ⟨_, h2, h3⟩ := calcEquities_eq ts trades tradeType
  rw [h2, h3]
  exact reportsPartition_of_eq _ _ (by simp [partitionCount, partitionNet, partitionGross])

/-- C15: in the response of `GetPerformanceAnalysis`, for each of the All, Long
and Short partitions and for gross and net, the reported profit is the last
value of the partition's equity series, which is the sum of its profits (`0`
without trades), and the reported average trade is
`Trunc2d (profit / number of trades)`, `0` without trades. -/
theorem GetPerformanceAnalysis_figures (ts : TradingSystem) (trades : List Trade) :
    Performance.ReportsPartition (partitionGross trades TradeTypeAll)
      (Performance.GetPerformanceAnalysis ts trades).AllEquities.GrossEquity
      (partitionCount trades TradeTypeAll)
      (Performance.GetPerformanceAnalysis ts trades).Gross.Profit.Total
      (Performance.GetPerformanceAnalysis ts trades).Gross.AverageTrade.Total ∧
    Performance.ReportsPartition (partitionGross trades TradeTypeLong)
      (Performance.GetPerformanceAnalysis ts trades).LongEquities.GrossEquity
      (partitionCount trades TradeTypeLong)
      (Performance.GetPerformanceAnalysis ts trades).Gross.Profit.Long
      (Performance.GetPerformanceAnalysis ts trades).Gross.AverageTrade.Long ∧
    Performance.ReportsPartition (partitionGross trades TradeTypeShort)
      (Performance.GetPerformanceAnalysis ts trades).ShortEquities.GrossEquity
      (partitionCount trades TradeTypeShort)
      (Performance.GetPerformanceAnalysis ts trades).Gross.Profit.Short
      (Performance.GetPerformanceAnalysis ts trades).Gross.AverageTrade.Short ∧
    Performance.ReportsPartition (partitionNet trades TradeTypeAll ts.CostPerOperation)
      (Performance.GetPerformanceAnalysis ts trades).AllEquities.NetEquity
      (partitionCount trades TradeTypeAll)
      (Performance.GetPerformanceAnalysis ts trades).Net.Profit.Total
      (Performance.GetPerformanceAnalysis ts trades).Net.AverageTrade.Total ∧
    Performance.ReportsPartition (partitionNet trades TradeTypeLong ts.CostPerOperation)
      (Performance.GetPerformanceAnalysis ts trades).LongEquities.NetEquity
      (partitionCount trades TradeTypeLong)
      (Performance.GetPerformanceAnalysis ts trades).Net.Profit.Long
      (Performance.GetPerformanceAnalysis ts trades).Net.AverageTrade.Long ∧
    Performance.ReportsPartition (partitionNet trades TradeTypeShort ts.CostPerOperation)
      (Performance.GetPerformanceAnalysis ts trades).ShortEquities.NetEquity
      (partitionCount trades TradeTypeShort)
      (Performance.GetPerformanceAnalysis ts trades).Net.Profit.Short
      (Performance.GetPerformanceAnalysis ts trades).Net.AverageTrade.Short :=
  ⟨reportsPartition_gross ts trades TradeTypeAll, reportsPartition_gross ts trades TradeTypeLong,
   reportsPartition_gross ts trades TradeTypeShort, reportsPartition_net ts trades TradeTypeAll,
   reportsPartition_net ts trades TradeTypeLong, reportsPartition_net ts trades TradeTypeShort⟩

/-! ## Quality grid: marginal cells -/

theorem GoMap.mem_set {K V : Type} [DecidableEq K] (m : GoMap K V) (k : K) (v : V) (e : K × V)
    (h : e ∈ GoMap.set m k v) : e = (k, v) ∨ e ∈ m := by
  induction m with
  | nil => left; simpa [GoMap.set] using h
  | cons x m ih =>
    by_cases hx : x.1 = k
    · simp only [GoMap.set, hx, if_true, List.mem_cons] at h
      rcases h with h | h
      · left; exact h
      · right; exact List.mem_cons_of_mem _ h
    · simp only [GoMap.set, hx, if_false, List.mem_cons] at h
      rcases h with h | h
      · right; rw [h]; exact List.mem_cons_self _ _
      · rcases ih h with h2 | h2
        · left; exact h2
        · right; exact List.mem_cons_of_mem _ h2

theorem buildMarketMap_append_singleton (list : List DailyResult) (dr : DailyResult) :
    buildMarketMap (list ++ [dr]) = GoMap.set (buildMarketMap list) dr.Date dr := by
  simp [buildMarketMap, List.foldl_append]

theorem buildMarketMap_mem (list : List DailyResult) :
    ∀ e ∈ buildMarketMap list, e.2 ∈ list := by
  induction list using List.reverseRecOn with
  | nil => simp [buildMarketMap]
  | append_singleton l dr ih =>
    intro e he
    rw [buildMarketMap_append_singleton] at he
    rcases GoMap.mem_set _ _ _ _ he with h | h
    · rw [h]; simp
    · exact List.mem_append_left _ (ih e h)

/-- The pair `mapTrade` returns is the sentinel `(10, 10)` or the direction and
volatility of one of the regime entries. -/
theorem mapTrade_cases (toIntDate : Time → Int) (list : List DailyResult) (t : Trade) :
    mapTrade toIntDate t (buildMarketMap list) = (10, 10) ∨
    ∃ dr ∈ list, mapTrade toIntDate t (buildMarketMap list) = (dr.Direction, dr.Volatility) := by
  unfold mapTrade
  cases hg : (buildMarketMap list).get (toIntDate t.EntryDate) with
  | none => left; simp only [hg]
  | some dr =>
    right
    exact ⟨dr, buildMarketMap_mem list _ (GoMap.mem_of_get _ _ _ hg), by simp only [hg]⟩

theorem length_filter_split4 {α : Type} (l : List α) (p q0 q1 q2 q3 : α → Bool)
    (h : ∀ t ∈ l, (p t).toNat = (q0 t).toNat + (q1 t).toNat + (q2 t).toNat + (q3 t).toNat) :
    (l.filter p).length
      = (l.filter q0).length + (l.filter q1).length + (l.filter q2).length
        + (l.filter q3).length := by
  induction l with
  | nil => rfl
  | cons t ts ih =>
    have ht := h t (List.mem_cons_self _ _)
    have ih2 := ih (fun x hx => h x (List.mem_cons_of_mem _ hx))
    simp only [List.filter_cons]
    cases hp : p t <;> cases h0 : q0 t <;> cases h1 : q1 t <;> cases h2 : q2 t <;>
      cases h3 : q3 t <;> simp [hp, h0, h1, h2, h3] at ht ⊢ <;> omega

theorem length_filter_split5 {α : Type} (l : List α) (p q0 q1 q2 q3 q4 : α → Bool)
    (h : ∀ t ∈ l, (p t).toNat
      = (q0 t).toNat + (q1 t).toNat + (q2 t).toNat + (q3 t).toNat + (q4 t).toNat) :
    (l.filter p).length
      = (l.filter q0).length + (l.filter q1).length + (l.filter q2).length
        + (l.filter q3).length + (l.filter q4).length := by
  induction l with
  | nil => rfl
  | cons t ts ih =>
    have ht := h t (List.mem_cons_self _ _)
    have ih2 := ih (fun x hx => h x (List.mem_cons_of_mem _ hx))
    simp only [List.filter_cons]
    cases hp : p t <;> cases h0 : q0 t <;> cases h1 : q1 t <;> cases h2 : q2 t <;>
      cases h3 : q3 t <;> cases h4 : q4 t <;> simp [hp, h0, h1, h2, h3, h4] at ht ⊢ <;> omega

theorem toNat_and_decide (b : Bool) (P Q : Prop) [Decidable P] [Decidable Q] :
    (b && decide P && decide Q).toNat = if b = true ∧ P ∧ Q then 1 else 0 := by
  cases b <;> by_cases hP : P <;> by_cases hQ : Q <;> simp [hP, hQ]

theorem selected_split_volatility (toIntDate : Time → Int) (tradeType : String) (d : Int)
    (list : List DailyResult) (t : Trade)
    (hd : DirectionStrongBear ≤ d ∧ d ≤ DirectionStrongBull)
    (hvol : ∀ dr ∈ list, VolatilityQuiet ≤ dr.Volatility ∧ dr.Volatility ≤ VolatilityVeryVolatile) :
    (selected toIntDate tradeType d VolatilityAll (buildMarketMap list) t).toNat
      = (selected toIntDate tradeType d 0 (buildMarketMap list) t).toNat
        + (selected toIntDate tradeType d 1 (buildMarketMap list) t).toNat
        + (selected toIntDate tradeType d 2 (buildMarketMap list) t).toNat
        + (selected toIntDate tradeType d 3 (buildMarketMap list) t).toNat := by
  simp only [selected, toNat_and_decide]
  simp only [DirectionStrongBear, DirectionStrongBull, VolatilityQuiet, VolatilityVeryVolatile,
    DirectionAll, VolatilityAll] at *
  by_cases hb : decide (t.TradeType = tradeType ∨ tradeType = TradeTypeAll) = true
  · simp only [hb, true_and]
    rcases mapTrade_cases toIntDate list t with h | ⟨dr, hdr, h⟩
    · rw [h]
      split_ifs <;> omega
    · rw [h]
      have := hvol dr hdr
      simp only [true_or, and_true]
      split_ifs <;> omega
  · simp [hb]

theorem selected_split_direction (toIntDate : Time → Int) (tradeType : String) (v : Int)
    (list : List DailyResult) (t : Trade)
    (hv : VolatilityQuiet ≤ v ∧ v ≤ VolatilityVeryVolatile)
    (hdir : ∀ dr ∈ list, DirectionStrongBear ≤ dr.Direction ∧ dr.Direction ≤ DirectionStrongBull) :
    (selected toIntDate tradeType DirectionAll v (buildMarketMap list) t).toNat
      = (selected toIntDate tradeType (-2) v (buildMarketMap list) t).toNat
        + (selected toIntDate tradeType (-1) v (buildMarketMap list) t).toNat
        + (selected toIntDate tradeType 0 v (buildMarketMap list) t).toNat
        + (selected toIntDate tradeType 1 v (buildMarketMap list) t).toNat
        + (selected toIntDate tradeType 2 v (buildMarketMap list) t).toNat := by
  simp only [selected, toNat_and_decide]
  simp only [DirectionStrongBear, DirectionStrongBull, VolatilityQuiet, VolatilityVeryVolatile,
    DirectionAll, VolatilityAll] at *
  by_cases hb : decide (t.TradeType = tradeType ∨ tradeType = TradeTypeAll) = true
  · simp only [hb, true_and]
    rcases mapTrade_cases toIntDate list t with h | ⟨dr, hdr, h⟩
    · rw [h]
      split_ifs <;> omega
    · rw [h]
      have := hdir dr hdr
      simp only [true_or, true_and]
      have hcases : dr.Direction = -2 ∨ dr.Direction = -1 ∨ dr.Direction = 0 ∨
          dr.Direction = 1 ∨ dr.Direction = 2 := by omega
      by_cases hvv : v = 4 ∨ v = dr.Volatility
      · rcases hcases with e | e | e | e | e <;> rw [e] <;> simp [hvv]
      · simp [hvv]
  · simp [hb]

theorem calcQualityMetrics_Trades_filter (toIntDate : Time → Int) (stats : Stats)
    (trades : List Trade) (tradeType : String) (direction volatility : Int) (risk costPerOper : ℚ)
    (marketMap : GoMap Int DailyResult) :
    (calcQualityMetrics toIntDate stats trades tradeType direction volatility risk costPerOper
      marketMap).Trades
      = (trades.filter (selected toIntDate tradeType direction volatility marketMap)).length := by
  rw [calcQualityMetrics_Trades, collectReturns_eq, List.length_map]

/-- C11: for a concrete direction `d`, the trade count of the All-volatility cell
is the sum of the trade counts of the four cells of `d`, provided every regime
entry has its volatility in `0..3`; for a concrete volatility `v`, the trade
count of the All-direction cell is the sum of the trade counts of the five
cells of `v`, provided every regime entry has its direction in `-2..2`. -/
theorem marginal_cell_counts (toIntDate : Time → Int) (stats : Stats) (trades : List Trade)
    (tradeType : String) (risk costPerOper : ℚ) (list : List DailyResult) :
    (∀ d : Int, DirectionStrongBear ≤ d ∧ d ≤ DirectionStrongBull →
      (∀ dr ∈ list, VolatilityQuiet ≤ dr.Volatility ∧ dr.Volatility ≤ VolatilityVeryVolatile) →
      (calcQualityMetrics toIntDate stats trades tradeType d VolatilityAll risk costPerOper
          (buildMarketMap list)).Trades
        = (calcQualityMetrics toIntDate stats trades tradeType d 0 risk costPerOper
            (buildMarketMap list)).Trades
          + (calcQualityMetrics toIntDate stats trades tradeType d 1 risk costPerOper
            (buildMarketMap list)).Trades
          + (calcQualityMetrics toIntDate stats trades tradeType d 2 risk costPerOper
            (buildMarketMap list)).Trades
          + (calcQualityMetrics toIntDate stats trades tradeType d 3 risk costPerOper
            (buildMarketMap list)).Trades) ∧
    (∀ v : Int, VolatilityQuiet ≤ v ∧ v ≤ VolatilityVeryVolatile →
      (∀ dr ∈ list, DirectionStrongBear ≤ dr.Direction ∧ dr.Direction ≤ DirectionStrongBull) →
      (calcQualityMetrics toIntDate stats trades tradeType DirectionAll v risk costPerOper
          (buildMarketMap list)).Trades
        = (calcQualityMetrics toIntDate stats trades tradeType (-2) v risk costPerOper
            (buildMarketMap list)).Trades
          + (calcQualityMetrics toIntDate stats trades tradeType (-1) v risk costPerOper
            (buildMarketMap list)).Trades
          + (calcQualityMetrics toIntDate stats trades tradeType 0 v risk costPerOper
            (buildMarketMap list)).Trades
          + (calcQualityMetrics toIntDate stats trades tradeType 1 v risk costPerOper
            (buildMarketMap list)).Trades
          + (calcQualityMetrics toIntDate stats trades tradeType 2 v risk costPerOper
            (buildMarketMap list)).Trades) := by
  constructor
  · intro d hd hvol
    simp only [calcQualityMetrics_Trades_filter]
    exact length_filter_split4 _ _ _ _ _ _
      (fun t _ => selected_split_volatility toIntDate tradeType d list t hd hvol)
  · intro v hv hdir
    simp only [calcQualityMetrics_Trades_filter]
    exact length_filter_split5 _ _ _ _ _ _ _
      (fun t _ => selected_split_direction toIntDate tradeType v list t hv hdir)

theorem sampleRegime_in_range :
    ∀ dr ∈ [sampleRegime],
      (VolatilityQuiet ≤ dr.Volatility ∧ dr.Volatility ≤ VolatilityVeryVolatile) ∧
      (DirectionStrongBear ≤ dr.Direction ∧ dr.Direction ≤ DirectionStrongBull) := by
  intro dr hdr
  rw [List.mem_singleton.mp hdr]
  decide

/-- C11 on a classified and an unclassified trade with the regime entry
`sampleRegime` (direction 1, volatility 2): the All-volatility cell of
direction 1 and the All-direction cell of volatility 2. -/
theorem marginal_cell_counts_witness :
    (∀ stats : Stats,
      (calcQualityMetrics intDateOf stats [longTrade (-5), unclassifiedTrade 10] TradeTypeAll 1
          VolatilityAll 5 0 (buildMarketMap [sampleRegime])).Trades
        = (calcQualityMetrics intDateOf stats [longTrade (-5), unclassifiedTrade 10] TradeTypeAll
            1 0 5 0 (buildMarketMap [sampleRegime])).Trades
          + (calcQualityMetrics intDateOf stats [longTrade (-5), unclassifiedTrade 10] TradeTypeAll
            1 1 5 0 (buildMarketMap [sampleRegime])).Trades
          + (calcQualityMetrics intDateOf stats [longTrade (-5), unclassifiedTrade 10] TradeTypeAll
            1 2 5 0 (buildMarketMap [sampleRegime])).Trades
          + (calcQualityMetrics intDateOf stats [longTrade (-5), unclassifiedTrade 10] TradeTypeAll
            1 3 5 0 (buildMarketMap [sampleRegime])).Trades) ∧
    ∀ stats : Stats,
      (calcQualityMetrics intDateOf stats [longTrade (-5), unclassifiedTrade 10] TradeTypeAll
          DirectionAll 2 5 0 (buildMarketMap [sampleRegime])).Trades
        = (calcQualityMetrics intDateOf stats [longTrade (-5), unclassifiedTrade 10] TradeTypeAll
            (-2) 2 5 0 (buildMarketMap [sampleRegime])).Trades
          + (calcQualityMetrics intDateOf stats [longTrade (-5), unclassifiedTrade 10] TradeTypeAll
            (-1) 2 5 0 (buildMarketMap [sampleRegime])).Trades
          + (calcQualityMetrics intDateOf stats [longTrade (-5), unclassifiedTrade 10] TradeTypeAll
            0 2 5 0 (buildMarketMap [sampleRegime])).Trades
          + (calcQualityMetrics intDateOf stats [longTrade (-5), unclassifiedTrade 10] TradeTypeAll
            1 2 5 0 (buildMarketMap [sampleRegime])).Trades
          + (calcQualityMetrics intDateOf stats [longTrade (-5), unclassifiedTrade 10] TradeTypeAll
            2 2 5 0 (buildMarketMap [sampleRegime])).Trades :=
  ⟨fun stats => (marginal_cell_counts intDateOf stats [longTrade (-5), unclassifiedTrade 10]
      TradeTypeAll 5 0 [sampleRegime]).1 1 (by decide)
      (fun dr hdr => (sampleRegime_in_range dr hdr).1),
   fun stats => (marginal_cell_counts intDateOf stats [longTrade (-5), unclassifiedTrade 10]
      TradeTypeAll 5 0 [sampleRegime]).2 2 (by decide)
      (fun dr hdr => (sampleRegime_in_range dr hdr).2)⟩

/-! ## Quality metrics: SQN capped at 100 samples -/

theorem sqrtDown_eq (x : ℚ) (n a : ℕ) (hfloor : ⌊x * 100000000⌋ = (n : ℤ))
    (ha : a * a ≤ n ∧ n < (a + 1) * (a + 1)) : sqrtDown x = (a : ℚ) / 10000 := by
  unfold sqrtDown
  rw [hfloor, Int.toNat_ofNat, ← Nat.eq_sqrt.mpr ha]

theorem Trunc2d_eq (x : ℚ) (k : ℤ) (h : (k : ℚ) ≤ x * 100 ∧ x * 100 < (k : ℚ) + 1) :
    Trunc2d x = (k : ℚ) / 100 := by
  unfold Trunc2d
  rw [Int.floor_eq_iff.mpr h]

theorem sum_map_hundredReturns (f : ℚ → ℚ) :
    (hundredReturns.map f).sum = 50 * f 1 + 50 * f 3 := by
  rw [hundredReturns, List.map_append, List.map_replicate, List.map_replicate, List.sum_append,
    List.sum_replicate, List.sum_replicate, nsmul_eq_mul, nsmul_eq_mul]
  norm_num

theorem sum_hundredReturns : hundredReturns.sum = 200 := by
  have h := sum_map_hundredReturns id
  simp only [List.map_id, id] at h
  rw [h]; norm_num

theorem length_hundredReturns : hundredReturns.length = 100 := by
  rw [hundredReturns, List.length_append, List.length_replicate, List.length_replicate]

theorem take_hundredReturns (y : ℚ) : (hundredReturns ++ [y]).take 100 = hundredReturns := by
  rw [← length_hundredReturns, List.take_left]

theorem sqrtDown_hundred : sqrtDown 100 = 10 := by
  rw [sqrtDown_eq 100 10000000000 100000 (by rw [Int.floor_eq_iff]; constructor <;> norm_num)
    (by constructor <;> norm_num)]
  norm_num

theorem meanAndStdDevDown_hundredReturns :
    meanAndStdDevDown hundredReturns = (2, 201 / 200) := by
  unfold meanAndStdDevDown
  simp only [sum_hundredReturns, length_hundredReturns, sum_map_hundredReturns]
  rw [sqrtDown_eq _ 101010101 10050 (by rw [Int.floor_eq_iff]; constructor <;> norm_num)
    (by constructor <;> norm_num)]
  norm_num

theorem meanAndStdDevDown_outlier :
    meanAndStdDevDown (hundredReturns ++ [1000]) = (1200 / 101, 993097 / 10000) := by
  unfold meanAndStdDevDown
  simp only [List.sum_append, List.map_append, List.length_append, sum_hundredReturns,
    length_hundredReturns, sum_map_hundredReturns, List.sum_cons, List.sum_nil, List.map_cons,
    List.map_nil, List.length_cons, List.length_nil]
  rw [sqrtDown_eq _ 986242574257 993097 (by rw [Int.floor_eq_iff]; constructor <;> norm_num)
    (by constructor <;> norm_num)]
  norm_num

theorem calcMetrics_Sqn (stats : Stats) (list : List ℚ) (cell : Metrics) :
    (0 < (stats.meanAndStdDev list).2 →
      (calcMetrics stats list cell).Sqn
        = Trunc2d ((stats.meanAndStdDev list).1 / (stats.meanAndStdDev list).2
            * stats.sqrt (list.length : ℚ)) ∧
      (calcMetrics stats list cell).Sqn100
        = Trunc2d ((stats.meanAndStdDev list).1 / (stats.meanAndStdDev list).2
            * stats.sqrt (min (list.length : ℚ) 100))) ∧
    (¬ 0 < (stats.meanAndStdDev list).2 →
      (calcMetrics stats list cell).Sqn = cell.Sqn ∧
      (calcMetrics stats list cell).Sqn100 = cell.Sqn100) := by
  unfold calcMetrics
  constructor
  · intro h
    have h2 : (stats.meanAndStdDev list).2 > 0 := h
    simp [h2]
  · intro h
    have h2 : ¬ (stats.meanAndStdDev list).2 > 0 := h
    simp [h2]

/-- C12, as stated, fails: for the 101 R-multiples made of fifty `1`, fifty `3`
and one `1000`, the SQN over the first 100 values alone is `19.90`, while
`calcMetrics` reports `Sqn100 = 1.19`: it takes the mean and the standard
deviation over all 101 values and caps only the factor `sqrt n`. -/
theorem Sqn100_first_hundred_counterexample :
    (hundredReturns ++ [1000]).length = 101 ∧
    (hundredReturns ++ [1000]).take 100 = hundredReturns ∧
    sqnOver sampleStats ((hundredReturns ++ [1000]).take 100) = 199 / 10 ∧
    (calcMetrics sampleStats (hundredReturns ++ [1000]) (emptyCell 101)).Sqn100 = 119 / 100 := by
  refine ⟨by simp [length_hundredReturns], take_hundredReturns 1000, ?_, ?_⟩
  · rw [take_hundredReturns]
    unfold sqnOver
    simp only [sampleStats, meanAndStdDevDown_hundredReturns, length_hundredReturns]
    rw [show ((100 : ℕ) : ℚ) = 100 by norm_num, sqrtDown_hundred]
    rw [Trunc2d_eq _ 1990 (by constructor <;> norm_num)]
    norm_num
  · have hpos : 0 < (sampleStats.meanAndStdDev (hundredReturns ++ [1000])).2 := by
      simp only [sampleStats, meanAndStdDevDown_outlier]
      norm_num
    rw [((calcMetrics_Sqn sampleStats (hundredReturns ++ [1000]) (emptyCell 101)).1 hpos).2]
    simp only [sampleStats, meanAndStdDevDown_outlier, List.length_append, length_hundredReturns,
      List.length_cons, List.length_nil]
    rw [show min (((100 + (0 + 1) : ℕ)) : ℚ) 100 = 100 by norm_num, sqrtDown_hundred]
    rw [Trunc2d_eq _ 119 (by constructor <;> norm_num)]
    norm_num

/-- C12 amended: in a non-empty quality cell whose standard deviation is
positive, `Sqn` is `Trunc2d (mean / stddev × sqrt n)` and `Sqn100` is
`Trunc2d (mean / stddev × sqrt (min n 100))`, the mean and the standard
deviation being those of all `n` R-multiples of the cell; when the standard
deviation is not positive both are `0`; and `Sqn100 = Sqn` whenever the cell
has at most 100 trades. -/
theorem Sqn100_caps_sample_size (toIntDate : Time → Int) (stats : Stats) (trades : List Trade)
    (tradeType : String) (direction volatility : Int) (risk costPerOper : ℚ)
    (marketMap : GoMap Int DailyResult) (list : List ℚ)
    (hlist : collectReturns toIntDate trades tradeType direction volatility risk costPerOper
      marketMap = list)
    (hne : list ≠ []) :
    (0 < (stats.meanAndStdDev list).2 →
      (calcQualityMetrics toIntDate stats trades tradeType direction volatility risk costPerOper
          marketMap).Sqn
        = Trunc2d ((stats.meanAndStdDev list).1 / (stats.meanAndStdDev list).2
            * stats.sqrt (list.length : ℚ)) ∧
      (calcQualityMetrics toIntDate stats trades tradeType direction volatility risk costPerOper
          marketMap).Sqn100
        = Trunc2d ((stats.meanAndStdDev list).1 / (stats.meanAndStdDev list).2
            * stats.sqrt (min (list.length : ℚ) 100))) ∧
    (¬ 0 < (stats.meanAndStdDev list).2 →
      (calcQualityMetrics toIntDate stats trades tradeType direction volatility risk costPerOper
          marketMap).Sqn = 0 ∧
      (calcQualityMetrics toIntDate stats trades tradeType direction volatility risk costPerOper
          marketMap).Sqn100 = 0) ∧
    (list.length ≤ 100 →
      (calcQualityMetrics toIntDate stats trades tradeType direction volatility risk costPerOper
          marketMap).Sqn100
        = (calcQualityMetrics toIntDate stats trades tradeType direction volatility risk
            costPerOper marketMap).Sqn) := by
  have hpos : list.length > 0 := List.length_pos.mpr hne
  have hcell : calcQualityMetrics toIntDate stats trades tradeType direction volatility risk
      costPerOper marketMap
      = calcMetrics stats list
          { Trades := list.length
            TradesPerc := Trunc2d (100 * (list.length : ℚ) / (trades.length : ℚ))
            Sqn := 0, Sqn100 := 0, MaxDrawdown := 0 } := by
    unfold calcQualityMetrics
    simp only [hlist, hpos, if_true]
  rw [hcell]
  obtain ⟨h1, h2⟩ := calcMetrics_Sqn stats list
    { Trades := list.length
      TradesPerc := Trunc2d (100 * (list.length : ℚ) / (trades.length : ℚ))
      Sqn := 0, Sqn100 := 0, MaxDrawdown := 0 }
  refine ⟨h1, h2, ?_⟩
  intro hle
  by_cases hs : 0 < (stats.meanAndStdDev list).2
  · rw [(h1 hs).1, (h1 hs).2]
    have hmin : min (list.length : ℚ) 100 = (list.length : ℚ) := by
      apply min_eq_left
      exact_mod_cast hle
    rw [hmin]
  · rw [(h2 hs).1, (h2 hs).2]

theorem collectReturns_pair_overall :
    collectReturns intDateOf [longTrade (-5), unclassifiedTrade 10] TradeTypeAll DirectionAll
      VolatilityAll 5 0 (buildMarketMap [sampleRegime]) = [-1, 2] := by
  rw [collectReturns_eq]
  simp [selected, longTrade, unclassifiedTrade]
  norm_num

/-- C12 amended, on the fully aggregated cell of a list of two trades, whose
R-multiples are `[-1, 2]`: with at most 100 trades `Sqn100` is `Sqn`. -/
theorem Sqn100_caps_sample_size_witness :
    collectReturns intDateOf [longTrade (-5), unclassifiedTrade 10] TradeTypeAll DirectionAll
      VolatilityAll 5 0 (buildMarketMap [sampleRegime]) = [-1, 2] ∧
    (calcQualityMetrics intDateOf sampleStats [longTrade (-5), unclassifiedTrade 10] TradeTypeAll
        DirectionAll VolatilityAll 5 0 (buildMarketMap [sampleRegime])).Sqn100
      = (calcQualityMetrics intDateOf sampleStats [longTrade (-5), unclassifiedTrade 10]
          TradeTypeAll DirectionAll VolatilityAll 5 0 (buildMarketMap [sampleRegime])).Sqn :=
  ⟨collectReturns_pair_overall,
   (Sqn100_caps_sample_size intDateOf sampleStats [longTrade (-5), unclassifiedTrade 10]
      TradeTypeAll DirectionAll VolatilityAll 5 0 (buildMarketMap [sampleRegime]) [-1, 2]
      collectReturns_pair_overall (by simp)).2.2 (by simp)⟩

/-! ## Job table: Go map deletion -/

theorem GoMap.get_eq_none_iff {K V : Type} [DecidableEq K] (m : GoMap K V) (k : K) :
    m.get k = none ↔ ∀ e ∈ m, e.1 ≠ k := by
  induction m with
  | nil => simp [GoMap.get]
  | cons x m ih =>
    by_cases hx : x.1 = k
    · simp [GoMap.get, hx]
    · have ih2 := ih
      simp only [GoMap.get] at ih2 ⊢
      simp only [List.find?_cons, hx, decide_False, List.mem_cons, forall_eq_or_imp, ne_eq,
        not_false_eq_true, true_and]
      exact ih2

theorem GoMap.mem_delete {K V : Type} [DecidableEq K] (m : GoMap K V) (k : K) (e : K × V) :
    e ∈ GoMap.delete m k ↔ e ∈ m ∧ e.1 ≠ k := by
  simp [GoMap.delete]

theorem GoMap.get_delete_self {K V : Type} [DecidableEq K] (m : GoMap K V) (k : K) :
    (GoMap.delete m k).get k = none := by
  rw [GoMap.get_eq_none_iff]
  intro e he
  exact ((GoMap.mem_delete m k e).mp he).2

theorem GoMap.get_delete_ne {K V : Type} [DecidableEq K] (m : GoMap K V) (k k2 : K)
    (h : k2 ≠ k) : (GoMap.delete m k).get k2 = m.get k2 := by
  induction m with
  | nil => rfl
  | cons x m ih =>
    by_cases hx : x.1 = k
    · have hx2 : ¬ x.1 = k2 := fun e => h (e.symm.trans hx)
      have hd : GoMap.delete (x :: m) k = GoMap.delete m k := by
        simp [GoMap.delete, hx]
      rw [hd, ih]
      simp [GoMap.get, hx2]
    · have hd : GoMap.delete (x :: m) k = x :: GoMap.delete m k := by
        simp [GoMap.delete, hx]
      rw [hd]
      by_cases hx2 : x.1 = k2
      · simp [GoMap.get, hx2]
      · have ih2 := ih
        simp only [GoMap.get] at ih2 ⊢
        simp only [List.find?_cons, hx2, decide_False]
        exact ih2

theorem GoMap.delete_of_get_none {K V : Type} [DecidableEq K] (m : GoMap K V) (k : K)
    (h : m.get k = none) : GoMap.delete m k = m := by
  rw [GoMap.get_eq_none_iff] at h
  rw [GoMap.delete, List.filter_eq_self]
  intro e he
  simp [h e he]

theorem GoMap.set_of_get_none {K V : Type} [DecidableEq K] (m : GoMap K V) (k : K) (v : V)
    (h : m.get k = none) : GoMap.set m k v = m ++ [(k, v)] := by
  rw [GoMap.get_eq_none_iff] at h
  induction m with
  | nil => rfl
  | cons x m ih =>
    have hx : ¬ x.1 = k := h x (List.mem_cons_self _ _)
    simp only [GoMap.set, hx, if_false, List.cons_append]
    rw [ih (fun e he => h e (List.mem_cons_of_mem _ he))]

/-- After `delete(m, k)` and `m[k] = v` the map has exactly one entry of key `k`. -/
theorem GoMap.count_set_delete {K V : Type} [DecidableEq K] (m : GoMap K V) (k : K) (v : V) :
    ((GoMap.set (GoMap.delete m k) k v).filter (fun e => decide (e.1 = k))).length = 1 := by
  rw [GoMap.set_of_get_none _ _ _ (GoMap.get_delete_self m k), List.filter_append]
  have h0 : (GoMap.delete m k).filter (fun e => decide (e.1 = k)) = [] := by
    rw [List.filter_eq_nil_iff]
    intro e he
    simpa using ((GoMap.mem_delete m k e).mp he).2
  rw [h0]
  simp

/-! ## Job table: the heap of processes -/

theorem length_stopAt (heap : List Simulation.Process) (a : Nat) :
    (Simulation.stopAt heap a).length = heap.length := by
  unfold Simulation.stopAt
  cases heap[a]? <;> simp

theorem getElem?_stopAt_self (heap : List Simulation.Process) (a : Nat) (p : Simulation.Process)
    (h : heap[a]? = some p) : (Simulation.stopAt heap a)[a]? = some p.Stop := by
  unfold Simulation.stopAt
  have hlt : a < heap.length := by
    by_contra hc
    rw [List.getElem?_eq_none (not_lt.mp hc)] at h
    cases h
  rw [h]
  simp [hlt]

theorem getElem?_stopAt_ne (heap : List Simulation.Process) (a b : Nat) (h : b ≠ a) :
    (Simulation.stopAt heap a)[b]? = heap[b]? := by
  unfold Simulation.stopAt
  cases heap[a]? with
  | none => rfl
  | some p => simp [List.getElem?_set, Ne.symm h]

/-! ## Job table: `Start`, `Stop`, `GetResult` -/

theorem Stop_state (tsId : Nat) (s : Simulation.State) :
    (Simulation.Stop tsId s).2.m = GoMap.delete s.m tsId ∧
    (Simulation.Stop tsId s).2.queue = s.queue ∧
    (Simulation.Stop tsId s).2.heap.length = s.heap.length ∧
    (∀ a, s.m.get tsId = some a → (Simulation.Stop tsId s).2.heap = Simulation.stopAt s.heap a) ∧
    (s.m.get tsId = none → Simulation.Stop tsId s = (false, s)) := by
  unfold Simulation.Stop
  cases hg : s.m.get tsId with
  | none =>
    refine ⟨(GoMap.delete_of_get_none _ _ hg).symm, rfl, rfl, ?_, fun _ => rfl⟩
    intro a ha
    cases ha
  | some a =>
    refine ⟨rfl, rfl, length_stopAt _ _, ?_, ?_⟩
    · intro b hb
      cases hb
      rfl
    · intro h
      cases h

theorem Start_eq (req : Simulation.Request) (ts : TradingSystem) (trades : List Trade) (risk : ℚ)
    (s : Simulation.State) :
    Simulation.Start req ts trades risk s
      = { heap := (Simulation.Stop ts.Id s).2.heap ++ [Simulation.NewProcess ts trades req risk]
          queue := (Simulation.Stop ts.Id s).2.queue ++ [(Simulation.Stop ts.Id s).2.heap.length]
          m := GoMap.set (Simulation.Stop ts.Id s).2.m ts.Id
            (Simulation.Stop ts.Id s).2.heap.length } := by
  unfold Simulation.Start Simulation.Stop Simulation.submit
  cases s.m.get ts.Id <;> rfl

/-- The state after `Start`: the new process is allocated at the first free
address, the table maps the id to it and to nothing else, and the job is
queued. -/
theorem Start_entry (req : Simulation.Request) (ts : TradingSystem) (trades : List Trade)
    (risk : ℚ) (s : Simulation.State) :
    (Simulation.Start req ts trades risk s).m.get ts.Id = some s.heap.length ∧
    (Simulation.Start req ts trades risk s).heap[s.heap.length]?
      = some (Simulation.NewProcess ts trades req risk) ∧
    (Simulation.Start req ts trades risk s).heap.length = s.heap.length + 1 ∧
    ((Simulation.Start req ts trades risk s).m.filter (fun e => decide (e.1 = ts.Id))).length = 1 ∧
    (Simulation.Start req ts trades risk s).queue = s.queue ++ [s.heap.length] := by
  obtain ⟨hm, hq, hlen, _, _⟩ := Stop_state ts.Id s
  rw [Start_eq]
  simp only [hm, hq, hlen]
  refine ⟨?_, ?_, ?_, GoMap.count_set_delete _ _ _, trivial⟩
  · rw [GoMap.get_set]; simp
  · rw [← hlen, List.getElem?_append_right (le_refl _)]; simp
  · simp [hlen]

theorem Start_heap_old (req : Simulation.Request) (ts : TradingSystem) (trades : List Trade)
    (risk : ℚ) (s : Simulation.State) (a : Nat) (p : Simulation.Process)
    (ha : s.m.get ts.Id = some a) (hp : s.heap[a]? = some p) :
    (Simulation.Start req ts trades risk s).heap[a]? = some p.Stop := by
  obtain ⟨_, _, _, hheap, _⟩ := Stop_state ts.Id s
  rw [Start_eq, hheap a ha]
  have hlt : a < (Simulation.stopAt s.heap a).length := by
    rw [length_stopAt]
    by_contra hc
    rw [List.getElem?_eq_none (not_lt.mp hc)] at hp
    cases hp
  rw [List.getElem?_append_left hlt]
  exact getElem?_stopAt_self _ _ _ hp

theorem GetResult_of_entry (tsId : Nat) (s : Simulation.State) (a : Nat) (p : Simulation.Process)
    (ha : s.m.get tsId = some a) (hp : s.heap[a]? = some p) :
    Simulation.GetResult tsId s = (p.result, s) := by
  unfold Simulation.GetResult
  simp only [ha, hp]
  rfl

/-- C16: `StartSimulation` returns an error and leaves the state of package
`simulation` unchanged whenever the loaded trade list is empty or has no losing
trade; and whenever it does not return an error with the state unchanged,
it has called `Start` with a non-empty trade list and the risk unit of a
successful `CalcRisk`. -/
theorem StartSimulation_validation (getTs : Except String TradingSystem)
    (findTrades : TradingSystem → Simulation.Request → Except String (List Trade))
    (range : GoMap ℚ Nat → List (ℚ × Nat)) (hr : IsMapRange range) (rq : Simulation.Request)
    (s : Simulation.State) :
    (∀ ts trades, getTs = .ok ts → findTrades ts rq = .ok trades →
      (trades = [] ∨ ∀ t ∈ trades, ¬ t.GrossProfit < 0) →
      ∃ msg, Simulation.StartSimulation getTs findTrades range rq s = (.error msg, s)) ∧
    ((∃ msg, Simulation.StartSimulation getTs findTrades range rq s = (.error msg, s)) ∨
      ∃ ts trades risk, getTs = .ok ts ∧ findTrades ts rq = .ok trades ∧ trades ≠ [] ∧
        CalcRisk range trades = .ok risk ∧
        Simulation.StartSimulation getTs findTrades range rq s
          = (.ok (), Simulation.Start rq ts trades risk s)) := by
  constructor
  · intro ts trades hts htr hbad
    unfold Simulation.StartSimulation
    simp only [hts, htr]
    by_cases hlen : trades.length = 0
    · exact ⟨_, by rw [if_pos hlen]⟩
    · rw [if_neg hlen]
      have hno : ∀ t ∈ trades, ¬ t.GrossProfit < 0 := by
        rcases hbad with h | h
        · exact absurd (by rw [h]; rfl) hlen
        · exact h
      rw [CalcRisk_no_loss range hr trades hno]
      exact ⟨_, rfl⟩
  · cases hts : getTs with
    | error err => left; exact ⟨err, by simp only [Simulation.StartSimulation]⟩
    | ok ts =>
      cases htr : findTrades ts rq with
      | error err => left; exact ⟨err, by simp only [Simulation.StartSimulation, htr]⟩
      | ok trades =>
        by_cases hlen : trades.length = 0
        · left
          exact ⟨"no trades found for given time",
            by simp only [Simulation.StartSimulation, htr, hlen, if_true]⟩
        · cases hrisk : CalcRisk range trades with
          | error err =>
            left
            exact ⟨err, by simp only [Simulation.StartSimulation, htr, hlen, if_false, hrisk]⟩
          | ok risk =>
            right
            refine ⟨ts, trades, risk, rfl, htr, ?_, hrisk,
              by simp only [Simulation.StartSimulation, htr, hlen, if_false, hrisk]⟩
            intro hnil
            exact hlen (by rw [hnil]; rfl)

/-- C16 on a trade list without losing trade: the request is rejected and the
state is unchanged. -/
theorem StartSimulation_validation_witness :
    ∃ msg, Simulation.StartSimulation (.ok sampleSystem) (fun _ _ => .ok [longTrade 4])
      insertionOrder sampleRequest emptyState = (.error msg, emptyState) :=
  (StartSimulation_validation (.ok sampleSystem) (fun _ _ => .ok [longTrade 4]) insertionOrder
    isMapRange_insertionOrder sampleRequest emptyState).1 sampleSystem [longTrade 4] rfl rfl
    (Or.inr (fun t ht => by
      rw [List.mem_singleton.mp ht]
      simp [longTrade]))

/-- C17: after two calls of `Start` for the same id the table has exactly one
entry for that id, the entry is the job of the second call, and the job of the
first call has its stop flag set. -/
theorem Start_twice (req1 req2 : Simulation.Request) (ts1 ts2 : TradingSystem)
    (trades1 trades2 : List Trade) (risk1 risk2 : ℚ) (s : Simulation.State)
    (hid : ts2.Id = ts1.Id) :
    ∃ a1 a2,
      (Simulation.Start req1 ts1 trades1 risk1 s).m.get ts1.Id = some a1 ∧
      (Simulation.Start req1 ts1 trades1 risk1 s).heap[a1]?
        = some (Simulation.NewProcess ts1 trades1 req1 risk1) ∧
      a2 ≠ a1 ∧
      (Simulation.Start req2 ts2 trades2 risk2 (Simulation.Start req1 ts1 trades1 risk1 s)).m.get
        ts1.Id = some a2 ∧
      ((Simulation.Start req2 ts2 trades2 risk2
        (Simulation.Start req1 ts1 trades1 risk1 s)).m.filter
          (fun e => decide (e.1 = ts1.Id))).length = 1 ∧
      (Simulation.Start req2 ts2 trades2 risk2
        (Simulation.Start req1 ts1 trades1 risk1 s)).heap[a2]?
        = some (Simulation.NewProcess ts2 trades2 req2 risk2) ∧
      (Simulation.Start req2 ts2 trades2 risk2
        (Simulation.Start req1 ts1 trades1 risk1 s)).heap[a1]?
        = some { Simulation.NewProcess ts1 trades1 req1 risk1 with stopping := true } := by
  obtain ⟨h1m, h1h, h1len, _, _⟩ := Start_entry req1 ts1 trades1 risk1 s
  obtain ⟨h2m, h2h, _, h2c, _⟩ :=
    Start_entry req2 ts2 trades2 risk2 (Simulation.Start req1 ts1 trades1 risk1 s)
  rw [hid] at h2m h2c
  refine ⟨s.heap.length, (Simulation.Start req1 ts1 trades1 risk1 s).heap.length, h1m, h1h, ?_,
    h2m, h2c, h2h, ?_⟩
  · rw [h1len]; omega
  · exact Start_heap_old req2 ts2 trades2 risk2 _ _ _ (by rw [hid]; exact h1m) h1h

/-- C17 from the empty table, with two requests for the trading system `7`. -/
theorem Start_twice_witness :
    ∃ a1 a2,
      (Simulation.Start sampleRequest sampleSystem [longTrade (-5)] 5 emptyState).m.get
        sampleSystem.Id = some a1 ∧
      (Simulation.Start sampleRequest sampleSystem [longTrade (-5)] 5 emptyState).heap[a1]?
        = some (Simulation.NewProcess sampleSystem [longTrade (-5)] sampleRequest 5) ∧
      a2 ≠ a1 ∧
      (Simulation.Start sampleRequest sampleSystem [longTrade (-3)] 3
        (Simulation.Start sampleRequest sampleSystem [longTrade (-5)] 5 emptyState)).m.get
        sampleSystem.Id = some a2 ∧
      ((Simulation.Start sampleRequest sampleSystem [longTrade (-3)] 3
        (Simulation.Start sampleRequest sampleSystem [longTrade (-5)] 5 emptyState)).m.filter
          (fun e => decide (e.1 = sampleSystem.Id))).length = 1 ∧
      (Simulation.Start sampleRequest sampleSystem [longTrade (-3)] 3
        (Simulation.Start sampleRequest sampleSystem [longTrade (-5)] 5 emptyState)).heap[a2]?
        = some (Simulation.NewProcess sampleSystem [longTrade (-3)] sampleRequest 3) ∧
      (Simulation.Start sampleRequest sampleSystem [longTrade (-3)] 3
        (Simulation.Start sampleRequest sampleSystem [longTrade (-5)] 5 emptyState)).heap[a1]?
        = some { Simulation.NewProcess sampleSystem [longTrade (-5)] sampleRequest 5 with
            stopping := true } :=
  Start_twice sampleRequest sampleRequest sampleSystem sampleSystem [longTrade (-5)]
    [longTrade (-3)] 5 3 emptyState rfl

theorem GetResult_of_none (tsId : Nat) (s : Simulation.State) (h : s.m.get tsId = none) :
    Simulation.GetResult tsId s
      = ({ Simulation.zeroResult with Status := Simulation.SimStatusIdle }, s) := by
  unfold Simulation.GetResult
  simp only [h]

/-- C18: `Stop` returns `true` exactly when the table has an entry for the id;
afterwards the table has no entry for the id, the removed job has its stop flag
set, the entries of the other ids and the other processes are unchanged; on an
id without entry the call returns `false` and the state is unchanged. -/
theorem Stop_removes_entry (tsId : Nat) (s : Simulation.State) :
    ((Simulation.Stop tsId s).1 = true ↔ ∃ a, s.m.get tsId = some a) ∧
    (Simulation.Stop tsId s).2.m.get tsId = none ∧
    (∀ e ∈ (Simulation.Stop tsId s).2.m, e.1 ≠ tsId) ∧
    (∀ a p, s.m.get tsId = some a → s.heap[a]? = some p →
      (Simulation.Stop tsId s).2.heap[a]? = some { p with stopping := true }) ∧
    (∀ e : Nat × Nat, e.1 ≠ tsId → (e ∈ (Simulation.Stop tsId s).2.m ↔ e ∈ s.m)) ∧
    (∀ k, k ≠ tsId → (Simulation.Stop tsId s).2.m.get k = s.m.get k) ∧
    (∀ a b, s.m.get tsId = some a → b ≠ a → (Simulation.Stop tsId s).2.heap[b]? = s.heap[b]?) ∧
    (s.m.get tsId = none → Simulation.Stop tsId s = (false, s)) := by
  obtain ⟨hm, _, _, hheap, hnone⟩ := Stop_state tsId s
  refine ⟨?_, ?_, ?_, ?_, ?_, ?_, ?_, hnone⟩
  · unfold Simulation.Stop
    cases s.m.get tsId <;> simp
  · rw [hm]; exact GoMap.get_delete_self _ _
  · rw [hm]; intro e he; exact ((GoMap.mem_delete _ _ _).mp he).2
  · intro a p ha hp
    rw [hheap a ha]
    exact getElem?_stopAt_self _ _ _ hp
  · intro e he
    rw [hm, GoMap.mem_delete]
    exact ⟨fun h => h.1, fun h => ⟨h, he⟩⟩
  · intro k hk
    rw [hm]; exact GoMap.get_delete_ne _ _ _ hk
  · intro a b ha hb
    rw [hheap a ha]
    exact getElem?_stopAt_ne _ _ _ hb

/-- C18 after one `Start` for the trading system `7`: `Stop 7` returns `true`,
removes the entry and sets the stop flag of the job. -/
theorem Stop_removes_entry_witness :
    (Simulation.Stop 7 (Simulation.Start sampleRequest sampleSystem [longTrade (-5)] 5
      emptyState)).1 = true ∧
    (Simulation.Stop 7 (Simulation.Start sampleRequest sampleSystem [longTrade (-5)] 5
      emptyState)).2.m.get 7 = none ∧
    (Simulation.Stop 7 (Simulation.Start sampleRequest sampleSystem [longTrade (-5)] 5
      emptyState)).2.heap[0]?
      = some { Simulation.NewProcess sampleSystem [longTrade (-5)] sampleRequest 5 with
          stopping := true } ∧
    Simulation.Stop 8 emptyState = (false, emptyState) :=
  ⟨(Stop_removes_entry 7 _).1.mpr ⟨0, rfl⟩,
   (Stop_removes_entry 7 _).2.1,
   (Stop_removes_entry 7 (Simulation.Start sampleRequest sampleSystem [longTrade (-5)] 5
      emptyState)).2.2.2.1 0 _ rfl rfl,
   (Stop_removes_entry 8 emptyState).2.2.2.2.2.2.2 rfl⟩

/-- C19: for an id without table entry `GetResult` returns a result of status
`idle`, step `0` and no `Details`; for an id with an entry it returns the
current result of that job; in both cases the state is unchanged. -/
theorem GetResult_idle_or_current (tsId : Nat) (s : Simulation.State) :
    (s.m.get tsId = none →
      (Simulation.GetResult tsId s).1.Status = Simulation.SimStatusIdle ∧
      (Simulation.GetResult tsId s).1.Step = 0 ∧
      (Simulation.GetResult tsId s).1.noDetails) ∧
    (∀ a p, s.m.get tsId = some a → s.heap[a]? = some p →
      (Simulation.GetResult tsId s).1 = p.result) ∧
    (Simulation.GetResult tsId s).2 = s := by
  refine ⟨?_, ?_, ?_⟩
  · intro h
    rw [GetResult_of_none tsId s h]
    exact ⟨rfl, rfl, rfl, rfl, rfl, rfl, rfl, rfl⟩
  · intro a p ha hp
    rw [GetResult_of_entry tsId s a p ha hp]
  · unfold Simulation.GetResult
    split
    · rfl
    · split <;> rfl

/-- C19 on the empty table and on the table after one `Start`. -/
theorem GetResult_idle_or_current_witness :
    ((Simulation.GetResult 7 emptyState).1.Status = Simulation.SimStatusIdle ∧
      (Simulation.GetResult 7 emptyState).1.Step = 0 ∧
      (Simulation.GetResult 7 emptyState).1.noDetails) ∧
    (Simulation.GetResult 7 (Simulation.Start sampleRequest sampleSystem [longTrade (-5)] 5
      emptyState)).1
      = (Simulation.NewProcess sampleSystem [longTrade (-5)] sampleRequest 5).result :=
  ⟨(GetResult_idle_or_current 7 emptyState).1 rfl,
   (GetResult_idle_or_current 7 (Simulation.Start sampleRequest sampleSystem [longTrade (-5)] 5
      emptyState)).2.1 0 _ rfl rfl⟩

/-- C20: right after `Start` the table entry of the id is a newly allocated job,
submitted to the worker pool, whose result has status `waiting`, step `0` and
no `Details` and whose stop flag is unset; `GetResult` returns status
`waiting`. -/
theorem Start_creates_waiting_job (req : Simulation.Request) (ts : TradingSystem)
    (trades : List Trade) (risk : ℚ) (s : Simulation.State) :
    ∃ a p,
      s.heap[a]? = none ∧
      (Simulation.Start req ts trades risk s).m.get ts.Id = some a ∧
      (Simulation.Start req ts trades risk s).heap[a]? = some p ∧
      a ∈ (Simulation.Start req ts trades risk s).queue ∧
      p = Simulation.NewProcess ts trades req risk ∧
      p.result.Status = Simulation.SimStatusWaiting ∧
      p.result.Step = 0 ∧
      p.result.noDetails ∧
      p.stopping = false ∧
      (Simulation.GetResult ts.Id (Simulation.Start req ts trades risk s)).1.Status
        = Simulation.SimStatusWaiting := by
  obtain ⟨hm, hh, _, _, hq⟩ := Start_entry req ts trades risk s
  refine ⟨s.heap.length, Simulation.NewProcess ts trades req risk,
    List.getElem?_eq_none (le_refl _), hm, hh, by rw [hq]; simp, rfl, rfl, rfl,
    ⟨rfl, rfl, rfl, rfl, rfl, rfl⟩, rfl, ?_⟩
  rw [GetResult_of_entry _ _ _ _ hm hh]
  rfl

theorem partitionGross_sample :
    partitionGross [longTrade 10, shortTrade (-3), longTrade 5] TradeTypeAll = [10, -3, 5] ∧
    partitionCount [longTrade 10, shortTrade (-3), longTrade 5] TradeTypeAll = 3 := by
  simp [partitionGross, partitionCount, inPartition, longTrade, shortTrade]

/-- C15 on the gross profits `10`, `-3`, `5`: the total gross profit is `12` and
the average gross trade is `4`. -/
theorem GetPerformanceAnalysis_figures_witness :
    (Performance.GetPerformanceAnalysis sampleSystem
      [longTrade 10, shortTrade (-3), longTrade 5]).Gross.Profit.Total = 12 ∧
    (Performance.GetPerformanceAnalysis sampleSystem
      [longTrade 10, shortTrade (-3), longTrade 5]).Gross.AverageTrade.Total = 4 := by
  obtain ⟨_, _, hsum, _, havg⟩ :=
    (GetPerformanceAnalysis_figures sampleSystem [longTrade 10, shortTrade (-3), longTrade 5]).1
  rw [partitionGross_sample.1] at hsum
  rw [partitionGross_sample.2] at havg
  have hprofit : (Performance.GetPerformanceAnalysis sampleSystem
      [longTrade 10, shortTrade (-3), longTrade 5]).Gross.Profit.Total = 12 := by
    rw [hsum]; norm_num
  refine ⟨hprofit, ?_⟩
  rw [havg (by decide), hprofit, Trunc2d_eq _ 400 (by constructor <;> norm_num)]
  norm_num

/-! ## Rolling buckets and distributions -/

theorem updateRollingInfo_split (tr : Trade) (ri : Performance.RollingInfo) (costPerOper : ℚ)
    (h : ri.Split) : (Performance.updateRollingInfo tr ri costPerOper).Split := by
  obtain ⟨h1, h2, h3⟩ := h
  unfold Performance.updateRollingInfo
  by_cases hl : tr.TradeType = TradeTypeLong
  · simp only [hl, if_true, Performance.RollingInfo.Split]
    refine ⟨by omega, by linarith, by linarith⟩
  · simp only [hl, if_false, Performance.RollingInfo.Split]
    refine ⟨by omega, by linarith, by linarith⟩

/-- C27: `calcDistribution` returns no distribution exactly when the sample is
empty, and a distribution for every non-empty sample. -/
theorem calcDistribution_absent_iff {H : Type} (lib : Performance.StatsLib H) (data : List ℚ) :
    (Performance.calcDistribution lib data = none ↔ data = []) ∧
    (data ≠ [] → ∃ d, Performance.calcDistribution lib data = some d) := by
  unfold Performance.calcDistribution
  by_cases h : data.length = 0
  · have hnil : data = [] := List.length_eq_zero.mp h
    simp [hnil]
  · have hne : data ≠ [] := fun e => h (by rw [e]; rfl)
    rw [if_neg h]
    exact ⟨⟨fun hc => (by cases hc), fun e => absurd e hne⟩, fun _ => ⟨_, rfl⟩⟩

/-- C27 on the empty sample and on the sample `[1, 2]`. -/
theorem calcDistribution_absent_iff_witness :
    Performance.calcDistribution sampleStatsLib [] = none ∧
    ∃ d, Performance.calcDistribution sampleStatsLib [1, 2] = some d :=
  ⟨(calcDistribution_absent_iff sampleStatsLib []).1.mpr rfl,
   (calcDistribution_absent_iff sampleStatsLib [1, 2]).2 (by simp)⟩

/-! ## Job table: the purge sweep -/

theorem GoMap.eq_of_key_eq {K V : Type} [DecidableEq K] (m : GoMap K V)
    (hnd : (m.map Prod.fst).Nodup) (x e : K × V) (hx : x ∈ m) (he : e ∈ m) (hk : x.1 = e.1) :
    x = e := by
  have h1 := GoMap.get_of_mem m x.1 x.2 hnd hx
  have h2 := GoMap.get_of_mem m e.1 e.2 hnd he
  rw [hk, h2] at h1
  exact Prod.ext hk (Option.some.inj h1).symm

theorem foldl_purgeStep (heap : List Simulation.Process) (now : Int) (it : List (Nat × Nat))
    (acc : GoMap Nat Nat) :
    it.foldl (Simulation.purgeStep heap now) acc
      = acc.filter (fun e =>
          !(it.any (fun x => decide (x.1 = e.1) && Simulation.expired heap now x))) := by
  induction it generalizing acc with
  | nil => simp
  | cons x xs ih =>
    rw [List.foldl_cons, ih]
    by_cases hx : Simulation.expired heap now x = true
    · simp only [Simulation.purgeStep, hx, if_true, GoMap.delete, List.filter_filter]
      apply List.filter_congr
      intro e _
      by_cases hk : x.1 = e.1
      · simp [hk, hx]
      · have hk2 : ¬ e.1 = x.1 := fun h => hk h.symm
        simp [hk, hk2]
    · have hx2 : Simulation.expired heap now x = false := by simpa using hx
      simp only [Simulation.purgeStep, hx2, Bool.false_eq_true, if_false]
      apply List.filter_congr
      intro e _
      simp [hx2]

theorem purge_eq_filter (range : GoMap Nat Nat → List (Nat × Nat)) (hr : IsMapRange range)
    (now : Int) (s : Simulation.State) (hnd : (s.m.map Prod.fst).Nodup) :
    (Simulation.purge range now s).m
      = s.m.filter (fun e => !Simulation.expired s.heap now e) := by
  unfold Simulation.purge
  simp only [foldl_purgeStep]
  apply List.filter_congr
  intro e he
  congr 1
  cases hexp : Simulation.expired s.heap now e with
  | true =>
    rw [List.any_eq_true]
    exact ⟨e, (hr s.m).mem_iff.mpr he, by simp [hexp]⟩
  | false =>
    rw [List.any_eq_false]
    intro x hx
    by_cases hk : x.1 = e.1
    · have hxe : x = e := GoMap.eq_of_key_eq s.m hnd x e ((hr s.m).mem_iff.mp hx) he hk
      rw [hxe]; simp [hexp]
    · simp [hk]

theorem expired_of_process (heap : List Simulation.Process) (now : Int) (e : Nat × Nat)
    (p : Simulation.Process) (hp : heap[e.2]? = some p) :
    Simulation.expired heap now e = true ↔
      p.result.Status = Simulation.SimStatusComplete ∧
      1800000000000 ≤ now - p.result.EndTime := by
  unfold Simulation.expired
  simp only [hp]
  by_cases hs : p.result.Status = Simulation.SimStatusComplete
  · simp only [hs, if_true, true_and, decide_eq_true_eq, ge_iff_le]
    rw [le_div_iff₀ (by norm_num)]
    constructor
    · intro h
      have h2 : ((1800000000000 : Int) : ℚ) ≤ ((now - p.result.EndTime : Int) : ℚ) := by
        push_cast
        push_cast at h
        linarith
      exact_mod_cast h2
    · intro h
      have h2 : ((1800000000000 : Int) : ℚ) ≤ ((now - p.result.EndTime : Int) : ℚ) := by
        exact_mod_cast h
      push_cast at h2 ⊢
      linarith
  · simp [hs]

/-- C21: the purge sweep leaves the processes and the queue untouched and keeps
exactly the table entries that are not expired: a complete job that ended more
than 30 minutes before `now` is removed, a complete job that ended less than 30
minutes before `now` is kept, a waiting or running job is kept whatever its
age, and no entry is added or altered. Durations count nanoseconds. -/
theorem purge_sweep (range : GoMap Nat Nat → List (Nat × Nat)) (hr : IsMapRange range)
    (now : Int) (s : Simulation.State) (hnd : (s.m.map Prod.fst).Nodup) :
    (Simulation.purge range now s).heap = s.heap ∧
    (Simulation.purge range now s).queue = s.queue ∧
    (∀ e ∈ (Simulation.purge range now s).m, e ∈ s.m) ∧
    ∀ e ∈ s.m, ∀ p, s.heap[e.2]? = some p →
      (p.result.Status = Simulation.SimStatusComplete →
        1800000000000 < now - p.result.EndTime → e ∉ (Simulation.purge range now s).m) ∧
      (p.result.Status = Simulation.SimStatusComplete →
        now - p.result.EndTime < 1800000000000 → e ∈ (Simulation.purge range now s).m) ∧
      (p.result.Status = Simulation.SimStatusWaiting ∨
        p.result.Status = Simulation.SimStatusRunning → e ∈ (Simulation.purge range now s).m) := by
  have hm := purge_eq_filter range hr now s hnd
  refine ⟨rfl, rfl, ?_, ?_⟩
  · intro e he
    rw [hm] at he
    exact (List.mem_filter.mp he).1
  · intro e he p hp
    have hexp := expired_of_process s.heap now e p hp
    rw [hm]
    refine ⟨?_, ?_, ?_⟩
    · intro hs hold hmem
      have h1 := (List.mem_filter.mp hmem).2
      have h2 : Simulation.expired s.heap now e = true := hexp.mpr ⟨hs, le_of_lt hold⟩
      rw [h2] at h1
      cases h1
    · intro _ hyoung
      apply List.mem_filter.mpr
      refine ⟨he, ?_⟩
      have h2 : ¬ Simulation.expired s.heap now e = true := by
        intro hc
        have := (hexp.mp hc).2
        omega
      simpa using h2
    · intro hs
      apply List.mem_filter.mpr
      refine ⟨he, ?_⟩
      have h2 : ¬ Simulation.expired s.heap now e = true := by
        intro hc
        have hcomp := (hexp.mp hc).1
        rcases hs with h | h
        · rw [h] at hcomp; exact absurd hcomp (by decide)
        · rw [h] at hcomp; exact absurd hcomp (by decide)
      simpa using h2

/-- C21 on three jobs at the instant `1800000000001`: the job completed at
instant `0` is removed, the job completed 29 minutes later and the running job
are kept. -/
theorem purge_sweep_witness :
    (1, 0) ∉ (Simulation.purge (fun m => m.reverse) 1800000000001 threeJobs).m ∧
    (2, 1) ∈ (Simulation.purge (fun m => m.reverse) 1800000000001 threeJobs).m ∧
    (3, 2) ∈ (Simulation.purge (fun m => m.reverse) 1800000000001 threeJobs).m :=
  ⟨((purge_sweep (fun m => m.reverse) (fun m => List.reverse_perm m) 1800000000001 threeJobs
      (by decide)).2.2.2 (1, 0) (by decide) _ rfl).1 rfl (by decide),
   ((purge_sweep (fun m => m.reverse) (fun m => List.reverse_perm m) 1800000000001 threeJobs
      (by decide)).2.2.2 (2, 1) (by decide) _ rfl).2.1 rfl (by decide),
   ((purge_sweep (fun m => m.reverse) (fun m => List.reverse_perm m) 1800000000001 threeJobs
      (by decide)).2.2.2 (3, 2) (by decide) _ rfl).2.2 (Or.inr rfl)⟩

/-! ## Bootstrap engine: the sample set -/

theorem foldl_set_range (n : Nat) (f : Nat → ℚ) (k : Nat) (hk : k ≤ n) :
    (List.range k).foldl (fun sample j => sample.set j (f j)) (List.replicate n 0)
      = (List.range k).map f ++ List.replicate (n - k) 0 := by
  induction k with
  | zero => simp
  | succ k ih =>
    rw [List.range_succ, List.foldl_append, ih (Nat.le_of_succ_le hk), List.map_append]
    simp only [List.foldl_cons, List.foldl_nil, List.map_cons, List.map_nil]
    have hlen : ((List.range k).map f).length = k := by simp
    have hrep : List.replicate (n - k) (0 : ℚ) = 0 :: List.replicate (n - (k + 1)) 0 := by
      have : n - k = (n - (k + 1)) + 1 := by omega
      rw [this, List.replicate_succ]
    rw [hrep]
    have hset : ∀ (l : List ℚ) (a b : ℚ) (r : List ℚ),
        (l ++ a :: r).set l.length b = l ++ b :: r := by
      intro l a b r
      induction l with
      | nil => rfl
      | cons x xs ihx => simp [ihx]
    have := hset ((List.range k).map f) 0 (f k) (List.replicate (n - (k + 1)) 0)
    rw [hlen] at this
    rw [this]
    simp

theorem drawSample_eq (draws : Nat → Nat) (list : List ℚ) :
    Simulation.drawSample draws list
      = (List.range list.length).map
          (fun j => list.getD (Simulation.Intn (draws j) list.length) 0) := by
  unfold Simulation.drawSample
  rw [foldl_set_range list.length _ list.length (le_refl _)]
  simp

theorem drawSample_length (draws : Nat → Nat) (list : List ℚ) :
    (Simulation.drawSample draws list).length = list.length := by
  rw [drawSample_eq]; simp

theorem drawSample_mem (draws : Nat → Nat) (list : List ℚ) (hne : list ≠ []) :
    ∀ x ∈ Simulation.drawSample draws list, x ∈ list := by
  intro x hx
  rw [drawSample_eq, List.mem_map] at hx
  obtain ⟨j, _, rfl⟩ := hx
  have hpos : 0 < list.length := List.length_pos.mpr hne
  have hlt : Simulation.Intn (draws j) list.length < list.length := Nat.mod_lt _ hpos
  rw [List.getD_eq_getElem _ _ hlt]
  exact List.getElem_mem _

theorem foldl_sampleStep (draws : Nat → Nat → Nat) (list : List ℚ) (is : List Nat)
    (s : Simulation.SampleState) :
    is.foldl (Simulation.sampleStep draws list) s
      = { sampleSet := s.sampleSet
            ++ is.map (fun i => BuildEquity (Simulation.drawSample (draws i) list))
          maxDrawdowns := s.maxDrawdowns
            ++ is.map (fun i =>
                (BuildDrawDown (BuildEquity (Simulation.drawSample (draws i) list))).2) } := by
  induction is generalizing s with
  | nil => simp
  | cons i rest ih =>
    rw [List.foldl_cons, ih]
    simp [Simulation.sampleStep]

theorem buildSampleSet_eq (draws : Nat → Nat → Nat) (list : List ℚ) (runs : Int) :
    Simulation.buildSampleSet draws list runs
      = ((List.range runs.toNat).map
            (fun i => BuildEquity (Simulation.drawSample (draws i) list)),
         (List.range runs.toNat).map
            (fun i => (BuildDrawDown (BuildEquity (Simulation.drawSample (draws i) list))).2)) := by
  simp [Simulation.buildSampleSet, foldl_sampleStep]

/-- C23: for a non-empty source sequence and `runs ≥ 0`, whatever the random
draws, `buildSampleSet` returns `runs` paths and `runs` max drawdowns; path `i`
has the length of the source and is the `BuildEquity` of a sequence of that
length whose elements are elements of the source, and max drawdown `i` is the
one `BuildDrawDown` computes for path `i`. -/
theorem buildSampleSet_paths (draws : Nat → Nat → Nat) (list : List ℚ) (runs : Int)
    (hne : list ≠ []) (hruns : 0 ≤ runs) :
    ((Simulation.buildSampleSet draws list runs).1.length : Int) = runs ∧
    ((Simulation.buildSampleSet draws list runs).2.length : Int) = runs ∧
    ∀ i, i < runs.toNat →
      ∃ sample path, sample.length = list.length ∧ (∀ x ∈ sample, x ∈ list) ∧
        path = BuildEquity sample ∧ path.length = list.length ∧
        (Simulation.buildSampleSet draws list runs).1[i]? = some path ∧
        (Simulation.buildSampleSet draws list runs).2[i]? = some (BuildDrawDown path).2 := by
  rw [buildSampleSet_eq]
  refine ⟨by simp [Int.toNat_of_nonneg hruns], by simp [Int.toNat_of_nonneg hruns], ?_⟩
  intro i hi
  refine ⟨Simulation.drawSample (draws i) list, _, drawSample_length _ _,
    drawSample_mem _ _ hne, rfl, ?_, ?_, ?_⟩
  · rw [BuildEquity_eq_equityFrom, length_equityFrom, drawSample_length]
  · simp [hi]
  · simp [hi]

/-- C23 on the source `[1, -2, 3]` with two runs. -/
theorem buildSampleSet_paths_witness :
    ((Simulation.buildSampleSet sampleDraws [1, -2, 3] 2).1.length : Int) = 2 ∧
    ((Simulation.buildSampleSet sampleDraws [1, -2, 3] 2).2.length : Int) = 2 :=
  ⟨(buildSampleSet_paths sampleDraws [1, -2, 3] 2 (by simp) (by decide)).1,
   (buildSampleSet_paths sampleDraws [1, -2, 3] 2 (by simp) (by decide)).2.1⟩

/-! ## Bootstrap engine: mean and standard deviation bands -/

theorem collectAll_map_some {α β : Type} (l : List α) (f : α → Option β) (g : α → β)
    (h : ∀ a ∈ l, f a = some (g a)) : collectAll (l.map f) = some (l.map g) := by
  induction l with
  | nil => rfl
  | cons a as ih =>
    rw [List.map_cons, h a (List.mem_cons_self _ _)]
    simp only [collectAll, ih (fun x hx => h x (List.mem_cons_of_mem _ hx)), List.map_cons]

theorem collectAll_column (sampleSet : List (List ℚ)) (size i : Nat) (hi : i < size)
    (hlen : ∀ path ∈ sampleSet, path.length = size) :
    collectAll (sampleSet.map (fun path => path[i]?)) = some (Simulation.column sampleSet i) := by
  unfold Simulation.column
  apply collectAll_map_some
  intro path hp
  have hlt : i < path.length := by rw [hlen path hp]; exact hi
  rw [List.getElem?_eq_getElem hlt, List.getD_eq_getElem _ _ hlt]

theorem foldl_meanStep (stats : Stats) (sampleSet : List (List ℚ)) (size : Nat)
    (hlen : ∀ path ∈ sampleSet, path.length = size) (is : List Nat) (his : ∀ i ∈ is, i < size)
    (acc : List ℚ × List ℚ) :
    is.foldl (Simulation.meanStep stats sampleSet) (some acc)
      = some (acc.1 ++ is.map (fun i => (stats.meanAndStdDev (Simulation.column sampleSet i)).1),
              acc.2 ++ is.map (fun i => (stats.meanAndStdDev (Simulation.column sampleSet i)).2)) := by
  induction is generalizing acc with
  | nil => simp
  | cons i rest ih =>
    rw [List.foldl_cons]
    have hstep : Simulation.meanStep stats sampleSet (some acc) i
        = some (acc.1 ++ [(stats.meanAndStdDev (Simulation.column sampleSet i)).1],
                acc.2 ++ [(stats.meanAndStdDev (Simulation.column sampleSet i)).2]) := by
      simp only [Simulation.meanStep,
        collectAll_column sampleSet size i (his i (List.mem_cons_self _ _)) hlen]
    rw [hstep, ih (fun j hj => his j (List.mem_cons_of_mem _ hj))]
    simp

theorem buildMeanAndStdDev_eq (stats : Stats) (sampleSet : List (List ℚ)) (size : Nat)
    (hlen : ∀ path ∈ sampleSet, path.length = size) :
    Simulation.buildMeanAndStdDev stats sampleSet size
      = some ((List.range size).map
                (fun i => (stats.meanAndStdDev (Simulation.column sampleSet i)).1),
              (List.range size).map
                (fun i => (stats.meanAndStdDev (Simulation.column sampleSet i)).2)) := by
  unfold Simulation.buildMeanAndStdDev
  rw [foldl_meanStep stats sampleSet size hlen _ (fun i hi => List.mem_range.mp hi)]
  simp

theorem foldl_upLowStep (stdDev : List ℚ) (mean : List ℚ) (n : Nat)
    (h : n + mean.length ≤ stdDev.length) (acc : List ℚ × List ℚ) :
    (mean.enumFrom n).foldl (Simulation.upLowStep stdDev) (some acc)
      = some (acc.1 ++ (mean.enumFrom n).map (fun e => e.2 + stdDev.getD e.1 0),
              acc.2 ++ (mean.enumFrom n).map (fun e => e.2 - stdDev.getD e.1 0)) := by
  induction mean generalizing n acc with
  | nil => simp
  | cons v vs ih =>
    simp only [List.enumFrom_cons, List.foldl_cons, List.map_cons]
    have hlt : n < stdDev.length := by
      simp only [List.length_cons] at h
      omega
    have hstep : Simulation.upLowStep stdDev (some acc) (n, v)
        = some (acc.1 ++ [v + stdDev.getD n 0], acc.2 ++ [v - stdDev.getD n 0]) := by
      simp only [Simulation.upLowStep, List.getElem?_eq_getElem hlt,
        List.getD_eq_getElem _ _ hlt]
    rw [hstep, ih (n + 1) (by simp only [List.length_cons] at h; omega)]
    simp

theorem buildUpAndLowStdDev_eq (size : Nat) (f g : Nat → ℚ) :
    Simulation.buildUpAndLowStdDev ((List.range size).map f) ((List.range size).map g)
      = some ((List.range size).map (fun i => f i + g i),
              (List.range size).map (fun i => f i - g i)) := by
  unfold Simulation.buildUpAndLowStdDev
  rw [List.enum, foldl_upLowStep _ _ 0 (by simp)]
  simp only [List.nil_append, Option.some.injEq, Prod.mk.injEq]
  constructor <;>
  · apply List.ext_getElem
    · simp
    · intro i h1 h2
      have hi : i < size := by simpa using h2
      simp [hi]

theorem addMeanAndStdDev_eq (stats : Stats) (sampleSet : List (List ℚ)) (size : Nat)
    (hlen : ∀ path ∈ sampleSet, path.length = size) :
    Simulation.addMeanAndStdDev stats sampleSet size
      = some (sampleSet ++
          [List.replicate size 0,
           (List.range size).map
             (fun i => (stats.meanAndStdDev (Simulation.column sampleSet i)).1),
           (List.range size).map
             (fun i => (stats.meanAndStdDev (Simulation.column sampleSet i)).1
               + (stats.meanAndStdDev (Simulation.column sampleSet i)).2),
           (List.range size).map
             (fun i => (stats.meanAndStdDev (Simulation.column sampleSet i)).1
               - (stats.meanAndStdDev (Simulation.column sampleSet i)).2)]) := by
  unfold Simulation.addMeanAndStdDev
  simp only [buildMeanAndStdDev_eq stats sampleSet size hlen, buildUpAndLowStdDev_eq]
  simp

/-- C24: for an ensemble of paths, all of length `size` (one path or more; none
is needed for the proof), `addMeanAndStdDev` returns the paths unchanged and in order, followed by four
series of length `size`: the zero baseline, the mean, mean + stddev and
mean - stddev, the mean and stddev at index `i` being those of the values of
all paths at index `i`. -/
theorem addMeanAndStdDev_series (stats : Stats) (sampleSet : List (List ℚ)) (size : Nat)
    (hlen : ∀ path ∈ sampleSet, path.length = size) :
    ∃ zero mean up down,
      Simulation.addMeanAndStdDev stats sampleSet size
        = some (sampleSet ++ [zero, mean, up, down]) ∧
      zero = List.replicate size 0 ∧
      mean.length = size ∧ up.length = size ∧ down.length = size ∧
      ∀ i, i < size →
        mean[i]? = some (stats.meanAndStdDev (Simulation.column sampleSet i)).1 ∧
        up[i]? = some ((stats.meanAndStdDev (Simulation.column sampleSet i)).1
          + (stats.meanAndStdDev (Simulation.column sampleSet i)).2) ∧
        down[i]? = some ((stats.meanAndStdDev (Simulation.column sampleSet i)).1
          - (stats.meanAndStdDev (Simulation.column sampleSet i)).2) := by
  refine ⟨_, _, _, _, addMeanAndStdDev_eq stats sampleSet size hlen, rfl, by simp, by simp,
    by simp, ?_⟩
  intro i hi
  simp [hi]

/-- C24 on the two paths `[1, -1, 2]` and `[-2, 1, 2]`. -/
theorem addMeanAndStdDev_series_witness :
    ∃ zero mean up down,
      Simulation.addMeanAndStdDev sampleStats [[1, -1, 2], [-2, 1, 2]] 3
        = some ([[1, -1, 2], [-2, 1, 2]] ++ [zero, mean, up, down]) ∧
      zero = List.replicate 3 0 ∧
      mean.length = 3 ∧ up.length = 3 ∧ down.length = 3 ∧
      ∀ i, i < 3 →
        mean[i]? = some (sampleStats.meanAndStdDev
          (Simulation.column [[1, -1, 2], [-2, 1, 2]] i)).1 ∧
        up[i]? = some ((sampleStats.meanAndStdDev
            (Simulation.column [[1, -1, 2], [-2, 1, 2]] i)).1
          + (sampleStats.meanAndStdDev (Simulation.column [[1, -1, 2], [-2, 1, 2]] i)).2) ∧
        down[i]? = some ((sampleStats.meanAndStdDev
            (Simulation.column [[1, -1, 2], [-2, 1, 2]] i)).1
          - (sampleStats.meanAndStdDev (Simulation.column [[1, -1, 2], [-2, 1, 2]] i)).2) :=
  addMeanAndStdDev_series sampleStats [[1, -1, 2], [-2, 1, 2]] 3
    (fun path hp => by
      simp only [List.mem_cons, List.mem_singleton, List.not_mem_nil, or_false] at hp
      rcases hp with rfl | rfl <;> rfl)

/-! ## Bootstrap engine: the max-drawdown histogram -/

theorem CalcMin_nil : CalcMin [] = none := rfl

theorem CalcMin_eq_minFrom (d : ℚ) (ds : List ℚ) :
    CalcMin (d :: ds) = some (minFrom d (d :: ds)) := by
  simp [CalcMin, minFrom]

theorem CalcMin_of_minimum (data : List ℚ) (m : ℚ) (hm : m ∈ data) (hmin : ∀ x ∈ data, m ≤ x) :
    CalcMin data = some m := by
  cases data with
  | nil => simp at hm
  | cons d ds =>
    rw [CalcMin_eq_minFrom]
    congr 1
    apply le_antisymm
    · exact minFrom_le_mem (d :: ds) d m hm
    · rcases minFrom_mem_or (d :: ds) d with h | h
      · rw [h]; exact hmin d (List.mem_cons_self _ _)
      · exact hmin _ h

theorem truncInt_of_nonpos (v : ℚ) (hv : v ≤ 0) : truncInt v = ⌈v⌉ := by
  unfold truncInt
  by_cases h : 0 ≤ v
  · have h0 : v = 0 := le_antisymm hv h
    simp [h0]
  · simp [h]

theorem truncInt_abs_of_nonpos (m : ℚ) (hm : m ≤ 0) : truncInt |m| = -⌈m⌉ := by
  unfold truncInt
  rw [if_pos (abs_nonneg m), abs_of_nonpos hm, Int.floor_neg]

theorem ceil_nonpos_of_nonpos (v : ℚ) (hv : v ≤ 0) : ⌈v⌉ ≤ 0 := by
  rw [Int.ceil_le]; simpa using hv

theorem sum_set_add_one (l : List ℚ) (i : Nat) (h : i < l.length) :
    (l.set i (l.getD i 0 + 1)).sum = l.sum + 1 := by
  induction l generalizing i with
  | nil => simp at h
  | cons x xs ih =>
    cases i with
    | zero => simp; ring
    | succ i =>
      have hi : i < xs.length := by simpa using h
      simp only [List.set_cons_succ, List.sum_cons, List.getD_cons_succ]
      rw [ih i hi]; ring

theorem getD_set_add_one (l : List ℚ) (i j : Nat) (h : i < l.length) :
    (l.set i (l.getD i 0 + 1)).getD j 0 = l.getD j 0 + (if j = i then 1 else 0) := by
  rw [List.getD_eq_getElem?_getD, List.getElem?_set]
  by_cases hji : j = i
  · subst hji
    simp [h]
  · have hij : ¬ i = j := fun e => hji e.symm
    simp [hji, hij, List.getD_eq_getElem?_getD]

/-- The second loop of `buildDDDistrib` on values in `-n..0`: no read fails, and
bin `j` gains the number of values whose integer part is `-(n - j)`. -/
theorem foldl_binStep (n : Nat) (data : List ℚ)
    (hd : ∀ v ∈ data, v ≤ 0 ∧ -(n : Int) ≤ ⌈v⌉) (acc : List ℚ) (hacc : acc.length = n + 1) :
    ∃ y, data.foldl (Simulation.binStep ((n : Int) + 1)) (some acc) = some y ∧
      y.length = n + 1 ∧
      (∀ j, j ≤ n → y.getD j 0 = acc.getD j 0
        + (((data.filter (fun v => decide (truncInt v = -((n - j : Nat) : Int)))).length : ℕ) : ℚ)) ∧
      y.sum = acc.sum + (data.length : ℚ) := by
  induction data generalizing acc with
  | nil => exact ⟨acc, rfl, hacc, by simp, by simp⟩
  | cons v vs ih =>
    obtain ⟨hv0, hvn⟩ := hd v (List.mem_cons_self _ _)
    have hc0 : ⌈v⌉ ≤ 0 := ceil_nonpos_of_nonpos v hv0
    have htr : truncInt v = ⌈v⌉ := truncInt_of_nonpos v hv0
    have hidx : (n : Int) + 1 + truncInt v - 1 = (((n : Int) + ⌈v⌉).toNat : Int) := by
      rw [htr, Int.toNat_of_nonneg (by omega)]; ring
    have hlt : ((n : Int) + ⌈v⌉).toNat < acc.length := by
      rw [hacc]; omega
    have hstep : Simulation.binStep ((n : Int) + 1) (some acc) v
        = some (acc.set ((n : Int) + ⌈v⌉).toNat (acc.getD ((n : Int) + ⌈v⌉).toNat 0 + 1)) := by
      simp only [Simulation.binStep, Simulation.incrAt, hidx, Int.toNat_ofNat]
      rw [if_pos]
      constructor
      · omega
      · exact_mod_cast hlt
    obtain ⟨y, hy, hylen, hybins, hysum⟩ :=
      ih (fun x hx => hd x (List.mem_cons_of_mem _ hx))
        (acc.set ((n : Int) + ⌈v⌉).toNat (acc.getD ((n : Int) + ⌈v⌉).toNat 0 + 1))
        (by rw [List.length_set]; exact hacc)
    refine ⟨y, by rw [List.foldl_cons, hstep, hy], hylen, ?_, ?_⟩
    · intro j hj
      rw [hybins j hj, getD_set_add_one _ _ _ hlt, List.filter_cons]
      by_cases hjv : j = ((n : Int) + ⌈v⌉).toNat
      · have hdec : truncInt v = -((n - j : Nat) : Int) := by rw [htr]; omega
        simp only [hjv, if_true, hdec, decide_True, List.length_cons]
        rw [← hjv]
        push_cast
        ring
      · have hdec : ¬ truncInt v = -((n - j : Nat) : Int) := by rw [htr]; omega
        simp only [hjv, if_false, hdec, decide_False, Bool.false_eq_true, add_zero]
    · rw [hysum, sum_set_add_one _ _ hlt, List.length_cons]
      push_cast
      ring

theorem foldl_append_singleton {α β : Type} (l : List α) (f : α → β) (init : List β) :
    l.foldl (fun acc x => acc ++ [f x]) init = init ++ l.map f := by
  induction l generalizing init with
  | nil => simp
  | cons x xs ih => rw [List.foldl_cons, ih]; simp

/-- The histogram `buildDDDistrib` returns for a non-empty sample of values `≤ 0`
with minimum `m`, `n` being the integer part of `|m|`. -/
theorem buildDDDistrib_of_minimum (data : List ℚ) (m : ℚ) (n : Nat) (hm : m ∈ data)
    (hmin : ∀ x ∈ data, m ≤ x) (hneg : ∀ x ∈ data, x ≤ 0) (hn : truncInt |m| = (n : Int)) :
    ∃ d, Simulation.buildDDDistrib data = some d ∧
      d.XAxis = (List.range (n + 1)).map (fun i => toString (-((n - i : Nat) : Int)) ++ "R") ∧
      d.YAxis.length = n + 1 ∧
      (∀ k, k ≤ n → d.YAxis[n - k]?
        = some ((((data.filter (fun v => decide (truncInt v = -(k : Int)))).length : ℕ) : ℚ))) ∧
      d.YAxis.sum = (data.length : ℚ) := by
  have hm0 : m ≤ 0 := hneg m hm
  have hceil : ⌈m⌉ = -(n : Int) := by
    have := truncInt_abs_of_nonpos m hm0
    rw [hn] at this
    omega
  have hd : ∀ v ∈ data, v ≤ 0 ∧ -(n : Int) ≤ ⌈v⌉ := by
    intro v hv
    refine ⟨hneg v hv, ?_⟩
    rw [← hceil]
    exact Int.ceil_mono (hmin v hv)
  obtain ⟨y, hy, hylen, hybins, hysum⟩ :=
    foldl_binStep n data hd (List.replicate (n + 1) 0) (by simp)
  have htoNat : ((n : Int) + 1).toNat = n + 1 := by omega
  refine ⟨{ XAxis := (List.range (n + 1)).foldl
              (fun xAxis (k : Nat) =>
                xAxis ++ [toString (-((n : Int) + 1) + ((k : Int) + 1)) ++ "R"]) []
            YAxis := y }, ?_, ?_, hylen, ?_, ?_⟩
  · unfold Simulation.buildDDDistrib
    simp only [CalcMin_of_minimum data m hm hmin, hn, htoNat, hy]
  · simp only []
    rw [foldl_append_singleton, List.nil_append]
    apply List.map_congr_left
    intro i hi
    have hi2 : i ≤ n := Nat.lt_succ_iff.mp (List.mem_range.mp hi)
    have : -((n : Int) + 1) + ((i : Int) + 1) = -((n - i : Nat) : Int) := by omega
    rw [this]
  · intro k hk
    have hlt : n - k < y.length := by rw [hylen]; omega
    rw [List.getElem?_eq_getElem hlt, ← List.getD_eq_getElem y 0 hlt, hybins (n - k) (by omega)]
    have hnk : n - (n - k) = k := by omega
    rw [hnk]
    simp
  · rw [hysum]; simp

/-- C26: for a non-empty sample of values `≤ 0` with minimum `m` and `n` the
integer part of `|m|`, `buildDDDistrib` returns the `n + 1` labels `-nR`, …,
`-1R`, `0R` in that order and `n + 1` counts; the count under the label of `-k`
(at position `n - k`) is the number of values whose integer part is `-k`, and
the counts sum to the size of the sample. -/
theorem buildDDDistrib_bins (data : List ℚ) (m : ℚ) (n : Nat) (hm : m ∈ data)
    (hmin : ∀ x ∈ data, m ≤ x) (hneg : ∀ x ∈ data, x ≤ 0) (hn : truncInt |m| = (n : Int)) :
    ∃ d, Simulation.buildDDDistrib data = some d ∧
      d.XAxis = (List.range (n + 1)).map (fun i => toString (-((n - i : Nat) : Int)) ++ "R") ∧
      d.YAxis.length = n + 1 ∧
      (∀ k, k ≤ n → d.YAxis[n - k]?
        = some ((((data.filter (fun v => decide (truncInt v = -(k : Int)))).length : ℕ) : ℚ))) ∧
      d.YAxis.sum = (data.length : ℚ) :=
  buildDDDistrib_of_minimum data m n hm hmin hneg hn

/-- C26 on the sample `[-5/2, 0, -1/2, -1, -3]`, whose minimum is `-3`: four
labels and four counts, one value of integer part `-3`, and counts that sum to
`5`. -/
theorem buildDDDistrib_bins_witness :
    ∃ d, Simulation.buildDDDistrib [-5 / 2, 0, -1 / 2, -1, -3] = some d ∧
      d.XAxis = (List.range (3 + 1)).map (fun i => toString (-((3 - i : Nat) : Int)) ++ "R") ∧
      d.YAxis.length = 3 + 1 ∧
      (∀ k : Nat, k ≤ 3 → d.YAxis[3 - k]?
        = some (((([-5 / 2, 0, -1 / 2, -1, -3] : List ℚ).filter
            (fun v => decide (truncInt v = -(k : Int)))).length : ℕ) : ℚ)) ∧
      d.YAxis.sum = ((([-5 / 2, 0, -1 / 2, -1, -3] : List ℚ).length : ℕ) : ℚ) :=
  buildDDDistrib_bins [-5 / 2, 0, -1 / 2, -1, -3] (-3) 3 (by simp)
    (fun x hx => by
      simp only [List.mem_cons, List.mem_singleton, List.not_mem_nil, or_false] at hx
      rcases hx with rfl | rfl | rfl | rfl | rfl <;> norm_num)
    (fun x hx => by
      simp only [List.mem_cons, List.mem_singleton, List.not_mem_nil, or_false] at hx
      rcases hx with rfl | rfl | rfl | rfl | rfl <;> norm_num)
    (by
      unfold truncInt
      rw [if_pos (abs_nonneg _)]
      rw [Int.floor_eq_iff]
      constructor <;> norm_num)

/-! ## Bootstrap engine: a run without resampled path -/

theorem buildDDDistrib_nil : Simulation.buildDDDistrib [] = none := rfl

theorem run_of_zero_runs (stats : Stats) (render : List (List ℚ) → Int → Int → Option String)
    (draws : Nat → Nat → Nat) (list : List ℚ) (req : Simulation.Request) (hne : list ≠ [])
    (hruns : req.Runs = 0) :
    Simulation.run stats render draws list req = none := by
  have hlen : ¬ list.length = 0 := fun h => hne (List.length_eq_zero.mp h)
  have hset : Simulation.buildSampleSet draws list req.Runs = ([], []) := by
    rw [buildSampleSet_eq, hruns]; rfl
  unfold Simulation.run
  simp only [hlen, if_false, hset, buildDDDistrib_nil]
  cases Simulation.addMeanAndStdDev stats [] list.length with
  | none => rfl
  | some sampleSet2 =>
    simp only []
    cases render sampleSet2 req.Width req.Height <;> rfl

/-- C25 is not met by the code: on the sequence `[1]` with `runs = 0` the
ensemble has no resampled path, `buildDDDistrib` is called on the empty list of
max drawdowns, `CalcMin` reads `data[0]` of it, and `run` panics, whatever the
statistics library, the chart library and the random draws. -/
theorem run_zero_runs_panics (stats : Stats)
    (render : List (List ℚ) → Int → Int → Option String) (draws : Nat → Nat → Nat) :
    Simulation.buildSampleSet draws [1] 0 = ([], []) ∧
    CalcMin [] = none ∧
    Simulation.run stats render draws [1] { sampleRequest with Runs := 0 } = none :=
  ⟨by rw [buildSampleSet_eq]; rfl, rfl,
   run_of_zero_runs stats render draws [1] _ (by simp) rfl⟩

/-! ## The six combinations of a job -/

/-- C22: when `Process.Start` finishes, the status of the result is `complete`
and, `k` being the final step counter, `1 ≤ k ≤ 6`, exactly the first `k`
`Details` are set, the stop flag was unset at every check before combination
`k`, it was set at the check after combination `k` when `k < 6`, and `k = 6`
when it was never set. -/
theorem Process_Start_steps (toIntDate : Time → Int) (stats : Stats)
    (render : List (List ℚ) → Int → Int → Option String) (draws : Nat → Nat → Nat → Nat)
    (startNow endNow : Int) (stopping : Nat → Bool) (p q : Simulation.Process)
    (h : Simulation.Process.Start toIntDate stats render draws startNow endNow stopping p
      = some q) :
    q.result.Status = Simulation.SimStatusComplete ∧
    ∃ k : Nat, q.result.Step = (k : Int) ∧ 1 ≤ k ∧ k ≤ 6 ∧ q.result.firstSet k ∧
      (∀ c, c + 1 < k → stopping c = false) ∧
      (k < 6 → stopping (k - 1) = true) ∧
      ((∀ c, c < 5 → stopping c = false) → k = 6) := by
  unfold Simulation.Process.Start at h
  split at h
  · simp only [] at h
    split at h
    · cases h
    · split at h
      · split at h
        · cases h
        · split at h
          · split at h
            · cases h
            · split at h
              · split at h
                · cases h
                · split at h
                  · split at h
                    · cases h
                    · split at h
                      · split at h
                        · cases h
                        · simp only [Simulation.complete, Option.some.injEq] at h
                          subst h
                          refine ⟨rfl, 6, ?_, by decide, by decide, ?_, ?_, ?_, ?_⟩
                          · simp [Simulation.NewResult, Simulation.zeroResult]
                          · simp [Simulation.Result.firstSet, Simulation.Result.details, Simulation.NewResult,
                              Simulation.zeroResult, List.range_succ]
                          · intro c hc
                            have hc2 : c < 5 := by omega
                            interval_cases c <;> simp_all
                          · intro hk
                            simp_all
                          · intro hall
                            have h0 := hall 0 (by decide)
                            have h1 := hall 1 (by decide)
                            have h2 := hall 2 (by decide)
                            have h3 := hall 3 (by decide)
                            have h4 := hall 4 (by decide)
                            simp_all
                      · simp only [Simulation.complete, Option.some.injEq] at h
                        subst h
                        refine ⟨rfl, 5, ?_, by decide, by decide, ?_, ?_, ?_, ?_⟩
                        · simp [Simulation.NewResult, Simulation.zeroResult]
                        · simp [Simulation.Result.firstSet, Simulation.Result.details, Simulation.NewResult,
                            Simulation.zeroResult, List.range_succ]
                        · intro c hc
                          have hc2 : c < 5 := by omega
                          interval_cases c <;> simp_all
                        · intro hk
                          simp_all
                        · intro hall
                          have h0 := hall 0 (by decide)
                          have h1 := hall 1 (by decide)
                          have h2 := hall 2 (by decide)
                          have h3 := hall 3 (by decide)
                          have h4 := hall 4 (by decide)
                          simp_all
                  · simp only [Simulation.complete, Option.some.injEq] at h
                    subst h
                    refine ⟨rfl, 4, ?_, by decide, by decide, ?_, ?_, ?_, ?_⟩
                    · simp [Simulation.NewResult, Simulation.zeroResult]
                    · simp [Simulation.Result.firstSet, Simulation.Result.details, Simulation.NewResult,
                        Simulation.zeroResult, List.range_succ]
                    · intro c hc
                      have hc2 : c < 5 := by omega
                      interval_cases c <;> simp_all
                    · intro hk
                      simp_all
                    · intro hall
                      have h0 := hall 0 (by decide)
                      have h1 := hall 1 (by decide)
                      have h2 := hall 2 (by decide)
                      have h3 := hall 3 (by decide)
                      have h4 := hall 4 (by decide)
                      simp_all
              · simp only [Simulation.complete, Option.some.injEq] at h
                subst h
                refine ⟨rfl, 3, ?_, by decide, by decide, ?_, ?_, ?_, ?_⟩
                · simp [Simulation.NewResult, Simulation.zeroResult]
                · simp [Simulation.Result.firstSet, Simulation.Result.details, Simulation.NewResult,
                    Simulation.zeroResult, List.range_succ]
                · intro c hc
                  have hc2 : c < 5 := by omega
                  interval_cases c <;> simp_all
                · intro hk
                  simp_all
                · intro hall
                  have h0 := hall 0 (by decide)
                  have h1 := hall 1 (by decide)
                  have h2 := hall 2 (by decide)
                  have h3 := hall 3 (by decide)
                  have h4 := hall 4 (by decide)
                  simp_all
          · simp only [Simulation.complete, Option.some.injEq] at h
            subst h
            refine ⟨rfl, 2, ?_, by decide, by decide, ?_, ?_, ?_, ?_⟩
            · simp [Simulation.NewResult, Simulation.zeroResult]
            · simp [Simulation.Result.firstSet, Simulation.Result.details, Simulation.NewResult,
                Simulation.zeroResult, List.range_succ]
            · intro c hc
              have hc2 : c < 5 := by omega
              interval_cases c <;> simp_all
            · intro hk
              simp_all
            · intro hall
              have h0 := hall 0 (by decide)
              have h1 := hall 1 (by decide)
              have h2 := hall 2 (by decide)
              have h3 := hall 3 (by decide)
              have h4 := hall 4 (by decide)
              simp_all
      · simp only [Simulation.complete, Option.some.injEq] at h
        subst h
        refine ⟨rfl, 1, ?_, by decide, by decide, ?_, ?_, ?_, ?_⟩
        · simp [Simulation.NewResult, Simulation.zeroResult]
        · simp [Simulation.Result.firstSet, Simulation.Result.details, Simulation.NewResult,
            Simulation.zeroResult, List.range_succ]
        · intro c hc
          have hc2 : c < 5 := by omega
          interval_cases c <;> simp_all
        · intro hk
          simp_all
        · intro hall
          have h0 := hall 0 (by decide)
          have h1 := hall 1 (by decide)
          have h2 := hall 2 (by decide)
          have h3 := hall 3 (by decide)
          have h4 := hall 4 (by decide)
          simp_all
  · cases h

theorem buildDDDistrib_isSome (data : List ℚ) (hne : data ≠ []) (hneg : ∀ x ∈ data, x ≤ 0) :
    ∃ d, Simulation.buildDDDistrib data = some d := by
  cases data with
  | nil => exact absurd rfl hne
  | cons d0 ds =>
    have hmem : minFrom d0 (d0 :: ds) ∈ d0 :: ds := by
      rcases minFrom_mem_or (d0 :: ds) d0 with h | h
      · rw [h]; exact List.mem_cons_self _ _
      · exact h
    have hn0 : 0 ≤ truncInt |minFrom d0 (d0 :: ds)| := by
      unfold truncInt
      rw [if_pos (abs_nonneg _)]
      exact Int.floor_nonneg.mpr (abs_nonneg _)
    obtain ⟨n, hn⟩ := Int.eq_ofNat_of_zero_le hn0
    obtain ⟨d, hd, _⟩ := buildDDDistrib_of_minimum (d0 :: ds) _ n hmem
      (minFrom_le_mem (d0 :: ds) d0) hneg hn
    exact ⟨d, hd⟩

/-- With a chart library that does not fail and at least one run, `run` returns. -/
theorem run_isSome (stats : Stats) (render : List (List ℚ) → Int → Int → Option String)
    (hrender : ∀ series w h, ∃ buf, render series w h = some buf)
    (draws : Nat → Nat → Nat) (list : List ℚ) (req : Simulation.Request) (hruns : 1 ≤ req.Runs) :
    ∃ d, Simulation.run stats render draws list req = some d := by
  unfold Simulation.run
  by_cases hlen : list.length = 0
  · exact ⟨{ Equities := "", MaxDrawdowns := none }, by simp only [hlen, if_true]⟩
  · simp only [hlen, if_false]
    have hpaths : ∀ path ∈ (Simulation.buildSampleSet draws list req.Runs).1,
        path.length = list.length := by
      intro path hp
      rw [buildSampleSet_eq] at hp
      obtain ⟨i, _, rfl⟩ := List.mem_map.mp hp
      rw [BuildEquity_eq_equityFrom, length_equityFrom, drawSample_length]
    rw [addMeanAndStdDev_eq stats _ _ hpaths]
    simp only []
    obtain ⟨buf, hbuf⟩ := hrender
      ((Simulation.buildSampleSet draws list req.Runs).1 ++
        [List.replicate list.length 0,
         (List.range list.length).map (fun i => (stats.meanAndStdDev
           (Simulation.column (Simulation.buildSampleSet draws list req.Runs).1 i)).1),
         (List.range list.length).map (fun i => (stats.meanAndStdDev
           (Simulation.column (Simulation.buildSampleSet draws list req.Runs).1 i)).1
           + (stats.meanAndStdDev
             (Simulation.column (Simulation.buildSampleSet draws list req.Runs).1 i)).2),
         (List.range list.length).map (fun i => (stats.meanAndStdDev
           (Simulation.column (Simulation.buildSampleSet draws list req.Runs).1 i)).1
           - (stats.meanAndStdDev
             (Simulation.column (Simulation.buildSampleSet draws list req.Runs).1 i)).2)])
      req.Width req.Height
    rw [hbuf]
    simp only []
    have hdd : ∃ d, Simulation.buildDDDistrib (Simulation.buildSampleSet draws list req.Runs).2
        = some d := by
      apply buildDDDistrib_isSome
      · rw [buildSampleSet_eq]
        intro hnil
        have hlen0 := congrArg List.length hnil
        simp only [List.length_map, List.length_range, List.length_nil] at hlen0
        omega
      · intro x hx
        rw [buildSampleSet_eq] at hx
        obtain ⟨i, _, rfl⟩ := List.mem_map.mp hx
        rw [BuildDrawDown_eq]
        exact minFrom_le_acc _ 0
    obtain ⟨d, hd⟩ := hdd
    rw [hd]
    exact ⟨_, rfl⟩

/-- With a non-empty trade list, a chart library that does not fail and at least
one run, `Process.Start` finishes, whatever the stop flag shows. -/
theorem Process_Start_isSome (toIntDate : Time → Int) (stats : Stats)
    (render : List (List ℚ) → Int → Int → Option String)
    (hrender : ∀ series w h, ∃ buf, render series w h = some buf)
    (draws : Nat → Nat → Nat → Nat) (startNow endNow : Int) (stopping : Nat → Bool)
    (p : Simulation.Process) (htrades : p.trades ≠ []) (hruns : 1 ≤ p.req.Runs) :
    ∃ q, Simulation.Process.Start toIntDate stats render draws startNow endNow stopping p
      = some q := by
  have hpos : 0 < p.trades.length := List.length_pos.mpr htrades
  have hfirst : p.trades[0]? = some p.trades[0] := List.getElem?_eq_getElem hpos
  have hlast : p.trades[p.trades.length - 1]? = some p.trades[p.trades.length - 1] :=
    List.getElem?_eq_getElem (by omega)
  obtain ⟨d0, h0⟩ := run_isSome stats render hrender (draws 0)
    (CalcRMultiple p.trades TradeTypeAll p.risk 0) p.req hruns
  obtain ⟨d1, h1⟩ := run_isSome stats render hrender (draws 1)
    (CalcRMultiple p.trades TradeTypeLong p.risk 0) p.req hruns
  obtain ⟨d2, h2⟩ := run_isSome stats render hrender (draws 2)
    (CalcRMultiple p.trades TradeTypeShort p.risk 0) p.req hruns
  obtain ⟨d3, h3⟩ := run_isSome stats render hrender (draws 3)
    (CalcRMultiple p.trades TradeTypeAll p.risk p.ts.CostPerOperation) p.req hruns
  obtain ⟨d4, h4⟩ := run_isSome stats render hrender (draws 4)
    (CalcRMultiple p.trades TradeTypeLong p.risk p.ts.CostPerOperation) p.req hruns
  obtain ⟨d5, h5⟩ := run_isSome stats render hrender (draws 5)
    (CalcRMultiple p.trades TradeTypeShort p.risk p.ts.CostPerOperation) p.req hruns
  unfold Simulation.Process.Start
  simp only [hfirst, hlast, h0, h1, h2, h3, h4, h5, Simulation.complete]
  split_ifs <;> exact ⟨_, rfl⟩

/-- C22 on a job of three trades whose stop flag is set when the third check
reads it: the job finishes with status `complete`, and the properties hold for
its result. -/
theorem Process_Start_steps_witness :
    ∃ q, Simulation.Process.Start intDateOf sampleStats sampleRender (fun _ => sampleDraws) 10 20
        (fun c => decide (c = 2))
        (Simulation.NewProcess sampleSystem [longTrade (-5), shortTrade 3, longTrade 7]
          sampleRequest 5) = some q ∧
      q.result.Status = Simulation.SimStatusComplete ∧
      ∃ k : Nat, q.result.Step = (k : Int) ∧ 1 ≤ k ∧ k ≤ 6 ∧ q.result.firstSet k ∧
        (∀ c, c + 1 < k → (fun c => decide (c = 2)) c = false) ∧
        (k < 6 → (fun c => decide (c = 2)) (k - 1) = true) ∧
        ((∀ c, c < 5 → (fun c => decide (c = 2)) c = false) → k = 6) := by
  obtain ⟨q, hq⟩ := Process_Start_isSome intDateOf sampleStats sampleRender
    (fun _ _ _ => ⟨"png", rfl⟩) (fun _ => sampleDraws) 10 20 (fun c => decide (c = 2))
    (Simulation.NewProcess sampleSystem [longTrade (-5), shortTrade 3, longTrade 7]
      sampleRequest 5) (by simp [Simulation.NewProcess]) (by decide)
  exact ⟨q, hq, Process_Start_steps intDateOf sampleStats sampleRender (fun _ => sampleDraws)
    10 20 (fun c => decide (c = 2)) _ q hq⟩

/-! ## Calendar years met in date order -/

theorem yearRuns_append_singleton (ys : List Int) (y : Int) :
    yearRuns (ys ++ [y]) = appendYear (yearRuns ys) y := by
  simp [yearRuns, List.foldl_append]

theorem getLast?_appendYear (years : List Int) (y : Int) :
    (appendYear years y).getLast? = some y := by
  unfold appendYear
  by_cases h : years.getLast? = some y
  · rw [if_pos h]; exact h
  · rw [if_neg h]; simp

theorem le_getLast_of_pairwise_lt (l : List Int) (c : Int) (hl : l.Pairwise (· < ·))
    (hc : l.getLast? = some c) : ∀ x ∈ l, x ≤ c := by
  have hsplit : l = l.dropLast ++ [c] := by
    have := List.dropLast_append_getLast? c hc
    exact this.symm
  intro x hx
  rw [hsplit] at hl hx
  rcases List.mem_append.mp hx with h | h
  · exact le_of_lt ((List.pairwise_append.mp hl).2.2 x h c (List.mem_singleton_self c))
  · rw [List.mem_singleton.mp h]

/-- On years that never decrease, `yearRuns` lists every year once, in strictly
ascending order. -/
theorem yearRuns_of_sorted (ys : List Int) (hs : ys.Pairwise (· ≤ ·)) :
    (yearRuns ys).Pairwise (· < ·) ∧ ∀ y, y ∈ yearRuns ys ↔ y ∈ ys := by
  induction ys using List.reverseRecOn with
  | nil => simp [yearRuns]
  | append_singleton ys y ih =>
    obtain ⟨hys, _, hle⟩ := List.pairwise_append.mp hs
    obtain ⟨hpw, hmem⟩ := ih hys
    rw [yearRuns_append_singleton]
    unfold appendYear
    by_cases hlast : (yearRuns ys).getLast? = some y
    · rw [if_pos hlast]
      refine ⟨hpw, fun x => ?_⟩
      have hyin : y ∈ yearRuns ys := List.mem_of_getLast?_eq_some hlast
      rw [List.mem_append, List.mem_singleton, hmem]
      constructor
      · intro h; exact Or.inl h
      · rintro (h | h)
        · exact h
        · rw [h]; exact (hmem y).mp hyin
    · rw [if_neg hlast]
      refine ⟨?_, fun x => by rw [List.mem_append, List.mem_append, hmem]⟩
      rw [List.pairwise_append]
      refine ⟨hpw, List.pairwise_singleton _ _, ?_⟩
      intro x hx z hz
      rw [List.mem_singleton.mp hz]
      have hxy : x ≤ y := hle x ((hmem x).mp hx) y (List.mem_singleton_self y)
      rcases lt_or_eq_of_le hxy with h | h
      · exact h
      · exfalso
        cases hc : (yearRuns ys).getLast? with
        | none =>
          have hnil : yearRuns ys = [] := List.getLast?_eq_none_iff.mp hc
          rw [hnil] at hx
          simp at hx
        | some c =>
          have h1 : x ≤ c := le_getLast_of_pairwise_lt _ c hpw hc x hx
          have hcin : c ∈ ys := (hmem c).mp (List.mem_of_getLast?_eq_some hc)
          have h2 : c ≤ y := hle c hcin y (List.mem_singleton_self y)
          have hcy : c = y := le_antisymm h2 (h ▸ h1)
          rw [hcy] at hc
          exact hlast hc

/-! ## Annual aggregates -/

theorem map_Year_replace_last (list : List Performance.AnnualAggregate)
    (c c2 : Performance.AnnualAggregate) (hc : list.getLast? = some c) (hy : c2.Year = c.Year) :
    (list.dropLast ++ [c2]).map (fun a => a.Year) = list.map (fun a => a.Year) := by
  have hsplit : list.dropLast ++ [c] = list := List.dropLast_append_getLast? c hc
  conv_rhs => rw [← hsplit]
  simp [hy]

theorem map_Year_yearStep (ops : Performance.AggregateOps) (hops : ops.KeepsYear) (cost : ℚ)
    (list : List Performance.AnnualAggregate) (tr : Trade) :
    (Performance.yearStep ops cost list tr).map (fun a => a.Year)
      = appendYear (list.map (fun a => a.Year)) tr.ExitDate.year := by
  obtain ⟨hnew, hadd, hcons⟩ := hops
  unfold Performance.yearStep appendYear
  rw [List.getLast?_map]
  cases hc : list.getLast? with
  | none =>
    have hnil : list = [] := List.getLast?_eq_none_iff.mp hc
    simp [hnil, hnew]
  | some c =>
    by_cases hy : c.Year = tr.ExitDate.year
    · simp only [hy, if_true, Option.map_some']
      exact map_Year_replace_last list c _ hc (hadd c tr cost)
    · have hy2 : ¬ some c.Year = some tr.ExitDate.year := fun h => hy (Option.some.inj h)
      simp only [hy, if_false, Option.map_some', hy2]
      rw [List.map_append, map_Year_replace_last list c _ hc (hcons c)]
      simp [hnew]

theorem foldl_yearStep (ops : Performance.AggregateOps) (hops : ops.KeepsYear) (cost : ℚ)
    (trades : List Trade) (acc : List Performance.AnnualAggregate) :
    (trades.foldl (Performance.yearStep ops cost) acc).map (fun a => a.Year)
      = (trades.map (fun t => t.ExitDate.year)).foldl appendYear (acc.map (fun a => a.Year)) := by
  induction trades generalizing acc with
  | nil => rfl
  | cons t ts ih =>
    rw [List.foldl_cons, ih, map_Year_yearStep ops hops]
    rfl

theorem calcYearAggregates_map_Year (ops : Performance.AggregateOps) (hops : ops.KeepsYear)
    (ts : TradingSystem) (trades : List Trade) :
    (Performance.calcYearAggregates ops ts trades).map (fun a => a.Year)
      = yearRuns (trades.map (fun t => t.ExitDate.year)) := by
  have hfold := foldl_yearStep ops hops ts.CostPerOperation trades []
  unfold Performance.calcYearAggregates
  simp only []
  cases hc : (trades.foldl (Performance.yearStep ops ts.CostPerOperation) []).getLast? with
  | none => simpa [yearRuns] using hfold
  | some c =>
    simp only []
    rw [map_Year_replace_last _ c _ hc (hops.2.2 c), hfold]
    rfl

/-- C28: the years of the list `calcYearAggregates` produces are the exit years
of the trades, a year being listed once for each run of consecutive trades
with that exit year (an aggregate is opened exactly when the exit year differs
from the year of the current aggregate); for trades ordered by exit date they
are the distinct exit years, each once, in strictly ascending order; and the
list is empty for an empty trade list. -/
theorem calcYearAggregates_years (ops : Performance.AggregateOps) (hops : ops.KeepsYear)
    (ts : TradingSystem) (trades : List Trade) :
    (Performance.calcYearAggregates ops ts trades).map (fun a => a.Year)
      = yearRuns (trades.map (fun t => t.ExitDate.year)) ∧
    Performance.calcYearAggregates ops ts [] = [] ∧
    ((trades.map (fun t => t.ExitDate.year)).Pairwise (· ≤ ·) →
      ((Performance.calcYearAggregates ops ts trades).map (fun a => a.Year)).Pairwise (· < ·) ∧
      ∀ y, y ∈ (Performance.calcYearAggregates ops ts trades).map (fun a => a.Year)
        ↔ ∃ t ∈ trades, t.ExitDate.year = y) := by
  refine ⟨calcYearAggregates_map_Year ops hops ts trades, rfl, ?_⟩
  intro hs
  rw [calcYearAggregates_map_Year ops hops ts trades]
  obtain ⟨hpw, hmem⟩ := yearRuns_of_sorted _ hs
  refine ⟨hpw, fun y => ?_⟩
  rw [hmem, List.mem_map]

theorem sampleOps_keepsYear : sampleOps.KeepsYear :=
  ⟨fun _ _ => rfl, fun _ _ _ => rfl, fun _ => rfl⟩

/-- C28 on two trades closed in 2024 followed by one closed in 2025. -/
theorem calcYearAggregates_years_witness :
    ((Performance.calcYearAggregates sampleOps sampleSystem
        [longTrade 1, shortTrade 2, laterTrade 3]).map (fun a => a.Year)).Pairwise (· < ·) ∧
    ∀ y, y ∈ (Performance.calcYearAggregates sampleOps sampleSystem
        [longTrade 1, shortTrade 2, laterTrade 3]).map (fun a => a.Year)
      ↔ ∃ t ∈ [longTrade 1, shortTrade 2, laterTrade 3], t.ExitDate.year = y :=
  (calcYearAggregates_years sampleOps sampleOps_keepsYear sampleSystem
    [longTrade 1, shortTrade 2, laterTrade 3]).2.2 (by decide)

/-! ## Year-over-year rolling buckets -/

theorem map_replace_last {α β : Type} (f : α → β) (l : List α) (c c2 : α)
    (hc : l.getLast? = some c) (hf : f c2 = f c) :
    (l.dropLast ++ [c2]).map f = l.map f := by
  have hsplit : l.dropLast ++ [c] = l := List.dropLast_append_getLast? c hc
  conv_rhs => rw [← hsplit]
  simp [hf]

theorem updateBucket_isSome (buckets : List Performance.RollingInfo) (index : Int) (tr : Trade)
    (costPerOper : ℚ) (h0 : 0 ≤ index) (h1 : index < (buckets.length : Int)) :
    ∃ b, Performance.updateBucket buckets index tr costPerOper = some b ∧
      b.length = buckets.length := by
  have hlt : index.toNat < buckets.length := by omega
  unfold Performance.updateBucket
  rw [if_pos ⟨h0, h1⟩, List.getElem?_eq_getElem hlt]
  exact ⟨_, rfl, List.length_set _ _ _⟩

theorem updateYoY_spec (list : List Performance.YoYRolling) (year : Int) (tr : Trade)
    (slot : Int) (costPerOper : ℚ) (slots : Nat) (h0 : 0 ≤ slot) (h1 : slot < (slots : Int))
    (hdata : ∀ e ∈ list, e.Data.length = slots) :
    ∃ list2, Performance.updateYoY list year tr slot costPerOper slots = some list2 ∧
      list2.map (fun e => e.Year) = appendYear (list.map (fun e => e.Year)) year ∧
      ∀ e ∈ list2, e.Data.length = slots := by
  have key : ∀ list1 : List Performance.YoYRolling,
      list1.map (fun e => e.Year) = appendYear (list.map (fun e => e.Year)) year →
      (∀ e ∈ list1, e.Data.length = slots) →
      ∃ list2,
        (match list1.getLast? with
          | none => none
          | some yoy =>
            match Performance.updateBucket yoy.Data slot tr costPerOper with
            | none => none
            | some data => some (list1.dropLast ++ [{ yoy with Data := data }])) = some list2 ∧
        list2.map (fun e => e.Year) = appendYear (list.map (fun e => e.Year)) year ∧
        ∀ e ∈ list2, e.Data.length = slots := by
    intro list1 hyears hsizes
    have hlast : (list1.map (fun e => e.Year)).getLast? = some year := by
      rw [hyears]; exact getLast?_appendYear _ _
    rw [List.getLast?_map] at hlast
    cases hc : list1.getLast? with
    | none => rw [hc] at hlast; cases hlast
    | some yoy =>
      have hyin : yoy ∈ list1 := List.mem_of_getLast?_eq_some hc
      obtain ⟨data, hdata2, hlen⟩ := updateBucket_isSome yoy.Data slot tr costPerOper h0
        (by rw [hsizes yoy hyin]; exact h1)
      simp only [hdata2]
      refine ⟨_, rfl, ?_, ?_⟩
      · have hrep := map_replace_last (fun e : Performance.YoYRolling => e.Year) list1 yoy
          { Year := yoy.Year, Data := data } hc rfl
        rw [hrep, hyears]
      · intro e he
        rcases List.mem_append.mp he with h | h
        · exact hsizes e (List.mem_of_mem_dropLast h)
        · rw [List.mem_singleton.mp h]
          simp only [hlen]
          exact hsizes yoy hyin
  unfold Performance.updateYoY
  simp only []
  apply key
  · unfold appendYear
    rw [List.getLast?_map]
    cases hc : list.getLast? with
    | none => simp
    | some last =>
      by_cases hy : last.Year = year
      · simp [hy]
      · have hy2 : ¬ some last.Year = some year := fun h => hy (Option.some.inj h)
        simp [hy, hy2]
  · intro e he
    cases hc : list.getLast? with
    | none =>
      rw [hc] at he
      simp only [List.mem_append, List.mem_singleton] at he
      rcases he with h | h
      · exact hdata e h
      · rw [h]; simp
    | some last =>
      rw [hc] at he
      by_cases hy : last.Year ≠ year
      · simp only [hy, if_true, List.mem_append, List.mem_singleton, ne_eq, not_false_eq_true] at he
        rcases he with h | h
        · exact hdata e h
        · rw [h]; simp
      · simp only [hy, if_false] at he
        exact hdata e he

theorem rollingStep_spec (costPerOper : ℚ) (r : Performance.Rolling) (tr : Trade)
    (hr : r.Sized) (hv : tr.EntryDate.Valid) :
    ∃ r2, Performance.rollingStep costPerOper (some r) tr = some r2 ∧ r2.Sized ∧
      r2.DayYoY.map (fun e => e.Year)
        = appendYear (r.DayYoY.map (fun e => e.Year)) tr.EntryDate.year ∧
      r2.MonthYoY.map (fun e => e.Year)
        = appendYear (r.MonthYoY.map (fun e => e.Year)) tr.EntryDate.year := by
  obtain ⟨hd, hm, hdy, hmy⟩ := hr
  obtain ⟨hw, hm1, hm12⟩ := hv
  have hdow0 : (0 : Int) ≤ (tr.EntryDate.weekday : Int) := by omega
  have hdow7 : (tr.EntryDate.weekday : Int) < ((7 : Nat) : Int) := by omega
  have hmon0 : (0 : Int) ≤ (tr.EntryDate.month : Int) - 1 := by omega
  have hmon12 : (tr.EntryDate.month : Int) - 1 < ((12 : Nat) : Int) := by omega
  obtain ⟨daily, hdaily, hdlen⟩ := updateBucket_isSome r.Daily (tr.EntryDate.weekday : Int) tr
    costPerOper hdow0 (by rw [hd]; exact hdow7)
  obtain ⟨monthly, hmonthly, hmlen⟩ := updateBucket_isSome r.Monthly
    ((tr.EntryDate.month : Int) - 1) tr costPerOper hmon0 (by rw [hm]; exact hmon12)
  obtain ⟨dayYoY, hday, hdayY, hdayS⟩ := updateYoY_spec r.DayYoY tr.EntryDate.year tr
    (tr.EntryDate.weekday : Int) costPerOper 7 hdow0 hdow7 hdy
  obtain ⟨monthYoY, hmonth, hmonthY, hmonthS⟩ := updateYoY_spec r.MonthYoY tr.EntryDate.year tr
    ((tr.EntryDate.month : Int) - 1) costPerOper 12 hmon0 hmon12 hmy
  refine ⟨{ Daily := daily, Monthly := monthly, DayYoY := dayYoY, MonthYoY := monthYoY }, ?_,
    ⟨by rw [hdlen, hd], by rw [hmlen, hm], hdayS, hmonthS⟩, hdayY, hmonthY⟩
  simp only [Performance.rollingStep, hdaily, hmonthly, hday, hmonth]

theorem foldl_rollingStep (costPerOper : ℚ) (trades : List Trade)
    (hv : ∀ t ∈ trades, t.EntryDate.Valid) (r : Performance.Rolling) (hr : r.Sized) :
    ∃ r2, trades.foldl (Performance.rollingStep costPerOper) (some r) = some r2 ∧ r2.Sized ∧
      r2.DayYoY.map (fun e => e.Year)
        = (trades.map (fun t => t.EntryDate.year)).foldl appendYear
            (r.DayYoY.map (fun e => e.Year)) ∧
      r2.MonthYoY.map (fun e => e.Year)
        = (trades.map (fun t => t.EntryDate.year)).foldl appendYear
            (r.MonthYoY.map (fun e => e.Year)) := by
  induction trades generalizing r with
  | nil => exact ⟨r, rfl, hr, rfl, rfl⟩
  | cons t ts ih =>
    obtain ⟨r1, h1, hs1, hd1, hm1⟩ :=
      rollingStep_spec costPerOper r t hr (hv t (List.mem_cons_self _ _))
    obtain ⟨r2, h2, hs2, hd2, hm2⟩ := ih (fun x hx => hv x (List.mem_cons_of_mem _ hx)) r1 hs1
    refine ⟨r2, by rw [List.foldl_cons, h1, h2], hs2, ?_, ?_⟩
    · rw [hd2, hd1]; rfl
    · rw [hm2, hm1]; rfl

theorem zeroRolling_sized : Performance.zeroRolling.Sized := by
  refine ⟨by simp [Performance.zeroRolling], by simp [Performance.zeroRolling], ?_, ?_⟩ <;>
    intro e he <;> simp [Performance.zeroRolling] at he

/-- C29: on a fresh response `calcRolling` reads no bucket out of range; the
years of the day-of-week and of the month year-over-year lists are the entry
years of the trades, a year being listed once for each run of consecutive
trades of that year; every entry of the first list has 7 buckets and every
entry of the second 12; and for trades in entry-date order both lists hold the
distinct entry years, each once, in strictly ascending order. -/
theorem calcRolling_yoy (ts : TradingSystem) (trades : List Trade)
    (hv : ∀ t ∈ trades, t.EntryDate.Valid) :
    ∃ r, Performance.calcRolling ts trades Performance.zeroRolling = some r ∧
      r.DayYoY.map (fun e => e.Year) = yearRuns (trades.map (fun t => t.EntryDate.year)) ∧
      r.MonthYoY.map (fun e => e.Year) = yearRuns (trades.map (fun t => t.EntryDate.year)) ∧
      (∀ e ∈ r.DayYoY, e.Data.length = 7) ∧
      (∀ e ∈ r.MonthYoY, e.Data.length = 12) ∧
      ((trades.map (fun t => t.EntryDate.year)).Pairwise (· ≤ ·) →
        (r.DayYoY.map (fun e => e.Year)).Pairwise (· < ·) ∧
        (r.MonthYoY.map (fun e => e.Year)).Pairwise (· < ·) ∧
        (∀ y, y ∈ r.DayYoY.map (fun e => e.Year) ↔ ∃ t ∈ trades, t.EntryDate.year = y) ∧
        (∀ y, y ∈ r.MonthYoY.map (fun e => e.Year) ↔ ∃ t ∈ trades, t.EntryDate.year = y)) := by
  obtain ⟨r, hr, hs, hd, hm⟩ :=
    foldl_rollingStep ts.CostPerOperation trades hv Performance.zeroRolling zeroRolling_sized
  have hd2 : r.DayYoY.map (fun e => e.Year) = yearRuns (trades.map (fun t => t.EntryDate.year)) :=
    hd
  have hm2 : r.MonthYoY.map (fun e => e.Year)
      = yearRuns (trades.map (fun t => t.EntryDate.year)) := hm
  refine ⟨r, hr, hd2, hm2, hs.2.2.1, hs.2.2.2, ?_⟩
  intro hsorted
  obtain ⟨hpw, hmem⟩ := yearRuns_of_sorted _ hsorted
  rw [hd2, hm2]
  refine ⟨hpw, hpw, fun y => ?_, fun y => ?_⟩ <;> rw [hmem, List.mem_map]

theorem sample_trades_valid :
    ∀ t ∈ [longTrade 1, shortTrade 2, laterTrade 3], t.EntryDate.Valid := by
  intro t ht
  simp only [List.mem_cons, List.mem_singleton, List.not_mem_nil, or_false] at ht
  rcases ht with rfl | rfl | rfl <;>
    simp [Time.Valid, longTrade, shortTrade, laterTrade, sampleDay, laterDay]

/-- C29 on two trades entered in 2024 followed by one entered in 2025. -/
theorem calcRolling_yoy_witness :
    ∃ r, Performance.calcRolling sampleSystem [longTrade 1, shortTrade 2, laterTrade 3]
        Performance.zeroRolling = some r ∧
      (∀ e ∈ r.DayYoY, e.Data.length = 7) ∧
      (∀ e ∈ r.MonthYoY, e.Data.length = 12) ∧
      (r.DayYoY.map (fun e => e.Year)).Pairwise (· < ·) ∧
      (r.MonthYoY.map (fun e => e.Year)).Pairwise (· < ·) := by
  obtain ⟨r, hr, _, _, h7, h12, hsorted⟩ :=
    calcRolling_yoy sampleSystem [longTrade 1, shortTrade 2, laterTrade 3] sample_trades_valid
  obtain ⟨hd, hm, _, _⟩ := hsorted (by decide)
  exact ⟨r, hr, h7, h12, hd, hm⟩

/-! ## `CalcAverageTrade` and `CalcWinningPercentage` -/

theorem filterSelects_isSome (f : List Int) (i : Nat) (h : i < f.length) :
    filterSelects (some f) i = some (decide (f[i] = 1)) := by
  simp [filterSelects, List.getElem?_eq_getElem h]

/-- The selection test never fails on an index the filter covers. -/
theorem filterSelects_covered (filter : Option (List Int)) (i : Nat)
    (h : ∀ f, filter = some f → i < f.length) :
    ∃ b, filterSelects filter i = some b := by
  cases filter with
  | none => exact ⟨true, rfl⟩
  | some f => exact ⟨_, filterSelects_isSome f i (h f rfl)⟩

/-- The loop of `CalcAverageTrade` sums and counts the selected non-zero profits. -/
theorem foldl_avgStep (filter : Option (List Int)) (l : List ℚ) (n : Nat) (s : AvgState)
    (h : ∀ f, filter = some f → n + l.length ≤ f.length) :
    (l.enumFrom n).foldl (avgStep filter) (some s)
      = some
          { sum := s.sum + (((l.enumFrom n).filter
              (fun e => decide (e.2 ≠ 0) && (filterSelects filter e.1).getD false)).map Prod.snd).sum
            num := s.num + ((((l.enumFrom n).filter
              (fun e => decide (e.2 ≠ 0) && (filterSelects filter e.1).getD false)).length : ℕ) : ℚ) } := by
  induction l generalizing n s with
  | nil => simp
  | cons x xs ih =>
    have hx : ∀ f, filter = some f → n < f.length := fun f hf => by
      have := h f hf; simp at this; omega
    have hxs : ∀ f, filter = some f → (n + 1) + xs.length ≤ f.length := fun f hf => by
      have := h f hf; simp at this; omega
    obtain ⟨b, hb⟩ := filterSelects_covered filter n hx
    simp only [List.enumFrom_cons, List.foldl_cons]
    by_cases h0 : x = 0
    · simp only [avgStep, h0, ne_eq, not_true_eq_false, if_false]
      rw [ih (n + 1) s hxs]
      simp [List.filter_cons]
    · cases b with
      | true =>
        simp only [avgStep, ne_eq, h0, not_false_eq_true, if_true, hb]
        rw [ih (n + 1) _ hxs]
        simp [List.filter_cons, h0, hb]
        constructor <;> ring
      | false =>
        simp only [avgStep, ne_eq, h0, not_false_eq_true, if_true, hb]
        rw [ih (n + 1) _ hxs]
        simp [List.filter_cons, h0, hb]

/-- `CalcAverageTrade` in closed form: the mean of the selected non-zero profits,
scaled by `100`, stripped of its fraction and scaled back. -/
theorem CalcAverageTrade_eq (profits : List ℚ) (filter : Option (List Int))
    (hc : filterCovers profits filter) :
    CalcAverageTrade profits filter
      = if (selectedProfits profits filter).length = 0 then none
        else some (((truncInt ((selectedProfits profits filter).sum * 100
            / ((selectedProfits profits filter).length : ℚ)) : Int) : ℚ) / 100) := by
  have h : ∀ f, filter = some f → 0 + profits.length ≤ f.length := by
    intro f hf; subst hf; simpa [filterCovers] using hc
  unfold CalcAverageTrade
  rw [List.enum, foldl_avgStep filter profits 0 _ h]
  simp only [selectedProfits, List.enum, zero_add, List.length_map, Nat.cast_eq_zero]

theorem truncInt_of_nonneg (x : ℚ) (hx : 0 ≤ x) : truncInt x = ⌊x⌋ := by
  simp [truncInt, hx]

theorem truncInt_eq_of_neg (x : ℚ) (k : ℤ) (hx : x < 0) (h : (k : ℚ) - 1 < x ∧ x ≤ (k : ℚ)) :
    truncInt x = k := by
  rw [truncInt, if_neg (not_le.mpr hx)]
  exact Int.ceil_eq_iff.mpr h

/-- With a non-negative sum of the selected profits, `CalcAverageTrade` agrees
with `Trunc2d` of their mean. -/
theorem CalcAverageTrade_of_nonneg_sum (profits : List ℚ) (filter : Option (List Int))
    (hc : filterCovers profits filter) (hsel : selectedProfits profits filter ≠ [])
    (hsum : 0 ≤ (selectedProfits profits filter).sum) :
    CalcAverageTrade profits filter
      = some (Trunc2d ((selectedProfits profits filter).sum
          / ((selectedProfits profits filter).length : ℚ))) := by
  rw [CalcAverageTrade_eq profits filter hc, if_neg (by simpa using hsel)]
  have hq : 0 ≤ (selectedProfits profits filter).sum * 100
      / ((selectedProfits profits filter).length : ℚ) := by positivity
  rw [truncInt_of_nonneg _ hq, Trunc2d]
  congr 4
  ring

/-- C31 is not met by the code: on the single profit `-0.125` (nil filter) the
mean is `-0.125`, `CalcAverageTrade` drops the fraction of `-12.5` toward zero
and returns `-0.12`, whereas the floor-based `Trunc2d` of the mean is `-0.13`. -/
theorem CalcAverageTrade_negative_mean :
    selectedProfits [-1 / 8] none = [-1 / 8] ∧
    CalcAverageTrade [-1 / 8] none = some (-12 / 100) ∧
    Trunc2d ((-1 / 8) / 1) = -13 / 100 ∧
    CalcAverageTrade [-1 / 8] none ≠ some (Trunc2d ((-1 / 8) / 1)) := by
  have hsel : selectedProfits [-1 / 8] none = [-1 / 8] := by
    simp [selectedProfits, filterSelects, List.enum, List.enumFrom]
  have hcalc : CalcAverageTrade [-1 / 8] none = some (-12 / 100) := by
    rw [CalcAverageTrade_eq _ _ (by simp [filterCovers]), hsel]
    have ht : truncInt ((([-1 / 8] : List ℚ)).sum * 100 / ((([-1 / 8] : List ℚ)).length : ℚ))
        = -12 := by
      apply truncInt_eq_of_neg <;> norm_num
    rw [ht]
    norm_num
  have htr : Trunc2d ((-1 / 8) / 1) = -13 / 100 := by
    have := Trunc2d_eq ((-1 / 8) / 1) (-13) (by norm_num)
    rw [this]; norm_num
  refine ⟨hsel, hcalc, htr, ?_⟩
  rw [hcalc, htr]
  norm_num
/-- The loop of `CalcWinningPercentage` counts the selected non-zero profits and
the positive ones among them. -/
theorem foldl_winStep (filter : Option (List Int)) (l : List ℚ) (n : Nat) (s : WinState)
    (h : ∀ f, filter = some f → n + l.length ≤ f.length) :
    (l.enumFrom n).foldl (winStep filter) (some s)
      = some
          { tot := s.tot + (((l.enumFrom n).filter
              (fun e => decide (e.2 ≠ 0) && (filterSelects filter e.1).getD false)).map
                Prod.snd).length
            pos := s.pos + ((((l.enumFrom n).filter
              (fun e => decide (e.2 ≠ 0) && (filterSelects filter e.1).getD false)).map
                Prod.snd).filter (fun p => decide (0 < p))).length } := by
  induction l generalizing n s with
  | nil => simp
  | cons x xs ih =>
    have hx : ∀ f, filter = some f → n < f.length := fun f hf => by
      have := h f hf; simp at this; omega
    have hxs : ∀ f, filter = some f → (n + 1) + xs.length ≤ f.length := fun f hf => by
      have := h f hf; simp at this; omega
    obtain ⟨b, hb⟩ := filterSelects_covered filter n hx
    simp only [List.enumFrom_cons, List.foldl_cons]
    by_cases h0 : x = 0
    · simp only [winStep, h0, ne_eq, not_true_eq_false, if_false]
      rw [ih (n + 1) s hxs]
      simp [List.filter_cons]
    · cases b with
      | true =>
        simp only [winStep, ne_eq, h0, not_false_eq_true, if_true, hb]
        rw [ih (n + 1) _ hxs]
        by_cases hp : 0 < x
        · simp [List.filter_cons, h0, hb, hp]
          constructor <;> omega
        · simp [List.filter_cons, h0, hb, hp]
          omega
      | false =>
        simp only [winStep, ne_eq, h0, not_false_eq_true, if_true, hb]
        rw [ih (n + 1) _ hxs]
        simp [List.filter_cons, h0, hb]

/-- `CalcWinningPercentage` in closed form. -/
theorem CalcWinningPercentage_eq (profits : List ℚ) (filter : Option (List Int))
    (hc : filterCovers profits filter) :
    CalcWinningPercentage profits filter
      = if (selectedProfits profits filter).length = 0 then some 0
        else some ((((((selectedProfits profits filter).filter (fun p => decide (0 < p))).length
            * 10000 / (selectedProfits profits filter).length : Nat) : ℚ)) / 100) := by
  have h : ∀ f, filter = some f → 0 + profits.length ≤ f.length := by
    intro f hf; subst hf; simpa [filterCovers] using hc
  unfold CalcWinningPercentage
  rw [List.enum, foldl_winStep filter profits 0 _ h]
  simp only [selectedProfits, List.enum, zero_add]

/-- C38: for a filter that is nil or at least as long as the profit list,
`CalcWinningPercentage` returns a value: `0` when no non-zero profit is
selected, otherwise `floor(10000 * pos / tot) / 100`, `tot` counting the
selected non-zero profits and `pos` the positive ones among them; the value
lies in `[0, 100]` and is `100` exactly when `tot > 0` and `pos = tot`. -/
theorem CalcWinningPercentage_spec (profits : List ℚ) (filter : Option (List Int))
    (hc : filterCovers profits filter) :
    ∃ w, CalcWinningPercentage profits filter = some w ∧
      ((selectedProfits profits filter).length = 0 → w = 0) ∧
      ((selectedProfits profits filter).length ≠ 0 →
        w = ((⌊(10000 * (((selectedProfits profits filter).filter
              (fun p => decide (0 < p))).length : ℚ))
            / ((selectedProfits profits filter).length : ℚ)⌋ : ℤ) : ℚ) / 100) ∧
      0 ≤ w ∧ w ≤ 100 ∧
      (w = 100 ↔ 0 < (selectedProfits profits filter).length ∧
        ((selectedProfits profits filter).filter (fun p => decide (0 < p))).length
          = (selectedProfits profits filter).length) := by
  rw [CalcWinningPercentage_eq profits filter hc]
  generalize hsel : selectedProfits profits filter = sel
  have hle : (sel.filter (fun p => decide (0 < p))).length ≤ sel.length := List.length_filter_le _ _
  generalize (sel.filter (fun p => decide (0 < p))).length = pos at hle
  generalize sel.length = tot at hle
  by_cases ht : tot = 0
  · subst ht
    refine ⟨0, by simp, fun _ => rfl, fun h => absurd rfl h, le_refl _, by norm_num, ?_⟩
    constructor
    · intro h; norm_num at h
    · rintro ⟨h, _⟩; omega
  · have htpos : 0 < tot := Nat.pos_of_ne_zero ht
    have hq : pos * 10000 / tot ≤ 10000 := by
      apply Nat.div_le_of_le_mul
      nlinarith
    refine ⟨_, by rw [if_neg ht], fun h => absurd h ht, fun _ => ?_, by positivity, ?_, ?_⟩
    · have := Rat.floor_natCast_div_natCast (10000 * pos) tot
      push_cast at this
      rw [this]
      have h2 : ((10000 : ℤ) * (pos : ℤ) / (tot : ℤ)) = (((pos * 10000 / tot : ℕ)) : ℤ) := by
        push_cast; rw [mul_comm]
      rw [h2]
      push_cast
      rfl
    · have : (((pos * 10000 / tot : ℕ)) : ℚ) ≤ 10000 := by exact_mod_cast hq
      linarith
    · constructor
      · intro h
        have h1 : (((pos * 10000 / tot : ℕ)) : ℚ) = 10000 := by linarith
        have h2 : pos * 10000 / tot = 10000 := by exact_mod_cast h1
        refine ⟨htpos, ?_⟩
        have h3 : 10000 * tot ≤ pos * 10000 := (Nat.le_div_iff_mul_le htpos).mp (le_of_eq h2.symm)
        omega
      · rintro ⟨_, h⟩
        subst h
        rw [Nat.mul_div_cancel_left _ htpos]
        norm_num

/-- C38 on the profits `1, -2, 0, 3` with the filter `1, 1, 1, 0`: two non-zero
profits are selected, one of them positive, and the result is `50`. -/
theorem CalcWinningPercentage_spec_witness :
    ∃ w, CalcWinningPercentage [1, -2, 0, 3] (some [1, 1, 1, 0]) = some w ∧ w = 50 ∧
      0 ≤ w ∧ w ≤ 100 := by
  obtain ⟨w, hw, _, _, h0, h100, _⟩ :=
    CalcWinningPercentage_spec [1, -2, 0, 3] (some [1, 1, 1, 0]) (by simp [filterCovers])
  refine ⟨w, hw, ?_, h0, h100⟩
  have hv : CalcWinningPercentage [1, -2, 0, 3] (some [1, 1, 1, 0]) = some 50 := by
    simp [CalcWinningPercentage, winStep, filterSelects, List.enum, List.enumFrom]
    norm_num
  rw [hv] at hw
  exact (Option.some.inj hw).symm

/-! ## The risk unit and the R-multiples -/

/-- A risk `CalcRisk` returns is the magnitude of a negative gross profit of the
trade list that no other negative gross profit of the list outnumbers. -/
theorem CalcRisk_ok_modal (range : GoMap ℚ Nat → List (ℚ × Nat)) (hr : IsMapRange range)
    (trades : List Trade) (r : ℚ) (h : CalcRisk range trades = .ok r) :
    0 < r ∧ 0 < occurrences trades (-r) ∧
      ∀ v, v < 0 → occurrences trades v ≤ occurrences trades (-r) := by
  by_cases hloss : ∃ t ∈ trades, t.GrossProfit < 0
  · obtain ⟨pre, loss, count, post, hsplit, hpre, hpost, _, hres⟩ :=
      CalcRisk_visit range hr trades hloss
    have hin : (loss, count) ∈ range (lossCounts trades) := by rw [hsplit]; simp
    obtain ⟨hneg, hpos, hcount⟩ := (lossCounts_mem_iff _ _ _).mp ((hr _).mem_iff.mp hin)
    have hrl : r = |loss| := by
      rw [hres] at h
      exact (Except.ok.inj h).symm
    have habs : -r = loss := by rw [hrl, abs_of_neg hneg, neg_neg]
    refine ⟨by rw [hrl]; exact abs_pos.mpr hneg.ne, by rw [habs, ← hcount]; exact hpos, ?_⟩
    intro v hv
    rw [habs, ← hcount]
    by_cases hocc : 0 < occurrences trades v
    · have hvin : (v, occurrences trades v) ∈ range (lossCounts trades) :=
        (hr _).mem_iff.mpr ((lossCounts_mem_iff _ _ _).mpr ⟨hv, hocc, rfl⟩)
      rw [hsplit] at hvin
      rcases List.mem_append.mp hvin with h1 | h1
      · exact (hpre _ h1).le
      · rcases List.mem_cons.mp h1 with h1 | h1
        · rw [Prod.mk.injEq] at h1; exact h1.2.le
        · exact hpost _ h1
    · omega
  · have hno : ∀ t ∈ trades, ¬ t.GrossProfit < 0 := fun t ht hlt => hloss ⟨t, ht, hlt⟩
    rw [CalcRisk_no_loss range hr trades hno] at h
    cases h

/-- `CalcRMultiple` in closed form. -/
theorem CalcRMultiple_eq (trades : List Trade) (tradeType : String) (risk costPerOper : ℚ) :
    CalcRMultiple trades tradeType risk costPerOper
      = (trades.filter (fun t => decide (tradeType = TradeTypeAll ∨ tradeType = t.TradeType))).map
          (fun t => (t.GrossProfit - 2 * costPerOper) / risk) := by
  rw [CalcRMultiple, foldl_rMultipleStep, List.nil_append]

/-- C32: a risk unit that `CalcRisk` returns is strictly positive; dividing by
it, as `CalcRMultiple` and `calcQualityMetrics` do, is undone by multiplying
with it. -/
theorem CalcRisk_positive (range : GoMap ℚ Nat → List (ℚ × Nat)) (hr : IsMapRange range)
    (trades : List Trade) (r : ℚ) (h : CalcRisk range trades = .ok r) :
    0 < r ∧ r ≠ 0 ∧
      ∀ (tradeType : String) (costPerOper : ℚ),
        (CalcRMultiple trades tradeType r costPerOper).map (fun x => x * r)
          = (trades.filter
              (fun t => decide (tradeType = TradeTypeAll ∨ tradeType = t.TradeType))).map
              (fun t => t.GrossProfit - 2 * costPerOper) := by
  have hpos := (CalcRisk_ok_modal range hr trades r h).1
  refine ⟨hpos, hpos.ne', ?_⟩
  intro tradeType costPerOper
  rw [CalcRMultiple_eq, List.map_map]
  apply List.map_congr_left
  intro t _
  simp only [Function.comp]
  exact div_mul_cancel₀ _ hpos.ne'

/-- C32 on the losses `-5` and `-3`: the risk unit is `5`, a positive number. -/
theorem CalcRisk_positive_witness :
    CalcRisk insertionOrder [longTrade (-5), longTrade (-3)] = .ok 5 ∧ (0 : ℚ) < 5 ∧ (5 : ℚ) ≠ 0 :=
  ⟨CalcRisk_twoLosses_insertionOrder,
   (CalcRisk_positive insertionOrder isMapRange_insertionOrder _ 5
      CalcRisk_twoLosses_insertionOrder).1,
   (CalcRisk_positive insertionOrder isMapRange_insertionOrder _ 5
      CalcRisk_twoLosses_insertionOrder).2.1⟩

/-! ## Net equity against gross equity -/

/-- Lowering every profit by `d` lowers the value of the equity at index `i` by
`d * (i + 1)`; `k` is the gap between the two running values at the start. -/
theorem getElem?_equityFrom_map_sub (g : List ℚ) (v k d : ℚ) (i : Nat) :
    (equityFrom (v - k) (g.map (fun x => x - d)))[i]?
      = ((equityFrom v g)[i]?).map (fun x => x - k - d * ((i : ℚ) + 1)) := by
  induction g generalizing v k i with
  | nil => simp [equityFrom]
  | cons p ps ih =>
    cases i with
    | zero =>
      simp only [List.map_cons, equityFrom, List.getElem?_cons_zero, Option.map_some']
      congr 1
      push_cast
      ring
    | succ i =>
      simp only [List.map_cons, equityFrom, List.getElem?_cons_succ]
      have hv : v - k + (p - d) = (v + p) - (k + d) := by ring
      rw [hv, ih (v + p) (k + d) i]
      congr 1
      funext x
      push_cast
      ring

/-- In exact arithmetic the net equity at index `i` is the gross equity at index
`i` minus `2 * c * (i + 1)`, the two series have the same length, and the net
total profit is the gross total profit minus `2 * c` times the number of
trades. -/
theorem net_equity_offset (g : List ℚ) (c : ℚ) :
    (∀ i : Nat, (BuildEquity (BuildNetProfits g c))[i]?
        = ((BuildEquity g)[i]?).map (fun x => x - 2 * c * ((i : ℚ) + 1))) ∧
    (BuildEquity (BuildNetProfits g c)).length = (BuildEquity g).length ∧
    Performance.calcProfit (BuildEquity (BuildNetProfits g c))
      = Performance.calcProfit (BuildEquity g) - 2 * c * (g.length : ℚ) := by
  refine ⟨?_, ?_, ?_⟩
  · intro i
    rw [BuildNetProfits_eq_map, BuildEquity_eq_equityFrom, BuildEquity_eq_equityFrom]
    have h := getElem?_equityFrom_map_sub g 0 0 (2 * c) i
    rw [sub_zero] at h
    rw [h]
    congr 1
    funext x
    ring
  · rw [BuildNetProfits_eq_map, BuildEquity_eq_equityFrom, BuildEquity_eq_equityFrom,
      length_equityFrom, length_equityFrom, List.length_map]
  · rw [calcProfit_eq_getLast?, calcProfit_eq_getLast?, BuildNetProfits_eq_map,
      BuildEquity_eq_equityFrom, BuildEquity_eq_equityFrom, getLast?_equityFrom,
      getLast?_equityFrom, zero_add, zero_add]
    induction g with
    | nil => simp
    | cons p ps ih =>
      simp only [List.map_cons, List.sum_cons, List.length_cons]
      rw [ih]
      push_cast
      ring

/-! ## The partitions of `BuildGrossProfits` -/

theorem inPartition_all (t : Trade) : inPartition TradeTypeAll t = true := by
  simp [inPartition]

/-- C35: when every trade is Long or Short, the two slices of `BuildGrossProfits`
have the same length for every requested type, the All slices hold the exit
date and the gross profit of every trade in order, and the All profits are as
many as the Long and the Short profits together and have the same sum. -/
theorem BuildGrossProfits_partition (trades : List Trade)
    (h : ∀ t ∈ trades, t.TradeType = TradeTypeLong ∨ t.TradeType = TradeTypeShort) :
    (∀ tradeType : String, (BuildGrossProfits trades tradeType).1.length
        = (BuildGrossProfits trades tradeType).2.length) ∧
    BuildGrossProfits trades TradeTypeAll
      = (trades.map (fun t => t.ExitDate), trades.map (fun t => t.GrossProfit)) ∧
    (BuildGrossProfits trades TradeTypeAll).2.length
      = (BuildGrossProfits trades TradeTypeLong).2.length
        + (BuildGrossProfits trades TradeTypeShort).2.length ∧
    (BuildGrossProfits trades TradeTypeAll).2.sum
      = (BuildGrossProfits trades TradeTypeLong).2.sum
        + (BuildGrossProfits trades TradeTypeShort).2.sum := by
  have hall : trades.filter (inPartition TradeTypeAll) = trades :=
    List.filter_eq_self.mpr (fun t _ => inPartition_all t)
  refine ⟨?_, ?_, ?_, ?_⟩
  · intro tradeType
    rw [BuildGrossProfits_eq]
    simp [partitionGross]
  · rw [BuildGrossProfits_eq, partitionGross, hall]
  · simp only [BuildGrossProfits_eq, partitionGross, hall, List.length_map]
    induction trades with
    | nil => rfl
    | cons t ts ih =>
      have ih2 := ih (fun x hx => h x (List.mem_cons_of_mem _ hx))
        (List.filter_eq_self.mpr (fun x _ => inPartition_all x))
      rcases h t (List.mem_cons_self _ _) with ht | ht
      · have h1 : inPartition TradeTypeLong t = true := by simp [inPartition, ht]
        have h2 : inPartition TradeTypeShort t = false := by
          simp [inPartition, ht, TradeTypeLong, TradeTypeShort, TradeTypeAll]
        simp only [List.filter_cons, h1, h2, if_true, List.length_cons]
        simp only [Bool.false_eq_true, if_false]
        omega
      · have h1 : inPartition TradeTypeLong t = false := by
          simp [inPartition, ht, TradeTypeLong, TradeTypeShort, TradeTypeAll]
        have h2 : inPartition TradeTypeShort t = true := by simp [inPartition, ht]
        simp only [List.filter_cons, h1, h2, if_true, List.length_cons]
        simp only [Bool.false_eq_true, if_false]
        omega
  · simp only [BuildGrossProfits_eq, partitionGross, hall]
    induction trades with
    | nil => simp
    | cons t ts ih =>
      have ih2 := ih (fun x hx => h x (List.mem_cons_of_mem _ hx))
        (List.filter_eq_self.mpr (fun x _ => inPartition_all x))
      rcases h t (List.mem_cons_self _ _) with ht | ht
      · have h1 : inPartition TradeTypeLong t = true := by simp [inPartition, ht]
        have h2 : inPartition TradeTypeShort t = false := by
          simp [inPartition, ht, TradeTypeLong, TradeTypeShort, TradeTypeAll]
        simp only [List.filter_cons, h1, h2, if_true, List.map_cons, List.sum_cons]
        simp only [Bool.false_eq_true, if_false]
        rw [ih2]; ring
      · have h1 : inPartition TradeTypeLong t = false := by
          simp [inPartition, ht, TradeTypeLong, TradeTypeShort, TradeTypeAll]
        have h2 : inPartition TradeTypeShort t = true := by simp [inPartition, ht]
        simp only [List.filter_cons, h1, h2, if_true, List.map_cons, List.sum_cons]
        simp only [Bool.false_eq_true, if_false]
        rw [ih2]; ring

/-- C35 on a long trade of `1` followed by a short trade of `2`. -/
theorem BuildGrossProfits_partition_witness :
    BuildGrossProfits [longTrade 1, shortTrade 2] TradeTypeAll
      = ([sampleDay, sampleDay], [1, 2]) ∧
    (BuildGrossProfits [longTrade 1, shortTrade 2] TradeTypeAll).2.sum
      = (BuildGrossProfits [longTrade 1, shortTrade 2] TradeTypeLong).2.sum
        + (BuildGrossProfits [longTrade 1, shortTrade 2] TradeTypeShort).2.sum :=
  ⟨(BuildGrossProfits_partition [longTrade 1, shortTrade 2]
      (by simp [longTrade, shortTrade])).2.1,
   (BuildGrossProfits_partition [longTrade 1, shortTrade 2]
      (by simp [longTrade, shortTrade])).2.2.2⟩

/-! ## The fully aggregated cell of the quality grid -/

/-- C37: for the selector (DirectionAll, VolatilityAll) the R-multiples that
`calcQualityMetrics` collects are those of `CalcRMultiple` for the same trade
type, risk and cost, whatever the regime lookup, and the trade count of the
cell is the number of trades of the partition. -/
theorem aggregated_cell_is_CalcRMultiple (toIntDate : Time → Int) (stats : Stats)
    (trades : List Trade) (tradeType : String) (risk costPerOper : ℚ)
    (marketMap : GoMap Int DailyResult) :
    collectReturns toIntDate trades tradeType DirectionAll VolatilityAll risk costPerOper
        marketMap
      = CalcRMultiple trades tradeType risk costPerOper ∧
    (calcQualityMetrics toIntDate stats trades tradeType DirectionAll VolatilityAll risk
        costPerOper marketMap).Trades
      = (CalcRMultiple trades tradeType risk costPerOper).length ∧
    (calcQualityMetrics toIntDate stats trades tradeType DirectionAll VolatilityAll risk
        costPerOper marketMap).Trades
      = partitionCount trades tradeType := by
  have hfilter : trades.filter (selected toIntDate tradeType DirectionAll VolatilityAll marketMap)
      = trades.filter (fun t => decide (tradeType = TradeTypeAll ∨ tradeType = t.TradeType)) := by
    apply List.filter_congr
    intro t _
    simp only [selected, true_or, decide_True, Bool.and_true, decide_eq_decide]
    constructor
    · rintro (h | h)
      · exact Or.inr h.symm
      · exact Or.inl h
    · rintro (h | h)
      · exact Or.inr h
      · exact Or.inl h.symm
  have hpart : trades.filter (selected toIntDate tradeType DirectionAll VolatilityAll marketMap)
      = trades.filter (inPartition tradeType) := by
    apply List.filter_congr
    intro t _
    simp only [selected, inPartition, true_or, decide_True, Bool.and_true]
  have hlist : collectReturns toIntDate trades tradeType DirectionAll VolatilityAll risk
      costPerOper marketMap = CalcRMultiple trades tradeType risk costPerOper := by
    rw [collectReturns_eq, CalcRMultiple_eq, hfilter]
  refine ⟨hlist, ?_, ?_⟩
  · rw [calcQualityMetrics_Trades, hlist]
  · rw [calcQualityMetrics_Trades_filter, hpart, partitionCount]

/-! ## The invariant of the job table -/

/-- Removing table entries keeps the invariant as long as the processes of the
remaining entries are left as they are. -/
theorem TableInv_of_filter (s : Simulation.State) (hs : Simulation.TableInv s)
    (keep : Nat × Nat → Bool) (heap2 : List Simulation.Process) (queue2 : List Nat)
    (hheap : ∀ e ∈ s.m, keep e = true → heap2[e.2]? = s.heap[e.2]?) :
    Simulation.TableInv { heap := heap2, m := s.m.filter keep, queue := queue2 } := by
  obtain ⟨hk, hv, hp⟩ := hs
  refine ⟨?_, ?_, ?_⟩
  · exact hk.sublist ((List.filter_sublist s.m).map Prod.fst)
  · exact hv.sublist ((List.filter_sublist s.m).map Prod.snd)
  · intro e he
    obtain ⟨hem, hke⟩ := List.mem_filter.mp he
    obtain ⟨p, hp1, hp2⟩ := hp e hem
    exact ⟨p, by rw [hheap e hem hke]; exact hp1, hp2⟩

/-- `Stop` keeps the invariant: the process it flags is the one whose entry it
removes. -/
theorem TableInv_Stop (tsId : Nat) (s : Simulation.State) (hs : Simulation.TableInv s) :
    Simulation.TableInv (Simulation.Stop tsId s).2 := by
  unfold Simulation.Stop
  cases hget : s.m.get tsId with
  | none => exact hs
  | some sp =>
    simp only []
    refine TableInv_of_filter s hs (fun e => !decide (e.1 = tsId)) _ _ ?_
    intro e he hkeep
    have hne : e.1 ≠ tsId := by simpa using hkeep
    have hin : (tsId, sp) ∈ s.m := GoMap.mem_of_get _ _ _ hget
    have hsp : e.2 ≠ sp := by
      intro h
      have := List.inj_on_of_nodup_map hs.2.1 he hin h
      exact hne (by rw [this])
    exact getElem?_stopAt_ne s.heap sp e.2 hsp

/-- `Start` keeps the invariant: the new process has a fresh address and an
unset stop flag. -/
theorem TableInv_Start (req : Simulation.Request) (ts : TradingSystem) (trades : List Trade)
    (risk : ℚ) (s : Simulation.State) (hs : Simulation.TableInv s) :
    Simulation.TableInv (Simulation.Start req ts trades risk s) := by
  rw [Start_eq]
  have h1 := TableInv_Stop ts.Id s hs
  have hnone : (Simulation.Stop ts.Id s).2.m.get ts.Id = none := by
    rw [(Stop_state ts.Id s).1]
    exact GoMap.get_delete_self _ _
  generalize (Simulation.Stop ts.Id s).2 = s1 at h1 hnone
  obtain ⟨hk, hv, hp⟩ := h1
  have hlt : ∀ e ∈ s1.m, e.2 < s1.heap.length := by
    intro e he
    obtain ⟨p, hp1, _⟩ := hp e he
    exact (List.getElem?_eq_some_iff.mp hp1).1
  rw [GoMap.set_of_get_none _ _ _ hnone]
  refine ⟨?_, ?_, ?_⟩
  · show ((s1.m ++ [(ts.Id, s1.heap.length)]).map Prod.fst).Nodup
    rw [← GoMap.set_of_get_none _ _ _ hnone]
    exact GoMap.nodup_keys_set _ _ _ hk
  · show ((s1.m ++ [(ts.Id, s1.heap.length)]).map Prod.snd).Nodup
    rw [List.map_append, List.nodup_append]
    refine ⟨hv, by simp, ?_⟩
    intro a ha hb
    obtain ⟨e, he, rfl⟩ := List.mem_map.mp ha
    have := hlt e he
    simp at hb
    omega
  · intro e he
    show ∃ p, (s1.heap ++ [Simulation.NewProcess ts trades req risk])[e.2]? = some p ∧ _
    rcases List.mem_append.mp he with h | h
    · obtain ⟨p, hp1, hp2⟩ := hp e h
      exact ⟨p, by rw [List.getElem?_append_left (hlt e h)]; exact hp1, hp2⟩
    · have he2 : e = (ts.Id, s1.heap.length) := by simpa using h
      subst he2
      exact ⟨Simulation.NewProcess ts trades req risk, by simp, rfl⟩

/-- `GetResult` leaves the state as it is. -/
theorem GetResult_state (tsId : Nat) (s : Simulation.State) :
    (Simulation.GetResult tsId s).2 = s := by
  unfold Simulation.GetResult
  split
  · rfl
  · split <;> rfl

/-- The sweep keeps the invariant: it removes entries and touches no process. -/
theorem TableInv_purge (range : GoMap Nat Nat → List (Nat × Nat)) (hr : IsMapRange range)
    (now : Int) (s : Simulation.State) (hs : Simulation.TableInv s) :
    Simulation.TableInv (Simulation.purge range now s) := by
  have hm := purge_eq_filter range hr now s hs.1
  have hstate : Simulation.purge range now s
      = { heap := s.heap, m := s.m.filter (fun e => !Simulation.expired s.heap now e),
          queue := s.queue } := by
    rw [← hm]; rfl
  rw [hstate]
  exact TableInv_of_filter s hs _ _ _ (fun _ _ _ => rfl)

/-- The writes of a worker keep the invariant: they leave the stop flag of the
process as it is. -/
theorem TableInv_workerWrite (a : Nat) (result : Simulation.Result) (s : Simulation.State)
    (hs : Simulation.TableInv s) : Simulation.TableInv (Simulation.workerWrite a result s) := by
  unfold Simulation.workerWrite
  cases ha : s.heap[a]? with
  | none => exact hs
  | some q =>
    obtain ⟨hk, hv, hp⟩ := hs
    refine ⟨hk, hv, ?_⟩
    intro e he
    obtain ⟨p, hp1, hp2⟩ := hp e he
    show ∃ p, (s.heap.set a { q with result := result })[e.2]? = some p ∧ _
    by_cases hea : e.2 = a
    · refine ⟨{ q with result := result }, ?_, ?_⟩
      · rw [hea, List.getElem?_set_self (List.getElem?_eq_some_iff.mp ha).1]
      · rw [hea, ha] at hp1
        have : q = p := Option.some.inj hp1
        subst this
        exact hp2
    · exact ⟨p, by rw [List.getElem?_set_ne (fun h => hea h.symm)]; exact hp1, hp2⟩

/-- Every reachable state satisfies the invariant of the job table. -/
theorem TableInv_of_reachable (s : Simulation.State) (h : Simulation.Reachable s) :
    Simulation.TableInv s := by
  induction h with
  | init => exact ⟨List.nodup_nil, List.nodup_nil, fun e he => by cases he⟩
  | start req ts trades risk _ ih => exact TableInv_Start req ts trades risk _ ih
  | stop tsId _ ih => exact TableInv_Stop tsId _ ih
  | getResult tsId _ ih => rw [GetResult_state]; exact ih
  | purge range hr now _ ih => exact TableInv_purge range hr now _ ih
  | worker a result _ ih => exact TableInv_workerWrite a result _ ih

/-- C36: in every state reachable from the empty table by `Start`, `Stop`,
`GetResult`, `purge` and the writes of the workers, every job of the table is
an allocated process whose stop flag is unset, the table holds at most one
entry per trading-system id, and no process is the job of two ids. -/
theorem reachable_jobs_not_stopping (s : Simulation.State) (h : Simulation.Reachable s) :
    (∀ e ∈ s.m, ∃ p, s.heap[e.2]? = some p ∧ p.stopping = false) ∧
    (∀ tsId : Nat, (s.m.filter (fun e => decide (e.1 = tsId))).length ≤ 1) ∧
    (s.m.map Prod.fst).Nodup ∧ (s.m.map Prod.snd).Nodup := by
  obtain ⟨hk, hv, hp⟩ := TableInv_of_reachable s h
  refine ⟨hp, ?_, hk, hv⟩
  intro tsId
  have hcount : (s.m.filter (fun e => decide (e.1 = tsId))).length
      = (s.m.map Prod.fst).count tsId := by
    rw [List.count, List.countP_map, List.countP_eq_length_filter]
    congr 1
  rw [hcount]
  exact List.nodup_iff_count_le_one.mp hk tsId

/-- C36 after `Start`, `Start` again for the same trading system and a sweep:
the table holds one job, the second process, whose stop flag is unset, while
the first process has been flagged. -/
theorem reachable_jobs_not_stopping_witness :
    (Simulation.purge (fun m => m.reverse) 0
      (Simulation.Start sampleRequest sampleSystem [longTrade (-5)] 5
        (Simulation.Start sampleRequest sampleSystem [longTrade (-5)] 5 emptyState))).m
      = [(7, 1)] ∧
    ((Simulation.purge (fun m => m.reverse) 0
      (Simulation.Start sampleRequest sampleSystem [longTrade (-5)] 5
        (Simulation.Start sampleRequest sampleSystem [longTrade (-5)] 5
          emptyState))).heap.map (fun p => p.stopping)) = [true, false] ∧
    ∀ e ∈ (Simulation.purge (fun m => m.reverse) 0
      (Simulation.Start sampleRequest sampleSystem [longTrade (-5)] 5
        (Simulation.Start sampleRequest sampleSystem [longTrade (-5)] 5 emptyState))).m,
      ∃ p, (Simulation.purge (fun m => m.reverse) 0
        (Simulation.Start sampleRequest sampleSystem [longTrade (-5)] 5
          (Simulation.Start sampleRequest sampleSystem [longTrade (-5)] 5
            emptyState))).heap[e.2]? = some p ∧ p.stopping = false :=
  ⟨by decide, by decide,
   (reachable_jobs_not_stopping _
      (Simulation.Reachable.purge (fun m => m.reverse) (fun m => List.reverse_perm m) 0
        (Simulation.Reachable.start sampleRequest sampleSystem [longTrade (-5)] 5
          (Simulation.Reachable.start sampleRequest sampleSystem [longTrade (-5)] 5
            Simulation.Reachable.init)))).1⟩

/-! ## The bin index of the histogram of max drawdowns -/

/-- The max drawdown `BuildDrawDown` returns is never positive. -/
theorem BuildDrawDown_max_le_zero (e : List ℚ) : (BuildDrawDown e).2 ≤ 0 := by
  rw [BuildDrawDown_eq]
  exact minFrom_le_acc _ _

/-- On values that are all at most `0`, the bin index `size + trunc(value) - 1`
of `buildDDDistrib` is an index of `yAxis` for every value. -/
theorem binIndex_in_range (data : List ℚ) (hne : data ≠ []) (hneg : ∀ x ∈ data, x ≤ 0) :
    ∃ minv d, CalcMin data = some minv ∧ Simulation.buildDDDistrib data = some d ∧
      (d.YAxis.length : Int) = truncInt |minv| + 1 ∧
      ∀ v ∈ data, 0 ≤ (truncInt |minv| + 1) + truncInt v - 1 ∧
        (truncInt |minv| + 1) + truncInt v - 1 ≤ (truncInt |minv| + 1) - 1 := by
  cases data with
  | nil => exact absurd rfl hne
  | cons d0 ds =>
    have hmem : minFrom d0 (d0 :: ds) ∈ d0 :: ds := by
      rcases minFrom_mem_or (d0 :: ds) d0 with h | h
      · rw [h]; exact List.mem_cons_self _ _
      · exact h
    have hm0 : minFrom d0 (d0 :: ds) ≤ 0 := hneg _ hmem
    have habs : truncInt |minFrom d0 (d0 :: ds)| = -⌈minFrom d0 (d0 :: ds)⌉ :=
      truncInt_abs_of_nonpos _ hm0
    have hn0 : 0 ≤ truncInt |minFrom d0 (d0 :: ds)| := by
      rw [habs]
      have := ceil_nonpos_of_nonpos _ hm0
      omega
    obtain ⟨n, hn⟩ := Int.eq_ofNat_of_zero_le hn0
    obtain ⟨d, hd, _, hlen, _, _⟩ := buildDDDistrib_of_minimum (d0 :: ds) _ n hmem
      (minFrom_le_mem (d0 :: ds) d0) hneg hn
    refine ⟨_, d, CalcMin_eq_minFrom d0 ds, hd, by rw [hlen, hn]; push_cast; rfl, ?_⟩
    intro v hv
    have hv0 : v ≤ 0 := hneg v hv
    have hle : minFrom d0 (d0 :: ds) ≤ v := minFrom_le_mem (d0 :: ds) d0 v hv
    have hceil : ⌈minFrom d0 (d0 :: ds)⌉ ≤ ⌈v⌉ := Int.ceil_mono hle
    have hvc := ceil_nonpos_of_nonpos v hv0
    rw [habs, truncInt_of_nonpos v hv0]
    constructor <;> omega

/-- C39: on the max drawdowns `BuildDrawDown` returns for a non-empty list of
equities, every value is at most `0`, `buildDDDistrib` returns, and for every
value the bin index `size + trunc(value) - 1` lies between `0` and `size - 1`,
`size` being the length of the histogram. -/
theorem buildDDDistrib_index_in_range (equities : List (List ℚ)) (hne : equities ≠ []) :
    (∀ v ∈ equities.map (fun e => (BuildDrawDown e).2), v ≤ 0) ∧
    ∃ minv d, CalcMin (equities.map (fun e => (BuildDrawDown e).2)) = some minv ∧
      Simulation.buildDDDistrib (equities.map (fun e => (BuildDrawDown e).2)) = some d ∧
      (d.YAxis.length : Int) = truncInt |minv| + 1 ∧
      ∀ v ∈ equities.map (fun e => (BuildDrawDown e).2),
        0 ≤ (truncInt |minv| + 1) + truncInt v - 1 ∧
        (truncInt |minv| + 1) + truncInt v - 1 ≤ (truncInt |minv| + 1) - 1 := by
  have hneg : ∀ v ∈ equities.map (fun e => (BuildDrawDown e).2), v ≤ 0 := by
    intro v hv
    obtain ⟨e, _, rfl⟩ := List.mem_map.mp hv
    exact BuildDrawDown_max_le_zero e
  exact ⟨hneg, binIndex_in_range _ (by simpa using hne) hneg⟩

/-- C39 on the equities `1, -1.5, 2` and `1, 2, 3`, whose max drawdowns are
`-2.5` and `0`: the histogram is built, with `size` bins. -/
theorem buildDDDistrib_index_in_range_witness :
    [[1, -3 / 2, 2], [1, 2, 3]].map (fun e => (BuildDrawDown e).2) = [-5 / 2, 0] ∧
    ∃ minv d, CalcMin ([[1, -3 / 2, 2], [1, 2, 3]].map (fun e => (BuildDrawDown e).2))
        = some minv ∧
      Simulation.buildDDDistrib ([[1, -3 / 2, 2], [1, 2, 3]].map (fun e => (BuildDrawDown e).2))
        = some d ∧
      (d.YAxis.length : Int) = truncInt |minv| + 1 := by
  refine ⟨?_, ?_⟩
  · simp [BuildDrawDown_eq, drawDownFrom, minFrom]
    norm_num
  · obtain ⟨_, minv, d, h1, h2, h3, _⟩ :=
      buildDDDistrib_index_in_range [[1, -3 / 2, 2], [1, 2, 3]] (by simp)
    exact ⟨minv, d, h1, h2, h3⟩

/-! ## The rolling buckets: every trade lands in one bucket of each kind -/

/-- Replacing the element at index `i` changes the sum of a figure over the
list by the change of the figure at that index. -/
theorem sum_map_set {α β : Type} [AddCommGroup β] (f : α → β) (l : List α) (i : Nat) (x a : α)
    (h : l[i]? = some a) : ((l.set i x).map f).sum = (l.map f).sum + (f x - f a) := by
  induction l generalizing i with
  | nil => simp at h
  | cons y ys ih =>
    cases i with
    | zero =>
      simp only [List.getElem?_cons_zero, Option.some.injEq] at h
      subst h
      simp only [List.set_cons_zero, List.map_cons, List.sum_cons]
      abel
    | succ i =>
      simp only [List.getElem?_cons_succ] at h
      simp only [List.set_cons_succ, List.map_cons, List.sum_cons, ih i h]
      abel

/-! ## The rounding of `float64` -/

/-- The exponent of a positive number lying between two consecutive powers of two. -/
theorem log2_eq (x : ℚ) (k : Int) (hx : 0 < x) (h1 : (2 : ℚ) ^ k ≤ x) (h2 : x < (2 : ℚ) ^ (k + 1)) :
    Int.log 2 x = k := by
  have hb : 1 < 2 := by norm_num
  have hle : k ≤ Int.log 2 x := (Int.zpow_le_iff_le_log hb hx).mp (by exact_mod_cast h1)
  have hlt : Int.log 2 x < k + 1 := (Int.lt_zpow_iff_log_lt hb hx).mp (by exact_mod_cast h2)
  omega

/-- A value closer to the integer `m` than to any other integer rounds to `m`. -/
theorem roundHalfEven_of_near (q : ℚ) (m : Int) (h : |q - (m : ℚ)| < 1 / 2) :
    roundHalfEven q = m := by
  obtain ⟨hlo, hhi⟩ := abs_lt.mp h
  unfold roundHalfEven
  simp only []
  by_cases hq : (m : ℚ) ≤ q
  · have hf : ⌊q⌋ = m := Int.floor_eq_iff.mpr ⟨hq, by linarith⟩
    rw [hf, if_pos (by linarith)]
  · have hq2 : q < (m : ℚ) := not_le.mp hq
    have hf : ⌊q⌋ = m - 1 := Int.floor_eq_iff.mpr ⟨by push_cast; linarith, by push_cast; linarith⟩
    rw [hf]
    have h1 : ¬ (q - ((m - 1 : Int) : ℚ) < 1 / 2) := by push_cast; linarith
    have h2 : 1 / 2 < q - ((m - 1 : Int) : ℚ) := by push_cast; linarith
    rw [if_neg h1, if_pos h2]
    omega

/-- Halfway between two integers the even one is taken. -/
theorem roundHalfEven_of_tie (q : ℚ) (f : Int) (h : q = (f : ℚ) + 1 / 2) :
    roundHalfEven q = if f % 2 = 0 then f else f + 1 := by
  have hf : ⌊q⌋ = f := Int.floor_eq_iff.mpr ⟨by linarith, by linarith⟩
  unfold roundHalfEven
  simp only []
  rw [hf]
  have h1 : ¬ (q - (f : ℚ) < 1 / 2) := by linarith
  have h2 : ¬ (1 / 2 < q - (f : ℚ)) := by linarith
  rw [if_neg h1, if_neg h2]

theorem roundHalfEven_nonneg (q : ℚ) (hq : 0 ≤ q) : 0 ≤ roundHalfEven q := by
  have hf : (0 : Int) ≤ ⌊q⌋ := Int.floor_nonneg.mpr hq
  unfold roundHalfEven
  simp only []
  split
  · exact hf
  · split
    · omega
    · split <;> omega

/-- The rounding of a positive number, in terms of the power of two below it. -/
theorem round64_of_pos (x : ℚ) (k : Int) (hx : 0 < x) (h1 : (2 : ℚ) ^ k ≤ x)
    (h2 : x < (2 : ℚ) ^ (k + 1)) (hk : -1074 ≤ k - 52) :
    round64 x = ((roundHalfEven (x / (2 : ℚ) ^ (k - 52)) : Int) : ℚ) * (2 : ℚ) ^ (k - 52) := by
  unfold round64
  rw [if_neg hx.ne']
  simp only []
  rw [abs_of_pos hx, log2_eq x k hx h1 h2, max_eq_left hk, if_neg (not_lt.mpr hx.le), one_mul]

/-- Rounding commutes with negation. -/
theorem round64_neg (x : ℚ) : round64 (-x) = -round64 x := by
  unfold round64
  by_cases h0 : x = 0
  · simp [h0]
  · have hn : -x ≠ 0 := neg_ne_zero.mpr h0
    rw [if_neg h0, if_neg hn]
    simp only [abs_neg]
    rcases lt_or_gt_of_ne h0 with h | h
    · have : ¬ (-x < 0) := by linarith
      rw [if_pos h, if_neg this]; ring
    · have h2 : -x < 0 := by linarith
      have : ¬ (x < 0) := by linarith
      rw [if_pos h2, if_neg this]; ring

theorem round64_zero : round64 0 = 0 := by simp [round64]

/-- Rounding keeps the sign. -/
theorem round64_nonneg (x : ℚ) (hx : 0 ≤ x) : 0 ≤ round64 x := by
  unfold round64
  by_cases h0 : x = 0
  · rw [if_pos h0]
  · rw [if_neg h0]
    simp only []
    rw [if_neg (not_lt.mpr hx)]
    have hq : 0 ≤ |x| / (2 : ℚ) ^ (max (Int.log 2 |x| - 52) (-1074)) := by positivity
    have h3 : (0 : ℚ)
        ≤ ((roundHalfEven (|x| / (2 : ℚ) ^ (max (Int.log 2 |x| - 52) (-1074))) : Int) : ℚ) := by
      exact_mod_cast roundHalfEven_nonneg _ hq
    positivity

/-! ## Values of `round64` -/

theorem round64_one :
    round64 (1) = 1 := by
  have hv : (1 : ℚ) = 1 := by norm_num
  rw [hv]
  have h := round64_of_pos 1 (0) (by norm_num) (by norm_num) (by norm_num)
    (by norm_num)
  rw [h, roundHalfEven_of_near _ 4503599627370496 (by norm_num [abs_lt])]
  norm_num

theorem round64_two :
    round64 (2) = 2 := by
  have hv : (2 : ℚ) = 2 := by norm_num
  rw [hv]
  have h := round64_of_pos 2 (1) (by norm_num) (by norm_num) (by norm_num)
    (by norm_num)
  rw [h, roundHalfEven_of_near _ 4503599627370496 (by norm_num [abs_lt])]
  norm_num

theorem round64_three :
    round64 (3) = 3 := by
  have hv : (3 : ℚ) = 3 := by norm_num
  rw [hv]
  have h := round64_of_pos 3 (1) (by norm_num) (by norm_num) (by norm_num)
    (by norm_num)
  rw [h, roundHalfEven_of_near _ 6755399441055744 (by norm_num [abs_lt])]
  norm_num

theorem round64_five :
    round64 (5) = 5 := by
  have hv : (5 : ℚ) = 5 := by norm_num
  rw [hv]
  have h := round64_of_pos 5 (2) (by norm_num) (by norm_num) (by norm_num)
    (by norm_num)
  rw [h, roundHalfEven_of_near _ 5629499534213120 (by norm_num [abs_lt])]
  norm_num

/-- The `float64` constant `0.1`. -/
theorem round64_tenth : round64 (1 / 10) = 3602879701896397 / 36028797018963968 := by
  have h := round64_of_pos (1 / 10) (-4) (by norm_num) (by norm_num) (by norm_num)
    (by norm_num)
  rw [h, roundHalfEven_of_near _ 7205759403792794 (by norm_num [abs_lt])]
  norm_num

/-- The `float64` value `0.09999999999999999`, the one just below `0.1`. -/
theorem round64_below_tenth : round64 (7205759403792793 / 72057594037927936) = 7205759403792793 / 72057594037927936 := by
  have h := round64_of_pos (7205759403792793 / 72057594037927936) (-4) (by norm_num) (by norm_num) (by norm_num)
    (by norm_num)
  rw [h, roundHalfEven_of_near _ 7205759403792793 (by norm_num [abs_lt])]
  norm_num

theorem round64_below_tenth_mul : round64 ((7205759403792793 / 72057594037927936) * 100) = 10 := by
  have h := round64_of_pos ((7205759403792793 / 72057594037927936) * 100) (3) (by norm_num) (by norm_num) (by norm_num)
    (by norm_num)
  rw [h, roundHalfEven_of_near _ 5629499534213120 (by norm_num [abs_lt])]
  norm_num

theorem round64_ten : round64 (10) = 10 := by
  have h := round64_of_pos (10) (3) (by norm_num) (by norm_num) (by norm_num)
    (by norm_num)
  rw [h, roundHalfEven_of_near _ 5629499534213120 (by norm_num [abs_lt])]
  norm_num

theorem round64_ten_div : round64 (10 / 100) = 3602879701896397 / 36028797018963968 := by
  have h := round64_of_pos (10 / 100) (-4) (by norm_num) (by norm_num) (by norm_num)
    (by norm_num)
  rw [h, roundHalfEven_of_near _ 7205759403792794 (by norm_num [abs_lt])]
  norm_num

/-- The `float64` constant `1.239`. -/
theorem round64_1239 : round64 (1239 / 1000) = 5579959938312045 / 4503599627370496 := by
  have h := round64_of_pos (1239 / 1000) (0) (by norm_num) (by norm_num) (by norm_num)
    (by norm_num)
  rw [h, roundHalfEven_of_near _ 5579959938312045 (by norm_num [abs_lt])]
  norm_num

theorem round64_1239_mul : round64 ((5579959938312045 / 4503599627370496) * 100) = 4359343701806285 / 35184372088832 := by
  have h := round64_of_pos ((5579959938312045 / 4503599627370496) * 100) (6) (by norm_num) (by norm_num) (by norm_num)
    (by norm_num)
  rw [h, roundHalfEven_of_near _ 8718687403612570 (by norm_num [abs_lt])]
  norm_num

theorem round64_123 : round64 (123) = 123 := by
  have h := round64_of_pos (123) (6) (by norm_num) (by norm_num) (by norm_num)
    (by norm_num)
  rw [h, roundHalfEven_of_near _ 8655355533852672 (by norm_num [abs_lt])]
  norm_num

/-- The `float64` constant `1.231`. -/
theorem round64_1231 : round64 (1231 / 1000) = 5543931141293081 / 4503599627370496 := by
  have h := round64_of_pos (1231 / 1000) (0) (by norm_num) (by norm_num) (by norm_num)
    (by norm_num)
  rw [h, roundHalfEven_of_near _ 5543931141293081 (by norm_num [abs_lt])]
  norm_num

theorem round64_1231_mul : round64 ((5543931141293081 / 4503599627370496) * 100) = 8662392408270439 / 70368744177664 := by
  have h := round64_of_pos ((5543931141293081 / 4503599627370496) * 100) (6) (by norm_num) (by norm_num) (by norm_num)
    (by norm_num)
  rw [h, roundHalfEven_of_near _ 8662392408270439 (by norm_num [abs_lt])]
  norm_num

theorem round64_124 : round64 (124) = 124 := by
  have h := round64_of_pos (124) (6) (by norm_num) (by norm_num) (by norm_num)
    (by norm_num)
  rw [h, roundHalfEven_of_near _ 8725724278030336 (by norm_num [abs_lt])]
  norm_num

theorem round64_25 : round64 (25) = 25 := by
  have h := round64_of_pos (25) (4) (by norm_num) (by norm_num) (by norm_num)
    (by norm_num)
  rw [h, roundHalfEven_of_near _ 7036874417766400 (by norm_num [abs_lt])]
  norm_num

theorem round64_quarter : round64 (25 / 100) = 1 / 4 := by
  have h := round64_of_pos (25 / 100) (-2) (by norm_num) (by norm_num) (by norm_num)
    (by norm_num)
  rw [h, roundHalfEven_of_near _ 4503599627370496 (by norm_num [abs_lt])]
  norm_num

/-- The `float64` constant `0.2`. -/
theorem round64_fifth :
    round64 (2 / 10) = 3602879701896397 / 18014398509481984 := by
  have hv : (2 / 10 : ℚ) = 1 / 5 := by norm_num
  rw [hv]
  have h := round64_of_pos (1 / 5) (-3) (by norm_num) (by norm_num) (by norm_num)
    (by norm_num)
  rw [h, roundHalfEven_of_near _ 7205759403792794 (by norm_num [abs_lt])]
  norm_num

theorem round64_twice_tenth :
    round64 (2 * (3602879701896397 / 36028797018963968)) = 3602879701896397 / 18014398509481984 := by
  have hv : (2 * (3602879701896397 / 36028797018963968) : ℚ) = 3602879701896397 / 18014398509481984 := by norm_num
  rw [hv]
  have h := round64_of_pos (3602879701896397 / 18014398509481984) (-3) (by norm_num) (by norm_num) (by norm_num)
    (by norm_num)
  rw [h, roundHalfEven_of_near _ 7205759403792794 (by norm_num [abs_lt])]
  norm_num

theorem round64_tenth_sub_fifth :
    round64 (3602879701896397 / 36028797018963968 - 3602879701896397 / 18014398509481984) = -(3602879701896397 / 36028797018963968) := by
  have hv : (3602879701896397 / 36028797018963968 - 3602879701896397 / 18014398509481984 : ℚ) = -(3602879701896397 / 36028797018963968) := by norm_num
  rw [hv, round64_neg]
  have h := round64_of_pos (3602879701896397 / 36028797018963968) (-4) (by norm_num) (by norm_num) (by norm_num)
    (by norm_num)
  rw [h, roundHalfEven_of_near _ 7205759403792794 (by norm_num [abs_lt])]
  norm_num

theorem round64_fifth_sub_fifth :
    round64 (3602879701896397 / 18014398509481984 - 3602879701896397 / 18014398509481984) = 0 := by
  have hv : (3602879701896397 / 18014398509481984 - 3602879701896397 / 18014398509481984 : ℚ) = 0 := by norm_num
  rw [hv, round64_zero]

theorem round64_zero_add_neg_tenth :
    round64 (0 + -(3602879701896397 / 36028797018963968)) = -(3602879701896397 / 36028797018963968) := by
  have hv : (0 + -(3602879701896397 / 36028797018963968) : ℚ) = -(3602879701896397 / 36028797018963968) := by norm_num
  rw [hv, round64_neg]
  have h := round64_of_pos (3602879701896397 / 36028797018963968) (-4) (by norm_num) (by norm_num) (by norm_num)
    (by norm_num)
  rw [h, roundHalfEven_of_near _ 7205759403792794 (by norm_num [abs_lt])]
  norm_num

theorem round64_neg_tenth_add_zero :
    round64 (-(3602879701896397 / 36028797018963968) + 0) = -(3602879701896397 / 36028797018963968) := by
  have hv : (-(3602879701896397 / 36028797018963968) + 0 : ℚ) = -(3602879701896397 / 36028797018963968) := by norm_num
  rw [hv, round64_neg]
  have h := round64_of_pos (3602879701896397 / 36028797018963968) (-4) (by norm_num) (by norm_num) (by norm_num)
    (by norm_num)
  rw [h, roundHalfEven_of_near _ 7205759403792794 (by norm_num [abs_lt])]
  norm_num

theorem round64_zero_add_tenth :
    round64 (0 + 3602879701896397 / 36028797018963968) = 3602879701896397 / 36028797018963968 := by
  have hv : (0 + 3602879701896397 / 36028797018963968 : ℚ) = 3602879701896397 / 36028797018963968 := by norm_num
  rw [hv]
  have h := round64_of_pos (3602879701896397 / 36028797018963968) (-4) (by norm_num) (by norm_num) (by norm_num)
    (by norm_num)
  rw [h, roundHalfEven_of_near _ 7205759403792794 (by norm_num [abs_lt])]
  norm_num

theorem round64_tenth_add_fifth :
    round64 (3602879701896397 / 36028797018963968 + 3602879701896397 / 18014398509481984) = 1351079888211149 / 4503599627370496 := by
  have hv : (3602879701896397 / 36028797018963968 + 3602879701896397 / 18014398509481984 : ℚ) = 10808639105689191 / 36028797018963968 := by norm_num
  rw [hv]
  have h := round64_of_pos (10808639105689191 / 36028797018963968) (-2) (by norm_num) (by norm_num) (by norm_num)
    (by norm_num)
  rw [h, roundHalfEven_of_tie _ 5404319552844595 (by norm_num)]
  norm_num

theorem round64_fifth_mul_two :
    round64 (3602879701896397 / 18014398509481984 * 2) = 3602879701896397 / 9007199254740992 := by
  have hv : (3602879701896397 / 18014398509481984 * 2 : ℚ) = 3602879701896397 / 9007199254740992 := by norm_num
  rw [hv]
  have h := round64_of_pos (3602879701896397 / 9007199254740992) (-2) (by norm_num) (by norm_num) (by norm_num)
    (by norm_num)
  rw [h, roundHalfEven_of_near _ 7205759403792794 (by norm_num [abs_lt])]
  norm_num

theorem round64_gross_sub_cost :
    round64 (1351079888211149 / 4503599627370496 - 3602879701896397 / 9007199254740992) = -(900719925474099 / 9007199254740992) := by
  have hv : (1351079888211149 / 4503599627370496 - 3602879701896397 / 9007199254740992 : ℚ) = -(900719925474099 / 9007199254740992) := by norm_num
  rw [hv, round64_neg]
  have h := round64_of_pos (900719925474099 / 9007199254740992) (-4) (by norm_num) (by norm_num) (by norm_num)
    (by norm_num)
  rw [h, roundHalfEven_of_near _ 7205759403792792 (by norm_num [abs_lt])]
  norm_num

/-- The `float64` constant `1.1`. -/
theorem round64_eleven_tenths :
    round64 (11 / 10) = 2476979795053773 / 2251799813685248 := by
  have hv : (11 / 10 : ℚ) = 11 / 10 := by norm_num
  rw [hv]
  have h := round64_of_pos (11 / 10) (0) (by norm_num) (by norm_num) (by norm_num)
    (by norm_num)
  rw [h, roundHalfEven_of_near _ 4953959590107546 (by norm_num [abs_lt])]
  norm_num

/-- The `float64` value `0.1` is not rounded. -/
theorem round64_tenth_value :
    round64 (3602879701896397 / 36028797018963968) = 3602879701896397 / 36028797018963968 := by
  have hv : (3602879701896397 / 36028797018963968 : ℚ) = 3602879701896397 / 36028797018963968 := by norm_num
  rw [hv]
  have h := round64_of_pos (3602879701896397 / 36028797018963968) (-4) (by norm_num) (by norm_num) (by norm_num)
    (by norm_num)
  rw [h, roundHalfEven_of_near _ 7205759403792794 (by norm_num [abs_lt])]
  norm_num

/-- The `float64` value `1.1` is not rounded. -/
theorem round64_eleven_tenths_value :
    round64 (2476979795053773 / 2251799813685248) = 2476979795053773 / 2251799813685248 := by
  have hv : (2476979795053773 / 2251799813685248 : ℚ) = 2476979795053773 / 2251799813685248 := by norm_num
  rw [hv]
  have h := round64_of_pos (2476979795053773 / 2251799813685248) (0) (by norm_num) (by norm_num) (by norm_num)
    (by norm_num)
  rw [h, roundHalfEven_of_near _ 4953959590107546 (by norm_num [abs_lt])]
  norm_num

/-- The sum `0.1 + 0.1` on `float64`. -/
theorem round64_twice_tenth_value :
    round64 (3602879701896397 / 18014398509481984) = 3602879701896397 / 18014398509481984 := by
  have hv : (3602879701896397 / 18014398509481984 : ℚ) = 3602879701896397 / 18014398509481984 := by norm_num
  rw [hv]
  have h := round64_of_pos (3602879701896397 / 18014398509481984) (-3) (by norm_num) (by norm_num) (by norm_num)
    (by norm_num)
  rw [h, roundHalfEven_of_near _ 7205759403792794 (by norm_num [abs_lt])]
  norm_num

/-- The sum `0.2 + 1.1` on `float64`. -/
theorem round64_fifth_add_eleven_tenths :
    round64 (23418718062326581 / 18014398509481984) = 5854679515581645 / 4503599627370496 := by
  have hv : (23418718062326581 / 18014398509481984 : ℚ) = 23418718062326581 / 18014398509481984 := by norm_num
  rw [hv]
  have h := round64_of_pos (23418718062326581 / 18014398509481984) (0) (by norm_num) (by norm_num) (by norm_num)
    (by norm_num)
  rw [h, roundHalfEven_of_near _ 5854679515581645 (by norm_num [abs_lt])]
  norm_num

/-- The sum `0.1 + 1.1` on `float64`. -/
theorem round64_tenth_add_eleven_tenths :
    round64 (43234556422756765 / 36028797018963968) = 1351079888211149 / 1125899906842624 := by
  have hv : (43234556422756765 / 36028797018963968 : ℚ) = 43234556422756765 / 36028797018963968 := by norm_num
  rw [hv]
  have h := round64_of_pos (43234556422756765 / 36028797018963968) (0) (by norm_num) (by norm_num) (by norm_num)
    (by norm_num)
  rw [h, roundHalfEven_of_near _ 5404319552844596 (by norm_num [abs_lt])]
  norm_num

/-- The sum `1.2000000000000002 + 0.1` on `float64`. -/
theorem round64_long_add_short :
    round64 (46837436124653165 / 36028797018963968) = 2927339757790823 / 2251799813685248 := by
  have hv : (46837436124653165 / 36028797018963968 : ℚ) = 46837436124653165 / 36028797018963968 := by norm_num
  rw [hv]
  have h := round64_of_pos (46837436124653165 / 36028797018963968) (0) (by norm_num) (by norm_num) (by norm_num)
    (by norm_num)
  rw [h, roundHalfEven_of_near _ 5854679515581646 (by norm_num [abs_lt])]
  norm_num

/-- The quotient `7 / 3` on `float64`. -/
theorem round64_seven_thirds :
    round64 (7 / 3) = 5254199565265579 / 2251799813685248 := by
  have hv : (7 / 3 : ℚ) = 7 / 3 := by norm_num
  rw [hv]
  have h := round64_of_pos (7 / 3) (1) (by norm_num) (by norm_num) (by norm_num)
    (by norm_num)
  rw [h, roundHalfEven_of_near _ 5254199565265579 (by norm_num [abs_lt])]
  norm_num

/-- The `float64` value `7.000000000000001`, the one just above `7`. -/
theorem round64_above_seven :
    round64 (7881299347898369 / 1125899906842624) = 7881299347898369 / 1125899906842624 := by
  have hv : (7881299347898369 / 1125899906842624 : ℚ) = 7881299347898369 / 1125899906842624 := by norm_num
  rw [hv]
  have h := round64_of_pos (7881299347898369 / 1125899906842624) (2) (by norm_num) (by norm_num) (by norm_num)
    (by norm_num)
  rw [h, roundHalfEven_of_near _ 7881299347898369 (by norm_num [abs_lt])]
  norm_num

/-- The quotient `7.000000000000001 / 3` on `float64`: the same as `7 / 3`. -/
theorem round64_above_seven_thirds :
    round64 (7881299347898369 / 3377699720527872) = 5254199565265579 / 2251799813685248 := by
  have hv : (7881299347898369 / 3377699720527872 : ℚ) = 7881299347898369 / 3377699720527872 := by norm_num
  rw [hv]
  have h := round64_of_pos (7881299347898369 / 3377699720527872) (1) (by norm_num) (by norm_num) (by norm_num)
    (by norm_num)
  rw [h, roundHalfEven_of_near _ 5254199565265579 (by norm_num [abs_lt])]
  norm_num

theorem round64_seven :
    round64 (7) = 7 := by
  have hv : (7 : ℚ) = 7 := by norm_num
  rw [hv]
  have h := round64_of_pos 7 (2) (by norm_num) (by norm_num) (by norm_num)
    (by norm_num)
  rw [h, roundHalfEven_of_near _ 7881299347898368 (by norm_num [abs_lt])]
  norm_num

theorem round64_four :
    round64 (4) = 4 := by
  have hv : (4 : ℚ) = 4 := by norm_num
  rw [hv]
  have h := round64_of_pos 4 (2) (by norm_num) (by norm_num) (by norm_num)
    (by norm_num)
  rw [h, roundHalfEven_of_near _ 4503599627370496 (by norm_num [abs_lt])]
  norm_num

theorem round64_three_fifths :
    round64 (3 / 5) = 5404319552844595 / 9007199254740992 := by
  have hv : (3 / 5 : ℚ) = 3 / 5 := by norm_num
  rw [hv]
  have h := round64_of_pos (3 / 5) (-1) (by norm_num) (by norm_num) (by norm_num)
    (by norm_num)
  rw [h, roundHalfEven_of_near _ 5404319552844595 (by norm_num [abs_lt])]
  norm_num

theorem round64_four_fifths :
    round64 (4 / 5) = 3602879701896397 / 4503599627370496 := by
  have hv : (4 / 5 : ℚ) = 4 / 5 := by norm_num
  rw [hv]
  have h := round64_of_pos (4 / 5) (-1) (by norm_num) (by norm_num) (by norm_num)
    (by norm_num)
  rw [h, roundHalfEven_of_near _ 7205759403792794 (by norm_num [abs_lt])]
  norm_num

/-! ## `Trunc2d` on `float64` -/

/-- `Trunc2d` on a product whose floor is `k`, an `int`. -/
theorem Rounded_Trunc2d_eq (fl : ℚ → ℚ) (x : ℚ) (k : Int) (hk : ⌊fl (x * 100)⌋ = k)
    (hrange : -(2 ^ 63) ≤ k ∧ k < 2 ^ 63) :
    Rounded.Trunc2d fl x = some (fl (fl (k : ℚ) / 100)) := by
  unfold Rounded.Trunc2d
  simp only [hk]
  rw [if_pos hrange]

/-- C6 fails on `float64`: for the value `0.09999999999999999` the product with
`100` rounds to `10`, so `Trunc2d` returns the `float64` value `0.1`, which is
above the argument and is not `floor(100 * x) / 100 = 0.09`. -/
theorem Trunc2d_floor_counterexample :
    round64 (7205759403792793 / 72057594037927936) = 7205759403792793 / 72057594037927936 ∧
    Rounded.Trunc2d round64 (7205759403792793 / 72057594037927936) = some (round64 (1 / 10)) ∧
    (7205759403792793 / 72057594037927936 : ℚ) < round64 (1 / 10) ∧
    ((⌊100 * (7205759403792793 / 72057594037927936 : ℚ)⌋ : ℤ) : ℚ) / 100 = 9 / 100 ∧
    round64 (1 / 10) ≠ 9 / 100 := by
  have hfloor : ⌊round64 ((7205759403792793 / 72057594037927936) * 100)⌋ = 10 := by
    rw [round64_below_tenth_mul]
    exact Int.floor_eq_iff.mpr ⟨by norm_num, by norm_num⟩
  have hval := Rounded_Trunc2d_eq round64 (7205759403792793 / 72057594037927936) 10 hfloor
    (by norm_num)
  have hten : round64 (((10 : Int) : ℚ)) = 10 := by
    have : (((10 : Int) : ℚ)) = 10 := by norm_num
    rw [this, round64_ten]
  rw [hten, round64_ten_div] at hval
  have h9 : ⌊100 * (7205759403792793 / 72057594037927936 : ℚ)⌋ = 9 :=
    Int.floor_eq_iff.mpr ⟨by norm_num, by norm_num⟩
  refine ⟨round64_below_tenth, ?_, ?_, ?_, ?_⟩
  · rw [hval, round64_tenth]
  · rw [round64_tenth]; norm_num
  · rw [h9]; norm_num
  · rw [round64_tenth]; norm_num

/-- C6 as amended: `Trunc2d(x)` is the `float64` quotient by `100` of the floor
of the `float64` product `x * 100` (the floor being in the range of `int`);
when neither the product nor the quotient rounds, it is `floor(100 * x) / 100`
and satisfies `Trunc2d(x) ≤ x < Trunc2d(x) + 1/100`; on `float64`,
`Trunc2d(1.239) = 1.23` and `Trunc2d(-1.231) = -1.24`. -/
theorem Trunc2d_rounded_floor (fl : ℚ → ℚ) (x : ℚ)
    (hrange : -(2 ^ 63) ≤ ⌊fl (x * 100)⌋ ∧ ⌊fl (x * 100)⌋ < 2 ^ 63) :
    Rounded.Trunc2d fl x = some (fl (fl ((⌊fl (x * 100)⌋ : ℤ) : ℚ) / 100)) ∧
    (fl (x * 100) = x * 100 → fl ((⌊x * 100⌋ : ℤ) : ℚ) = ((⌊x * 100⌋ : ℤ) : ℚ) →
      fl (((⌊x * 100⌋ : ℤ) : ℚ) / 100) = ((⌊x * 100⌋ : ℤ) : ℚ) / 100 →
      Rounded.Trunc2d fl x = some (((⌊100 * x⌋ : ℤ) : ℚ) / 100) ∧
      ((⌊100 * x⌋ : ℤ) : ℚ) / 100 = Trunc2d x ∧
      ((⌊100 * x⌋ : ℤ) : ℚ) / 100 ≤ x ∧ x < ((⌊100 * x⌋ : ℤ) : ℚ) / 100 + 1 / 100) ∧
    Rounded.Trunc2d round64 (round64 (1239 / 1000)) = some (round64 (123 / 100)) ∧
    Rounded.Trunc2d round64 (round64 (-1231 / 1000)) = some (round64 (-124 / 100)) := by
  have hgen := Rounded_Trunc2d_eq fl x _ rfl hrange
  refine ⟨hgen, ?_, ?_, ?_⟩
  · intro h1 h2 h3
    rw [h1, h2, h3] at hgen
    have hcomm : 100 * x = x * 100 := mul_comm _ _
    have hfl : ((⌊x * 100⌋ : ℤ) : ℚ) ≤ x * 100 := Int.floor_le _
    have hlt : x * 100 < ((⌊x * 100⌋ : ℤ) : ℚ) + 1 := Int.lt_floor_add_one _
    rw [hcomm]
    refine ⟨hgen, rfl, by linarith, by linarith⟩
  · rw [round64_1239]
    have hfloor : ⌊round64 ((5579959938312045 / 4503599627370496) * 100)⌋ = 123 := by
      rw [round64_1239_mul]
      exact Int.floor_eq_iff.mpr ⟨by norm_num, by norm_num⟩
    have hval := Rounded_Trunc2d_eq round64 (5579959938312045 / 4503599627370496) 123 hfloor
      (by norm_num)
    have hc : round64 (((123 : Int) : ℚ)) = 123 := by
      have : (((123 : Int) : ℚ)) = 123 := by norm_num
      rw [this, round64_123]
    rw [hc] at hval
    exact hval
  · have hin : round64 (-1231 / 1000) = -(5543931141293081 / 4503599627370496) := by
      have : (-1231 / 1000 : ℚ) = -(1231 / 1000) := by norm_num
      rw [this, round64_neg, round64_1231]
    have hmul : round64 (-(5543931141293081 / 4503599627370496) * 100)
        = -(8662392408270439 / 70368744177664) := by
      have : (-(5543931141293081 / 4503599627370496) * 100 : ℚ)
          = -((5543931141293081 / 4503599627370496) * 100) := by ring
      rw [this, round64_neg, round64_1231_mul]
    rw [hin]
    have hfloor : ⌊round64 (-(5543931141293081 / 4503599627370496) * 100)⌋ = -124 := by
      rw [hmul]
      exact Int.floor_eq_iff.mpr ⟨by norm_num, by norm_num⟩
    have hval := Rounded_Trunc2d_eq round64 (-(5543931141293081 / 4503599627370496)) (-124)
      hfloor (by norm_num)
    have hc : round64 (((-124 : Int) : ℚ)) = -124 := by
      have : (((-124 : Int) : ℚ)) = -124 := by norm_num
      rw [this, round64_neg, round64_124]
    rw [hc] at hval
    exact hval

/-- C6 as amended, on the `float64` value `0.25`: the product `25` and the
quotient `0.25` are exact, and `Trunc2d(0.25) = 0.25`. -/
theorem Trunc2d_rounded_floor_witness :
    Rounded.Trunc2d round64 (1 / 4) = some (((⌊100 * (1 / 4 : ℚ)⌋ : ℤ) : ℚ) / 100) ∧
    ((⌊100 * (1 / 4 : ℚ)⌋ : ℤ) : ℚ) / 100 = 1 / 4 := by
  have hprod : round64 (1 / 4 * 100) = 1 / 4 * 100 := by
    have : (1 / 4 * 100 : ℚ) = 25 := by norm_num
    rw [this, round64_25]
  have hfl : ⌊(1 / 4 * 100 : ℚ)⌋ = 25 := Int.floor_eq_iff.mpr ⟨by norm_num, by norm_num⟩
  have hfl2 : ⌊(100 * (1 / 4) : ℚ)⌋ = 25 := Int.floor_eq_iff.mpr ⟨by norm_num, by norm_num⟩
  have hrange : -(2 ^ 63) ≤ ⌊round64 (1 / 4 * 100)⌋ ∧ ⌊round64 (1 / 4 * 100)⌋ < 2 ^ 63 := by
    rw [hprod, hfl]; norm_num
  have h25 : (((25 : Int) : ℚ)) = 25 := by norm_num
  obtain ⟨h1, _, _, _⟩ :=
    (Trunc2d_rounded_floor round64 (1 / 4) hrange).2.1 hprod
      (by rw [hfl, h25, round64_25]) (by rw [hfl, h25, round64_quarter]; norm_num)
  refine ⟨h1, ?_⟩
  rw [hfl2]; norm_num

/-! ## Net equity against gross equity on `float64` -/

theorem foldl_rounded_netStep (fl : ℚ → ℚ) (c : ℚ) (g acc : List ℚ) :
    g.foldl (fun netSlice gross => netSlice ++ [fl (gross - fl (2 * c))]) acc
      = acc ++ g.map (fun gross => fl (gross - fl (2 * c))) := by
  induction g generalizing acc with
  | nil => simp
  | cons x xs ih => simp [ih]

/-- `BuildNetProfits` on `float64` in closed form. -/
theorem Rounded_BuildNetProfits_eq_map (fl : ℚ → ℚ) (g : List ℚ) (c : ℚ) :
    Rounded.BuildNetProfits fl g c = g.map (fun gross => fl (gross - fl (2 * c))) := by
  rw [Rounded.BuildNetProfits, foldl_rounded_netStep, List.nil_append]

theorem foldl_rounded_equityStep (fl : ℚ → ℚ) (ps : List ℚ) (s : EquityState) :
    (ps.foldl (Rounded.equityStep fl) s).equity = s.equity ++ Rounded.equityFrom fl s.value ps := by
  induction ps generalizing s with
  | nil => simp [Rounded.equityFrom]
  | cons p ps ih =>
    rw [List.foldl_cons, ih]
    simp [Rounded.equityStep, Rounded.equityFrom]

/-- `BuildEquity` on `float64` in recursive form. -/
theorem Rounded_BuildEquity_eq (fl : ℚ → ℚ) (ps : List ℚ) :
    Rounded.BuildEquity fl ps = Rounded.equityFrom fl 0 ps := by
  rw [Rounded.BuildEquity, foldl_rounded_equityStep, List.nil_append]

theorem length_rounded_equityFrom (fl : ℚ → ℚ) (ps : List ℚ) (v : ℚ) :
    (Rounded.equityFrom fl v ps).length = ps.length := by
  induction ps generalizing v with
  | nil => rfl
  | cons p ps ih => simp [Rounded.equityFrom, ih]

/-- When no running sum rounds, the `float64` equity is the exact one. -/
theorem rounded_equityFrom_of_exact (fl : ℚ → ℚ) (ps : List ℚ) (v : ℚ)
    (h : ∀ x ∈ equityFrom v ps, fl x = x) : Rounded.equityFrom fl v ps = equityFrom v ps := by
  induction ps generalizing v with
  | nil => rfl
  | cons p ps ih =>
    have hp : fl (v + p) = v + p := h _ (by simp [equityFrom])
    simp only [Rounded.equityFrom, equityFrom, hp]
    rw [ih (v + p) (fun x hx => h x (by simp [equityFrom, hx]))]

/-- C34 fails on `float64`: with the gross profits `0.1, 0.2` and the cost `0.1`
the net equity at index `1` is `-0.1`, while the gross equity at index `1`,
`0.30000000000000004`, minus `2 * c * 2` is `-0.09999999999999998`, whether the
subtraction is exact or rounded. -/
theorem net_equity_offset_counterexample :
    (Rounded.BuildEquity round64
        (Rounded.BuildNetProfits round64 [round64 (1 / 10), round64 (2 / 10)]
          (round64 (1 / 10))))[1]?
      = some (-(3602879701896397 / 36028797018963968) : ℚ) ∧
    (Rounded.BuildEquity round64 [round64 (1 / 10), round64 (2 / 10)])[1]?
      = some (1351079888211149 / 4503599627370496 : ℚ) ∧
    (-(3602879701896397 / 36028797018963968) : ℚ)
      ≠ 1351079888211149 / 4503599627370496 - 2 * round64 (1 / 10) * ((1 : ℚ) + 1) ∧
    (-(3602879701896397 / 36028797018963968) : ℚ)
      ≠ round64 (1351079888211149 / 4503599627370496
          - round64 (round64 (2 * round64 (1 / 10)) * 2)) := by
  refine ⟨?_, ?_, ?_, ?_⟩
  · rw [Rounded_BuildNetProfits_eq_map, Rounded_BuildEquity_eq, round64_tenth, round64_fifth]
    simp only [List.map_cons, List.map_nil, round64_twice_tenth, round64_tenth_sub_fifth,
      round64_fifth_sub_fifth, Rounded.equityFrom, round64_zero_add_neg_tenth,
      round64_neg_tenth_add_zero, List.getElem?_cons_succ, List.getElem?_cons_zero]
  · rw [Rounded_BuildEquity_eq, round64_tenth, round64_fifth]
    simp only [Rounded.equityFrom, round64_zero_add_tenth, round64_tenth_add_fifth,
      List.getElem?_cons_succ, List.getElem?_cons_zero]
  · rw [round64_tenth]; norm_num
  · rw [round64_tenth, round64_twice_tenth, round64_fifth_mul_two, round64_gross_sub_cost]
    norm_num

/-- C34 as amended: the net and the gross equity series have the same length;
when no `float64` operation rounds (twice the cost, every net profit and every
running sum of the gross and of the net profits are `float64` values), the net
equity at index `i` is the gross equity at index `i` minus `2 * c * (i + 1)`
and the net total profit is the gross total profit minus `2 * c` times the
number of trades. -/
theorem net_equity_offset_rounded (fl : ℚ → ℚ) (g : List ℚ) (c : ℚ) :
    (Rounded.BuildEquity fl (Rounded.BuildNetProfits fl g c)).length
      = (Rounded.BuildEquity fl g).length ∧
    (fl (2 * c) = 2 * c → (∀ x ∈ BuildNetProfits g c, fl x = x) →
      (∀ v ∈ BuildEquity g, fl v = v) → (∀ v ∈ BuildEquity (BuildNetProfits g c), fl v = v) →
      (∀ i : Nat, (Rounded.BuildEquity fl (Rounded.BuildNetProfits fl g c))[i]?
          = ((Rounded.BuildEquity fl g)[i]?).map (fun x => x - 2 * c * ((i : ℚ) + 1))) ∧
      Performance.calcProfit (Rounded.BuildEquity fl (Rounded.BuildNetProfits fl g c))
        = Performance.calcProfit (Rounded.BuildEquity fl g) - 2 * c * (g.length : ℚ)) := by
  constructor
  · rw [Rounded_BuildNetProfits_eq_map, Rounded_BuildEquity_eq, Rounded_BuildEquity_eq,
      length_rounded_equityFrom, length_rounded_equityFrom, List.length_map]
  · intro h2c hnet hgross hneq
    have hnp : Rounded.BuildNetProfits fl g c = BuildNetProfits g c := by
      rw [Rounded_BuildNetProfits_eq_map, BuildNetProfits_eq_map, h2c]
      apply List.map_congr_left
      intro x hx
      apply hnet
      rw [BuildNetProfits_eq_map]
      exact List.mem_map_of_mem _ hx
    have hge : Rounded.BuildEquity fl g = BuildEquity g := by
      rw [Rounded_BuildEquity_eq, BuildEquity_eq_equityFrom]
      exact rounded_equityFrom_of_exact fl g 0 (by rw [← BuildEquity_eq_equityFrom]; exact hgross)
    have hne : Rounded.BuildEquity fl (BuildNetProfits g c) = BuildEquity (BuildNetProfits g c) := by
      rw [Rounded_BuildEquity_eq, BuildEquity_eq_equityFrom]
      exact rounded_equityFrom_of_exact fl _ 0 (by rw [← BuildEquity_eq_equityFrom]; exact hneq)
    rw [hnp, hge, hne]
    exact ⟨(net_equity_offset g c).1, (net_equity_offset g c).2.2⟩

/-- C34 as amended, on the gross profits `1, 2` with the cost `0.5`: every value
is a `float64` value, the gross equity is `1, 3` and the net equity `0, 1`. -/
theorem net_equity_offset_rounded_witness :
    (Rounded.BuildEquity round64 (Rounded.BuildNetProfits round64 [1, 2] (1 / 2)))[1]?
      = ((Rounded.BuildEquity round64 [1, 2])[1]?).map (fun x => x - 2 * (1 / 2) * (((1 : Nat) : ℚ) + 1)) ∧
    Performance.calcProfit (Rounded.BuildEquity round64 (Rounded.BuildNetProfits round64 [1, 2] (1 / 2)))
      = Performance.calcProfit (Rounded.BuildEquity round64 [1, 2])
        - 2 * (1 / 2) * (([1, 2] : List ℚ).length : ℚ) := by
  have hnp : BuildNetProfits [1, 2] (1 / 2) = [0, 1] := by
    rw [BuildNetProfits_eq_map]; norm_num
  have hge : BuildEquity [1, 2] = [1, 3] := by
    rw [BuildEquity_eq_equityFrom]; norm_num [equityFrom]
  have hne : BuildEquity [0, 1] = [0, 1] := by
    rw [BuildEquity_eq_equityFrom]; norm_num [equityFrom]
  have h := (net_equity_offset_rounded round64 [1, 2] (1 / 2)).2
    (by norm_num [round64_one])
    (by
      rw [hnp]; intro x hx
      simp only [List.mem_cons, List.mem_singleton, List.not_mem_nil, or_false] at hx
      rcases hx with rfl | rfl
      · exact round64_zero
      · exact round64_one)
    (by
      rw [hge]; intro x hx
      simp only [List.mem_cons, List.mem_singleton, List.not_mem_nil, or_false] at hx
      rcases hx with rfl | rfl
      · exact round64_one
      · exact round64_three)
    (by
      rw [hnp, hne]; intro x hx
      simp only [List.mem_cons, List.mem_singleton, List.not_mem_nil, or_false] at hx
      rcases hx with rfl | rfl
      · exact round64_zero
      · exact round64_one)
  exact ⟨h.1 1, h.2⟩

/-! ## The Total, Long and Short accumulators of a bucket on `float64` -/

theorem short_ne_long : ¬ (TradeTypeShort = TradeTypeLong) := by decide

/-- The gross returns of a bucket after the three calls of `splitCalls`. -/
theorem splitCalls_GrossReturns :
    (splitCalls.foldl (fun ri c => Rounded.updateRollingInfo round64 c.1 ri c.2)
        Performance.zeroRollingInfo).GrossReturns
      = { Total := 5854679515581645 / 4503599627370496,
          Long := 1351079888211149 / 1125899906842624,
          Short := 3602879701896397 / 36028797018963968 } := by
  simp only [splitCalls, List.foldl_cons, List.foldl_nil, Rounded.updateRollingInfo,
    Performance.zeroRollingInfo, longTrade, shortTrade, short_ne_long, if_true, if_false,
    round64_tenth, round64_eleven_tenths]
  norm_num [round64_zero, round64_tenth_value, round64_eleven_tenths_value,
    round64_twice_tenth_value, round64_fifth_add_eleven_tenths, round64_tenth_add_eleven_tenths]

/-- C30 fails on `float64`: after a long trade of `0.1`, a short trade of `0.1`
and a long trade of `1.1` the gross Total is `1.3`, the Long part
`1.2000000000000002` and the Short part `0.1`; their sum is not the Total,
whether it is taken exactly or on `float64` (`1.3000000000000003`). -/
theorem updateRollingInfo_total_split_counterexample :
    (splitCalls.foldl (fun ri c => Rounded.updateRollingInfo round64 c.1 ri c.2)
        Performance.zeroRollingInfo).GrossReturns
      = { Total := 5854679515581645 / 4503599627370496,
          Long := 1351079888211149 / 1125899906842624,
          Short := 3602879701896397 / 36028797018963968 } ∧
    (5854679515581645 / 4503599627370496 : ℚ)
      ≠ 1351079888211149 / 1125899906842624 + 3602879701896397 / 36028797018963968 ∧
    (5854679515581645 / 4503599627370496 : ℚ)
      ≠ round64 (1351079888211149 / 1125899906842624 + 3602879701896397 / 36028797018963968) ∧
    ¬ ((splitCalls.foldl (fun ri c => Rounded.updateRollingInfo round64 c.1 ri c.2)
        Performance.zeroRollingInfo).GrossReturns.Total
      = (splitCalls.foldl (fun ri c => Rounded.updateRollingInfo round64 c.1 ri c.2)
          Performance.zeroRollingInfo).GrossReturns.Long
        + (splitCalls.foldl (fun ri c => Rounded.updateRollingInfo round64 c.1 ri c.2)
          Performance.zeroRollingInfo).GrossReturns.Short) := by
  refine ⟨splitCalls_GrossReturns, by norm_num, ?_, ?_⟩
  · have hsum : (1351079888211149 / 1125899906842624 + 3602879701896397 / 36028797018963968 : ℚ)
        = 46837436124653165 / 36028797018963968 := by norm_num
    rw [hsum, round64_long_add_short]
    norm_num
  · rw [splitCalls_GrossReturns]
    norm_num

/-- The integer counters of a bucket stay split, whatever the rounding. -/
theorem rounded_updateRollingInfo_Trades (fl : ℚ → ℚ) (tr : Trade)
    (ri : Performance.RollingInfo) (costPerOper : ℚ)
    (h : ri.Trades.Total = ri.Trades.Long + ri.Trades.Short) :
    (Rounded.updateRollingInfo fl tr ri costPerOper).Trades.Total
      = (Rounded.updateRollingInfo fl tr ri costPerOper).Trades.Long
        + (Rounded.updateRollingInfo fl tr ri costPerOper).Trades.Short := by
  unfold Rounded.updateRollingInfo
  by_cases hl : tr.TradeType = TradeTypeLong
  · simp only [hl, if_true]; omega
  · simp only [hl, if_false]; omega

/-- A call of `updateRollingInfo` none of whose operations rounds computes what
the exact arithmetic computes. -/
theorem rounded_updateRollingInfo_of_exact (fl : ℚ → ℚ) (tr : Trade)
    (ri : Performance.RollingInfo) (costPerOper : ℚ)
    (h : Rounded.StepExact fl tr ri costPerOper) :
    Rounded.updateRollingInfo fl tr ri costPerOper
      = Performance.updateRollingInfo tr ri costPerOper := by
  obtain ⟨h1, h2, h3, h4, h5, h6⟩ := h
  unfold Rounded.updateRollingInfo Performance.updateRollingInfo
  by_cases hl : tr.TradeType = TradeTypeLong
  · obtain ⟨h7, h8⟩ := h5 hl
    simp only [hl, if_true, h1, h2, h3, h4, h7, h8]
  · obtain ⟨h7, h8⟩ := h6 hl
    simp only [hl, if_false, h1, h2, h3, h4, h7, h8]

theorem rounded_run_Trades (fl : ℚ → ℚ) (calls : List (Trade × ℚ))
    (ri : Performance.RollingInfo) (h : ri.Trades.Total = ri.Trades.Long + ri.Trades.Short) :
    (calls.foldl (fun ri c => Rounded.updateRollingInfo fl c.1 ri c.2) ri).Trades.Total
      = (calls.foldl (fun ri c => Rounded.updateRollingInfo fl c.1 ri c.2) ri).Trades.Long
        + (calls.foldl (fun ri c => Rounded.updateRollingInfo fl c.1 ri c.2) ri).Trades.Short := by
  induction calls generalizing ri with
  | nil => exact h
  | cons c cs ih =>
    rw [List.foldl_cons]
    exact ih _ (rounded_updateRollingInfo_Trades fl c.1 ri c.2 h)

theorem rounded_run_split (fl : ℚ → ℚ) (calls : List (Trade × ℚ))
    (ri : Performance.RollingInfo) (h : ri.Split) (hex : Rounded.ExactRun fl ri calls) :
    (calls.foldl (fun ri c => Rounded.updateRollingInfo fl c.1 ri c.2) ri).Split := by
  induction calls generalizing ri with
  | nil => exact h
  | cons c cs ih =>
    obtain ⟨hstep, hrest⟩ := hex
    rw [List.foldl_cons]
    refine ih _ ?_ hrest
    rw [rounded_updateRollingInfo_of_exact fl c.1 ri c.2 hstep]
    exact updateRollingInfo_split c.1 ri c.2 h

/-- C30 as amended: after any sequence of `updateRollingInfo` calls on a zero
`RollingInfo` the trade counts satisfy Total = Long + Short; the gross and the
net returns satisfy Total = Long + Short when none of the `float64` additions
and subtractions of the calls rounds. -/
theorem updateRollingInfo_split_rounded (fl : ℚ → ℚ) (calls : List (Trade × ℚ)) :
    (calls.foldl (fun ri c => Rounded.updateRollingInfo fl c.1 ri c.2)
        Performance.zeroRollingInfo).Trades.Total
      = (calls.foldl (fun ri c => Rounded.updateRollingInfo fl c.1 ri c.2)
          Performance.zeroRollingInfo).Trades.Long
        + (calls.foldl (fun ri c => Rounded.updateRollingInfo fl c.1 ri c.2)
          Performance.zeroRollingInfo).Trades.Short ∧
    (Rounded.ExactRun fl Performance.zeroRollingInfo calls →
      (calls.foldl (fun ri c => Rounded.updateRollingInfo fl c.1 ri c.2)
        Performance.zeroRollingInfo).Split) := by
  refine ⟨rounded_run_Trades fl calls _ rfl, fun hex => ?_⟩
  exact rounded_run_split fl calls _
    (by simp [Performance.RollingInfo.Split, Performance.zeroRollingInfo]) hex

/-- C30 as amended, on a long trade of `1` and a short trade of `2` with the
cost `0.5` on `float64`: no operation rounds and the three Totals are split. -/
theorem updateRollingInfo_split_rounded_witness :
    Rounded.ExactRun round64 Performance.zeroRollingInfo
      [(longTrade 1, 1 / 2), (shortTrade 2, 1 / 2)] ∧
    ([(longTrade 1, 1 / 2), (shortTrade 2, 1 / 2)].foldl
      (fun ri c => Rounded.updateRollingInfo round64 c.1 ri c.2)
      Performance.zeroRollingInfo).Split := by
  have hex : Rounded.ExactRun round64 Performance.zeroRollingInfo
      [(longTrade 1, 1 / 2), (shortTrade 2, 1 / 2)] := by
    simp only [Rounded.ExactRun, Rounded.StepExact, Rounded.updateRollingInfo,
      Performance.zeroRollingInfo, longTrade, shortTrade, short_ne_long, if_true, if_false]
    norm_num [round64_zero, round64_one, round64_two, round64_three, short_ne_long]
  exact ⟨hex, (updateRollingInfo_split_rounded round64 _).2 hex⟩

/-! ## The R-multiples on `float64` -/

/-- `CalcRMultiple` on `float64` in closed form. -/
theorem Rounded_CalcRMultiple_eq (fl : ℚ → ℚ) (trades : List Trade) (tradeType : String)
    (risk costPerOper : ℚ) :
    Rounded.CalcRMultiple fl trades tradeType risk costPerOper
      = (trades.filter (fun t => decide (tradeType = TradeTypeAll ∨ tradeType = t.TradeType))).map
          (fun t => fl (fl (t.GrossProfit - fl (2 * costPerOper)) / risk)) := by
  have hgen : ∀ (l : List Trade) (acc : List ℚ),
      l.foldl (Rounded.rMultipleStep fl tradeType risk costPerOper) acc
        = acc ++ (l.filter
            (fun t => decide (tradeType = TradeTypeAll ∨ tradeType = t.TradeType))).map
            (fun t => fl (fl (t.GrossProfit - fl (2 * costPerOper)) / risk)) := by
    intro l
    induction l with
    | nil => intro acc; simp
    | cons t ts ih =>
      intro acc
      rw [List.foldl_cons, ih]
      by_cases ht : tradeType = TradeTypeAll ∨ tradeType = t.TradeType
      · simp [Rounded.rMultipleStep, ht, List.filter_cons]
      · simp [Rounded.rMultipleStep, ht, List.filter_cons]
  rw [Rounded.CalcRMultiple, hgen, List.nil_append]

/-- The gross R-multiples of all trades on `float64`, the gross profits being
`float64` values. -/
theorem Rounded_CalcRMultiple_all_gross (fl : ℚ → ℚ) (trades : List Trade) (risk : ℚ)
    (h0 : fl 0 = 0) (hg : ∀ t ∈ trades, fl t.GrossProfit = t.GrossProfit) :
    Rounded.CalcRMultiple fl trades TradeTypeAll risk 0
      = trades.map (fun t => fl (t.GrossProfit / risk)) := by
  rw [Rounded_CalcRMultiple_eq]
  have hall : trades.filter
      (fun t => decide (TradeTypeAll = TradeTypeAll ∨ TradeTypeAll = t.TradeType)) = trades :=
    List.filter_eq_self.mpr (fun t _ => by simp)
  rw [hall]
  apply List.map_congr_left
  intro t ht
  rw [mul_zero, h0, sub_zero, hg t ht]

theorem lossCounts_mergedTrades :
    lossCounts mergedTrades
      = [(-3, 3), (-7, 2), (-(7881299347898369 / 1125899906842624), 2)] := by
  simp [mergedTrades, lossCounts, countLossStep, GoMap.get, GoMap.set, longTrade]
  norm_num [GoMap.set]

theorem CalcRisk_mergedTrades : CalcRisk insertionOrder mergedTrades = .ok 3 := by
  unfold CalcRisk
  simp only [lossCounts_mergedTrades, insertionOrder, List.foldl_cons, List.foldl_nil]
  simp [stopLossStep]

/-- C33 fails on `float64`: with three losses of `-3`, two of `-7` and two of
`-7.000000000000001` the risk is `3`; the division by `3` sends `-7` and
`-7.000000000000001` to the same value `-2.3333333333333335`, which then
occurs four times among the R-multiples, `-1` three times. -/
theorem CalcRMultiple_modal_loss_counterexample :
    (∀ t ∈ mergedTrades, round64 t.GrossProfit = t.GrossProfit) ∧
    CalcRisk insertionOrder mergedTrades = .ok 3 ∧
    Rounded.CalcRMultiple round64 mergedTrades TradeTypeAll 3 0
      = [-1, -1, -1, -(5254199565265579 / 2251799813685248),
         -(5254199565265579 / 2251799813685248), -(5254199565265579 / 2251799813685248),
         -(5254199565265579 / 2251799813685248)] ∧
    (Rounded.CalcRMultiple round64 mergedTrades TradeTypeAll 3 0).count (-1) = 3 ∧
    (Rounded.CalcRMultiple round64 mergedTrades TradeTypeAll 3 0).count
      (-(5254199565265579 / 2251799813685248)) = 4 ∧
    (-(5254199565265579 / 2251799813685248) : ℚ) < 0 ∧
    ¬ ((Rounded.CalcRMultiple round64 mergedTrades TradeTypeAll 3 0).count
        (-(5254199565265579 / 2251799813685248))
      ≤ (Rounded.CalcRMultiple round64 mergedTrades TradeTypeAll 3 0).count (-1)) := by
  have hg : ∀ t ∈ mergedTrades, round64 t.GrossProfit = t.GrossProfit := by
    intro t ht
    simp only [mergedTrades, List.mem_cons, List.mem_singleton, List.not_mem_nil, or_false] at ht
    rcases ht with rfl | rfl | rfl | rfl | rfl | rfl | rfl <;>
      simp only [longTrade, round64_neg, round64_three, round64_seven, round64_above_seven]
  have hlist : Rounded.CalcRMultiple round64 mergedTrades TradeTypeAll 3 0
      = [-1, -1, -1, -(5254199565265579 / 2251799813685248),
         -(5254199565265579 / 2251799813685248), -(5254199565265579 / 2251799813685248),
         -(5254199565265579 / 2251799813685248)] := by
    rw [Rounded_CalcRMultiple_all_gross round64 mergedTrades 3 round64_zero hg]
    simp only [mergedTrades, List.map_cons, List.map_nil, longTrade]
    have e1 : round64 (-3 / 3) = -1 := by
      have : (-3 / 3 : ℚ) = -1 := by norm_num
      rw [this, round64_neg, round64_one]
    have e2 : round64 (-7 / 3) = -(5254199565265579 / 2251799813685248) := by
      have : (-7 / 3 : ℚ) = -(7 / 3) := by norm_num
      rw [this, round64_neg, round64_seven_thirds]
    have e3 : round64 (-(7881299347898369 / 1125899906842624) / 3)
        = -(5254199565265579 / 2251799813685248) := by
      have : (-(7881299347898369 / 1125899906842624) / 3 : ℚ)
          = -(7881299347898369 / 3377699720527872) := by norm_num
      rw [this, round64_neg, round64_above_seven_thirds]
    rw [e1, e2, e3]
  have hone : (Rounded.CalcRMultiple round64 mergedTrades TradeTypeAll 3 0).count (-1) = 3 := by
    rw [hlist]
    simp only [List.count_cons, List.count_nil]
    norm_num
  have hfour : (Rounded.CalcRMultiple round64 mergedTrades TradeTypeAll 3 0).count
      (-(5254199565265579 / 2251799813685248)) = 4 := by
    rw [hlist]
    simp only [List.count_cons, List.count_nil]
    norm_num
  refine ⟨hg, CalcRisk_mergedTrades, hlist, hone, hfour, by norm_num, ?_⟩
  rw [hone, hfour]
  decide

/-- C33 as amended: when `CalcRisk` returns the risk `r` and the gross profits
are `float64` values, the gross R-multiples of all trades contain `-1`; and no
other negative value occurs among them more often than `-1` provided the
`float64` division by `r` sends no two different gross profits of the list to
the same quotient. The rounding `fl` is any function that fixes `0` and `-1`
and keeps the sign, as the rounding of `float64` does. -/
theorem CalcRMultiple_modal_loss_rounded (fl : ℚ → ℚ) (range : GoMap ℚ Nat → List (ℚ × Nat))
    (hr : IsMapRange range) (trades : List Trade) (r : ℚ) (h : CalcRisk range trades = .ok r)
    (h0 : fl 0 = 0) (h1 : fl (-1) = -1) (hsign : ∀ x : ℚ, 0 ≤ x → 0 ≤ fl x)
    (hg : ∀ t ∈ trades, fl t.GrossProfit = t.GrossProfit) :
    (-1 : ℚ) ∈ Rounded.CalcRMultiple fl trades TradeTypeAll r 0 ∧
    ((∀ t ∈ trades, ∀ u ∈ trades,
        fl (t.GrossProfit / r) = fl (u.GrossProfit / r) → t.GrossProfit = u.GrossProfit) →
      ∀ v : ℚ, v < 0 →
        (Rounded.CalcRMultiple fl trades TradeTypeAll r 0).count v
          ≤ (Rounded.CalcRMultiple fl trades TradeTypeAll r 0).count (-1)) := by
  obtain ⟨hpos, hocc, hmode⟩ := CalcRisk_ok_modal range hr trades r h
  obtain ⟨t0, ht0, hgt0⟩ := (occurrences_pos_iff trades (-r)).mp hocc
  have hq0 : fl (t0.GrossProfit / r) = -1 := by
    rw [hgt0, neg_div, div_self hpos.ne', h1]
  rw [Rounded_CalcRMultiple_all_gross fl trades r h0 hg]
  have hcount : ∀ (u : Trade), u ∈ trades →
      (trades.map (fun t => fl (t.GrossProfit / r))).count (fl (u.GrossProfit / r))
        ≤ occurrences trades u.GrossProfit
      ∨ ¬ (∀ t ∈ trades, ∀ u ∈ trades,
        fl (t.GrossProfit / r) = fl (u.GrossProfit / r) → t.GrossProfit = u.GrossProfit) := by
    intro u hu
    by_cases hinj : ∀ t ∈ trades, ∀ u ∈ trades,
        fl (t.GrossProfit / r) = fl (u.GrossProfit / r) → t.GrossProfit = u.GrossProfit
    · left
      rw [List.count, List.countP_map, List.countP_eq_length_filter, occurrences]
      apply le_of_eq
      congr 1
      apply List.filter_congr
      intro t ht
      show (fl (t.GrossProfit / r) == fl (u.GrossProfit / r))
        = decide (t.GrossProfit = u.GrossProfit)
      by_cases hq : t.GrossProfit = u.GrossProfit
      · rw [decide_eq_true hq, hq]; exact beq_self_eq_true _
      · rw [decide_eq_false hq]
        exact beq_eq_false_iff_ne.mpr (fun hc => hq (hinj t ht u hu hc))
    · right; exact hinj
  refine ⟨?_, ?_⟩
  · rw [← hq0]
    exact List.mem_map_of_mem _ ht0
  · intro hinj v hv
    have hone : occurrences trades (-r)
        ≤ (trades.map (fun t => fl (t.GrossProfit / r))).count (-1) := by
      rw [List.count, List.countP_map, List.countP_eq_length_filter, occurrences]
      apply List.Sublist.length_le
      apply List.monotone_filter_right
      intro t htrue
      have hgt : t.GrossProfit = -r := by simpa using htrue
      show (fl (t.GrossProfit / r) == -1) = true
      rw [hgt, neg_div, div_self hpos.ne', h1]
      exact beq_self_eq_true _
    by_cases hex : v ∈ trades.map (fun t => fl (t.GrossProfit / r))
    · obtain ⟨u, hu, huv⟩ := List.mem_map.mp hex
      have hneg : u.GrossProfit < 0 := by
        by_contra hge
        have hq : 0 ≤ u.GrossProfit / r := div_nonneg (not_lt.mp hge) hpos.le
        have := hsign _ hq
        rw [huv] at this
        linarith
      rcases hcount u hu with hle | hno
      · rw [← huv]
        exact le_trans hle (le_trans (hmode _ hneg) hone)
      · exact absurd hinj hno
    · rw [List.count_eq_zero_of_not_mem hex]
      exact Nat.zero_le _

/-- C33 as amended, on the gross profits `-5, -5, -3, 4` with the rounding of
`float64`: the risk is `5`, the quotients `-1`, `-0.6` and `0.8` are distinct,
and `-0.6` does not occur more often than `-1`. -/
theorem CalcRMultiple_modal_loss_rounded_witness :
    (-1 : ℚ) ∈ Rounded.CalcRMultiple round64
      [longTrade (-5), longTrade (-5), longTrade (-3), longTrade 4] TradeTypeAll 5 0 ∧
    (Rounded.CalcRMultiple round64
        [longTrade (-5), longTrade (-5), longTrade (-3), longTrade 4] TradeTypeAll 5 0).count
        (-(5404319552844595 / 9007199254740992))
      ≤ (Rounded.CalcRMultiple round64
        [longTrade (-5), longTrade (-5), longTrade (-3), longTrade 4] TradeTypeAll 5 0).count
        (-1) := by
  have hneg1 : round64 (-1) = -1 := by rw [round64_neg, round64_one]
  have e5 : round64 (-5 / 5) = -1 := by
    have : (-5 / 5 : ℚ) = -1 := by norm_num
    rw [this, hneg1]
  have e3 : round64 (-3 / 5) = -(5404319552844595 / 9007199254740992) := by
    have : (-3 / 5 : ℚ) = -(3 / 5) := by norm_num
    rw [this, round64_neg, round64_three_fifths]
  have e4 : round64 (4 / 5) = 3602879701896397 / 4503599627370496 := round64_four_fifths
  have h := CalcRMultiple_modal_loss_rounded round64 insertionOrder isMapRange_insertionOrder
    [longTrade (-5), longTrade (-5), longTrade (-3), longTrade 4] 5 CalcRisk_threeLosses
    round64_zero hneg1 round64_nonneg
    (by
      intro t ht
      simp only [List.mem_cons, List.mem_singleton, List.not_mem_nil, or_false] at ht
      rcases ht with rfl | rfl | rfl | rfl <;>
        simp only [longTrade, round64_neg, round64_five, round64_three, round64_four])
  refine ⟨h.1, h.2 ?_ _ (by norm_num)⟩
  intro t ht u hu
  simp only [List.mem_cons, List.mem_singleton, List.not_mem_nil, or_false] at ht hu
  rcases ht with rfl | rfl | rfl | rfl <;> rcases hu with rfl | rfl | rfl | rfl <;>
    simp only [longTrade, e5, e3, e4] <;> norm_num

/-! ## The rolling buckets on `float64` -/

/-- What `updateRollingInfo` does to the Total figures of a bucket on `float64`. -/
theorem rounded_updateRollingInfo_totals (fl : ℚ → ℚ) (tr : Trade)
    (ri : Performance.RollingInfo) (costPerOper : ℚ) :
    (Rounded.updateRollingInfo fl tr ri costPerOper).Trades.Total = ri.Trades.Total + 1 ∧
    (Rounded.updateRollingInfo fl tr ri costPerOper).GrossReturns.Total
      = fl (ri.GrossReturns.Total + tr.GrossProfit) := by
  unfold Rounded.updateRollingInfo
  by_cases h : tr.TradeType = TradeTypeLong <;> simp [h]

theorem rounded_updateBucket_isSome (fl : ℚ → ℚ) (buckets : List Performance.RollingInfo)
    (index : Int) (tr : Trade) (costPerOper : ℚ) (h0 : 0 ≤ index)
    (h1 : index < (buckets.length : Int)) :
    ∃ b, Rounded.updateBucket fl buckets index tr costPerOper = some b ∧
      b.length = buckets.length := by
  have hlt : index.toNat < buckets.length := by omega
  unfold Rounded.updateBucket
  rw [if_pos ⟨h0, h1⟩, List.getElem?_eq_getElem hlt]
  exact ⟨_, rfl, List.length_set _ _ _⟩

/-- A bucket update adds one trade to the sum of the counters; it adds the gross
profit to the sum of the gross Totals when the addition does not round. -/
theorem rounded_updateBucket_sums (fl : ℚ → ℚ) (buckets b : List Performance.RollingInfo)
    (index : Int) (tr : Trade) (costPerOper : ℚ)
    (h : Rounded.updateBucket fl buckets index tr costPerOper = some b) :
    (b.map (fun ri => ri.Trades.Total)).sum = (buckets.map (fun ri => ri.Trades.Total)).sum + 1 ∧
    ((∀ ri, buckets[index.toNat]? = some ri →
        fl (ri.GrossReturns.Total + tr.GrossProfit) = ri.GrossReturns.Total + tr.GrossProfit) →
      (b.map (fun ri => ri.GrossReturns.Total)).sum
        = (buckets.map (fun ri => ri.GrossReturns.Total)).sum + tr.GrossProfit) := by
  unfold Rounded.updateBucket at h
  split at h
  · cases hri : buckets[index.toNat]? with
    | none => rw [hri] at h; cases h
    | some ri =>
      rw [hri] at h
      simp only [Option.some.injEq] at h
      subst h
      rw [sum_map_set (fun ri => ri.Trades.Total) buckets _ _ ri hri,
        sum_map_set (fun ri => ri.GrossReturns.Total) buckets _ _ ri hri,
        (rounded_updateRollingInfo_totals fl tr ri costPerOper).1,
        (rounded_updateRollingInfo_totals fl tr ri costPerOper).2]
      constructor
      · ring
      · intro hex
        rw [hex ri rfl]
        ring
  · cases h

theorem rounded_updateYoY_isSome (fl : ℚ → ℚ) (list : List Performance.YoYRolling) (year : Int)
    (tr : Trade) (slot : Int) (costPerOper : ℚ) (slots : Nat) (h0 : 0 ≤ slot)
    (h1 : slot < (slots : Int)) (hdata : ∀ e ∈ list, e.Data.length = slots) :
    ∃ list2, Rounded.updateYoY fl list year tr slot costPerOper slots = some list2 ∧
      ∀ e ∈ list2, e.Data.length = slots := by
  have key : ∀ list1 : List Performance.YoYRolling, list1 ≠ [] →
      (∀ e ∈ list1, e.Data.length = slots) →
      ∃ list2,
        (match list1.getLast? with
          | none => none
          | some yoy =>
            match Rounded.updateBucket fl yoy.Data slot tr costPerOper with
            | none => none
            | some data => some (list1.dropLast ++ [{ yoy with Data := data }])) = some list2 ∧
        ∀ e ∈ list2, e.Data.length = slots := by
    intro list1 hne hsizes
    cases hc : list1.getLast? with
    | none => exact absurd (List.getLast?_eq_none_iff.mp hc) hne
    | some yoy =>
      have hyin : yoy ∈ list1 := List.mem_of_getLast?_eq_some hc
      obtain ⟨data, hdata2, hlen⟩ := rounded_updateBucket_isSome fl yoy.Data slot tr
        costPerOper h0 (by rw [hsizes yoy hyin]; exact h1)
      simp only [hdata2]
      refine ⟨_, rfl, ?_⟩
      intro e he
      rcases List.mem_append.mp he with h | h
      · exact hsizes e (List.mem_of_mem_dropLast h)
      · rw [List.mem_singleton.mp h]
        simp only [hlen]
        exact hsizes yoy hyin
  unfold Rounded.updateYoY
  simp only []
  apply key
  · cases hc : list.getLast? with
    | none => simp
    | some last =>
      by_cases hy : last.Year ≠ year
      · simp [hy]
      · simp only [hy, if_false]
        intro hnil
        rw [hnil] at hc
        cases hc
  · intro e he
    cases hc : list.getLast? with
    | none =>
      rw [hc] at he
      simp only [List.mem_append, List.mem_singleton] at he
      rcases he with h | h
      · exact hdata e h
      · rw [h]; simp
    | some last =>
      rw [hc] at he
      by_cases hy : last.Year ≠ year
      · simp only [hy, if_true, List.mem_append, List.mem_singleton, ne_eq, not_false_eq_true] at he
        rcases he with h | h
        · exact hdata e h
        · rw [h]; simp
      · simp only [hy, if_false] at he
        exact hdata e he

/-- One iteration of the loop of `calcRolling` on `float64` returns, keeps the
sizes of the arrays, and its day-of-week and month-of-year buckets are the
results of the two bucket updates. -/
theorem rounded_rollingStep_spec (fl : ℚ → ℚ) (costPerOper : ℚ) (r : Performance.Rolling)
    (tr : Trade) (hr : r.Sized) (hv : tr.EntryDate.Valid) :
    ∃ r2, Rounded.rollingStep fl costPerOper (some r) tr = some r2 ∧ r2.Sized ∧
      Rounded.updateBucket fl r.Daily (tr.EntryDate.weekday : Int) tr costPerOper
        = some r2.Daily ∧
      Rounded.updateBucket fl r.Monthly ((tr.EntryDate.month : Int) - 1) tr costPerOper
        = some r2.Monthly := by
  obtain ⟨hd, hm, hdy, hmy⟩ := hr
  obtain ⟨hw, hm1, hm12⟩ := hv
  have hdow0 : (0 : Int) ≤ (tr.EntryDate.weekday : Int) := by omega
  have hdow7 : (tr.EntryDate.weekday : Int) < ((7 : Nat) : Int) := by omega
  have hmon0 : (0 : Int) ≤ (tr.EntryDate.month : Int) - 1 := by omega
  have hmon12 : (tr.EntryDate.month : Int) - 1 < ((12 : Nat) : Int) := by omega
  obtain ⟨daily, hdaily, hdlen⟩ := rounded_updateBucket_isSome fl r.Daily
    (tr.EntryDate.weekday : Int) tr costPerOper hdow0 (by rw [hd]; exact hdow7)
  obtain ⟨monthly, hmonthly, hmlen⟩ := rounded_updateBucket_isSome fl r.Monthly
    ((tr.EntryDate.month : Int) - 1) tr costPerOper hmon0 (by rw [hm]; exact hmon12)
  obtain ⟨dayYoY, hday, hdayS⟩ := rounded_updateYoY_isSome fl r.DayYoY tr.EntryDate.year tr
    (tr.EntryDate.weekday : Int) costPerOper 7 hdow0 hdow7 hdy
  obtain ⟨monthYoY, hmonth, hmonthS⟩ := rounded_updateYoY_isSome fl r.MonthYoY
    tr.EntryDate.year tr ((tr.EntryDate.month : Int) - 1) costPerOper 12 hmon0 hmon12 hmy
  refine ⟨{ Daily := daily, Monthly := monthly, DayYoY := dayYoY, MonthYoY := monthYoY }, ?_,
    ⟨by rw [hdlen, hd], by rw [hmlen, hm], hdayS, hmonthS⟩, hdaily, hmonthly⟩
  simp only [Rounded.rollingStep, hdaily, hmonthly, hday, hmonth]

/-- The loop of `calcRolling` on `float64` returns; it adds the number of trades
to the sums of the counters of the day-of-week and of the month-of-year
buckets, and the sum of the gross profits to the sums of their gross Totals
when no addition to such a Total rounds. -/
theorem foldl_rounded_rollingStep (fl : ℚ → ℚ) (costPerOper : ℚ) (trades : List Trade)
    (hv : ∀ t ∈ trades, t.EntryDate.Valid) (r : Performance.Rolling) (hr : r.Sized) :
    ∃ r2, trades.foldl (Rounded.rollingStep fl costPerOper) (some r) = some r2 ∧ r2.Sized ∧
      (r2.Daily.map (fun ri => ri.Trades.Total)).sum
        = (r.Daily.map (fun ri => ri.Trades.Total)).sum + (trades.length : Int) ∧
      (r2.Monthly.map (fun ri => ri.Trades.Total)).sum
        = (r.Monthly.map (fun ri => ri.Trades.Total)).sum + (trades.length : Int) ∧
      (Rounded.GrossExact fl costPerOper r trades →
        (r2.Daily.map (fun ri => ri.GrossReturns.Total)).sum
          = (r.Daily.map (fun ri => ri.GrossReturns.Total)).sum
            + (trades.map (fun t => t.GrossProfit)).sum ∧
        (r2.Monthly.map (fun ri => ri.GrossReturns.Total)).sum
          = (r.Monthly.map (fun ri => ri.GrossReturns.Total)).sum
            + (trades.map (fun t => t.GrossProfit)).sum) := by
  induction trades generalizing r with
  | nil => exact ⟨r, rfl, hr, by simp, by simp, fun _ => ⟨by simp, by simp⟩⟩
  | cons t ts ih =>
    have hvt := hv t (List.mem_cons_self _ _)
    obtain ⟨r1, hstep, hsized, hdaily, hmonthly⟩ :=
      rounded_rollingStep_spec fl costPerOper r t hr hvt
    obtain ⟨hd1, hd2⟩ := rounded_updateBucket_sums fl _ _ _ _ _ hdaily
    obtain ⟨hm1, hm2⟩ := rounded_updateBucket_sums fl _ _ _ _ _ hmonthly
    obtain ⟨r2, hfold, hs2, h1, h2, h3⟩ :=
      ih (fun x hx => hv x (List.mem_cons_of_mem _ hx)) r1 hsized
    refine ⟨r2, by rw [List.foldl_cons, hstep, hfold], hs2, ?_, ?_, ?_⟩
    · rw [h1, hd1, List.length_cons]; push_cast; ring
    · rw [h2, hm1, List.length_cons]; push_cast; ring
    · intro hex
      obtain ⟨⟨hexd, hexm⟩, hrest⟩ := hex
      obtain ⟨h3d, h3m⟩ := h3 (hrest r1 hstep)
      have hmon : ((t.EntryDate.month : Int) - 1).toNat = t.EntryDate.month - 1 := by
        have := hvt.2.1
        omega
      constructor
      · rw [h3d, hd2 (by rw [Int.toNat_ofNat]; exact hexd), List.map_cons, List.sum_cons]; ring
      · rw [h3m, hm2 (by rw [hmon]; exact hexm), List.map_cons, List.sum_cons]; ring

/-- C40 as amended: on a fresh response `calcRolling` returns, and the Total
trade counts of the 7 day-of-week buckets and of the 12 month-of-year buckets
both sum to the number of trades; the Total gross returns of the 7 buckets and
of the 12 buckets both sum to the total gross profit of the trades when no
`float64` addition of a gross profit to such a Total rounds. -/
theorem calcRolling_bucket_sums_rounded (fl : ℚ → ℚ) (ts : TradingSystem) (trades : List Trade)
    (hv : ∀ t ∈ trades, t.EntryDate.Valid) :
    ∃ r, Rounded.calcRolling fl ts trades Performance.zeroRolling = some r ∧
      r.Daily.length = 7 ∧ r.Monthly.length = 12 ∧
      (r.Daily.map (fun ri => ri.Trades.Total)).sum = (trades.length : Int) ∧
      (r.Monthly.map (fun ri => ri.Trades.Total)).sum = (trades.length : Int) ∧
      (Rounded.GrossExact fl ts.CostPerOperation Performance.zeroRolling trades →
        (r.Daily.map (fun ri => ri.GrossReturns.Total)).sum
          = (trades.map (fun t => t.GrossProfit)).sum ∧
        (r.Monthly.map (fun ri => ri.GrossReturns.Total)).sum
          = (trades.map (fun t => t.GrossProfit)).sum) := by
  obtain ⟨r, hfold, hsized, h1, h2, h3⟩ :=
    foldl_rounded_rollingStep fl ts.CostPerOperation trades hv Performance.zeroRolling
      zeroRolling_sized
  have z1 : (Performance.zeroRolling.Daily.map (fun ri => ri.Trades.Total)).sum = 0 := by
    simp [Performance.zeroRolling, Performance.zeroRollingInfo]
  have z2 : (Performance.zeroRolling.Monthly.map (fun ri => ri.Trades.Total)).sum = 0 := by
    simp [Performance.zeroRolling, Performance.zeroRollingInfo]
  have z3 : (Performance.zeroRolling.Daily.map (fun ri => ri.GrossReturns.Total)).sum = 0 := by
    simp [Performance.zeroRolling, Performance.zeroRollingInfo]
  have z4 : (Performance.zeroRolling.Monthly.map (fun ri => ri.GrossReturns.Total)).sum = 0 := by
    simp [Performance.zeroRolling, Performance.zeroRollingInfo]
  rw [z1, zero_add] at h1
  rw [z2, zero_add] at h2
  simp only [z3, z4, zero_add] at h3
  exact ⟨r, hfold, hsized.1, hsized.2.1, h1, h2, h3⟩

/-- The day-of-week and month-of-year buckets after `calcRolling` on
`rollingTrades` with the rounding of `float64`: the Tuesday bucket holds
`1.3`, the January bucket `1.2000000000000002` and the February bucket `0.1`. -/
theorem calcRolling_rollingTrades :
    ∃ r, Rounded.calcRolling round64 freeSystem rollingTrades Performance.zeroRolling = some r ∧
      r.Daily.map (fun ri => ri.GrossReturns.Total)
        = [0, 0, 5854679515581645 / 4503599627370496, 0, 0, 0, 0] ∧
      r.Monthly.map (fun ri => ri.GrossReturns.Total)
        = [1351079888211149 / 1125899906842624, 3602879701896397 / 36028797018963968,
           0, 0, 0, 0, 0, 0, 0, 0, 0, 0] := by
  refine ⟨_, rfl, ?_, ?_⟩
  · simp only [Rounded.calcRolling, rollingTrades, List.foldl_cons, List.foldl_nil,
      Rounded.rollingStep, Rounded.updateBucket, Rounded.updateYoY, Rounded.updateRollingInfo,
      Performance.zeroRolling, Performance.zeroRollingInfo, longTrade, februaryTrade,
      januaryTrade, sampleDay, februaryDay, januaryDay, freeSystem, round64_tenth,
      round64_eleven_tenths, Int.toNat_ofNat]
    norm_num [round64_zero, round64_tenth_value, round64_eleven_tenths_value,
      round64_twice_tenth_value, round64_fifth_add_eleven_tenths,
      round64_tenth_add_eleven_tenths, List.replicate]
  · simp only [Rounded.calcRolling, rollingTrades, List.foldl_cons, List.foldl_nil,
      Rounded.rollingStep, Rounded.updateBucket, Rounded.updateYoY, Rounded.updateRollingInfo,
      Performance.zeroRolling, Performance.zeroRollingInfo, longTrade, februaryTrade,
      januaryTrade, sampleDay, februaryDay, januaryDay, freeSystem, round64_tenth,
      round64_eleven_tenths, Int.toNat_ofNat]
    norm_num [round64_zero, round64_tenth_value, round64_eleven_tenths_value,
      round64_twice_tenth_value, round64_fifth_add_eleven_tenths,
      round64_tenth_add_eleven_tenths, List.replicate]

theorem rollingTrades_valid : ∀ t ∈ rollingTrades, t.EntryDate.Valid := by
  intro t ht
  simp only [rollingTrades, List.mem_cons, List.mem_singleton, List.not_mem_nil, or_false] at ht
  rcases ht with rfl | rfl | rfl <;>
    simp [Time.Valid, longTrade, februaryTrade, januaryTrade, sampleDay, februaryDay, januaryDay]

/-- C40 fails on `float64`: three trades entered on Tuesdays, `0.1` in January,
`0.1` in February and `1.1` in January, give the 7 day-of-week buckets the
sum `1.3` of gross Totals and the 12 month-of-year buckets the sum
`1.2000000000000002 + 0.1`; the two sums differ from each other and from the
sum of the three gross profits. -/
theorem calcRolling_bucket_sums_counterexample :
    (∀ t ∈ rollingTrades, t.EntryDate.Valid) ∧
    ∃ r, Rounded.calcRolling round64 freeSystem rollingTrades Performance.zeroRolling = some r ∧
      (r.Daily.map (fun ri => ri.GrossReturns.Total)).sum
        = 5854679515581645 / 4503599627370496 ∧
      (r.Monthly.map (fun ri => ri.GrossReturns.Total)).sum
        = 46837436124653165 / 36028797018963968 ∧
      (rollingTrades.map (fun t => t.GrossProfit)).sum
        = 23418718062326581 / 18014398509481984 ∧
      (r.Daily.map (fun ri => ri.GrossReturns.Total)).sum
        ≠ (r.Monthly.map (fun ri => ri.GrossReturns.Total)).sum ∧
      (r.Daily.map (fun ri => ri.GrossReturns.Total)).sum
        ≠ (rollingTrades.map (fun t => t.GrossProfit)).sum ∧
      (r.Monthly.map (fun ri => ri.GrossReturns.Total)).sum
        ≠ (rollingTrades.map (fun t => t.GrossProfit)).sum := by
  obtain ⟨r, hr, hd, hm⟩ := calcRolling_rollingTrades
  have hsum : (rollingTrades.map (fun t => t.GrossProfit)).sum
      = 23418718062326581 / 18014398509481984 := by
    simp only [rollingTrades, List.map_cons, List.map_nil, List.sum_cons, List.sum_nil,
      longTrade, februaryTrade, januaryTrade, round64_tenth, round64_eleven_tenths]
    norm_num
  refine ⟨rollingTrades_valid, r, hr, ?_, ?_, hsum, ?_, ?_, ?_⟩
  · rw [hd]; norm_num
  · rw [hm]; norm_num
  · rw [hd, hm]; norm_num
  · rw [hd, hsum]; norm_num
  · rw [hm, hsum]; norm_num

/-- C40 as amended, on a long trade of `1` and a short trade of `2` entered on
the same Tuesday of January, with the rounding of `float64`: no addition
rounds, and the gross Totals of the 7 and of the 12 buckets both sum to `3`. -/
theorem calcRolling_bucket_sums_rounded_witness :
    Rounded.GrossExact round64 sampleSystem.CostPerOperation Performance.zeroRolling
      [longTrade 1, shortTrade 2] ∧
    ∃ r, Rounded.calcRolling round64 sampleSystem [longTrade 1, shortTrade 2]
        Performance.zeroRolling = some r ∧
      (r.Daily.map (fun ri => ri.Trades.Total)).sum = 2 ∧
      (r.Daily.map (fun ri => ri.GrossReturns.Total)).sum = 3 ∧
      (r.Monthly.map (fun ri => ri.GrossReturns.Total)).sum = 3 := by
  have hvalid : ∀ t ∈ [longTrade 1, shortTrade 2], t.EntryDate.Valid := by
    intro t ht
    simp only [List.mem_cons, List.mem_singleton, List.not_mem_nil, or_false] at ht
    rcases ht with rfl | rfl <;> simp [Time.Valid, longTrade, shortTrade, sampleDay]
  have hex : Rounded.GrossExact round64 sampleSystem.CostPerOperation Performance.zeroRolling
      [longTrade 1, shortTrade 2] := by
    simp only [Rounded.GrossExact, Rounded.GrossExactStep, Rounded.rollingStep,
      Rounded.updateBucket, Rounded.updateYoY, Rounded.updateRollingInfo,
      Performance.zeroRolling, Performance.zeroRollingInfo, longTrade, shortTrade, sampleDay,
      sampleSystem, Int.toNat_ofNat]
    norm_num [round64_zero, round64_one, round64_two, round64_three, List.replicate]
  obtain ⟨r, hr, _, _, h1, _, h3⟩ :=
    calcRolling_bucket_sums_rounded round64 sampleSystem [longTrade 1, shortTrade 2] hvalid
  obtain ⟨hd, hm⟩ := h3 hex
  have hsum : ([longTrade 1, shortTrade 2].map (fun t => t.GrossProfit)).sum = 3 := by
    simp [longTrade, shortTrade]; norm_num
  rw [hsum] at hd hm
  exact ⟨hex, r, hr, by simpa using h1, hd, hm⟩

end PortfolioTrader
